import Mathlib

/-!
# ART middle-end: a verification development

Shallow embedding of parts of `compiler/dex/frontend.cc`, `compiler/dex/mir_graph.h`,
`runtime/interpreter/interpreter_common.h`, `runtime/object_utils.h`,
`runtime/entrypoints/quick/quick_lock_entrypoints.cc` and `runtime/gc/space/malloc_space.h`,
followed by theorems about them.

Conventions of the embedding
* C++ `int`, `int16_t`, `int32_t`, `int64_t` values are `Int`; unsigned values are `Nat`.
  Where a conversion or an operator can wrap, the wrap is written out with `% 2 ^ w`.
* A pointer is an `Option`: `none` is `NULL`.
* Calls into collaborators whose bodies are outside the embedded files (the pass driver, the
  code generators, `MIRGraph::InlineMethod`, ...) are recorded as events of a trace, and what
  they return is an input of the embedding.
-/

namespace art

/-! ## frontend.cc : CompileMethod -/

/-- The instruction sets `CompileMethod` names; `other` stands for every remaining
enumerator of `InstructionSet`. -/
inductive InstructionSet where
  | kThumb2
  | kX86
  | kMips
  | other
  deriving DecidableEq, Repr

/-- The back ends `CompileMethod` tells apart: `kPortable` and every other enumerator. -/
inductive CompilerBackend where
  | kPortable
  | other
  deriving DecidableEq, Repr

/-- The field of `DexFile::CodeItem` that `CompileMethod` reads for the size check
(`uint32_t insns_size_in_code_units_`) and the register count it copies. -/
structure CodeItem where
  registers_size_ : Nat
  insns_size_in_code_units_ : Nat
  deriving DecidableEq, Repr

/-- A `CompiledMethod*`: `none` is `NULL`, `some h` a handle of a compiled method. -/
abbrev CompiledMethodPtr := Option Nat

/-- The calls `CompileMethod` makes into other components, in the order of the source. -/
inductive Event where
  /-- The call `LOG(INFO) << "Method size exceeds compiler limits: " << size`. -/
  | LogMethodSizeExceeds (size : Nat)
  /-- The statement `cu.mir_graph.reset(new MIRGraph(&cu, &cu.arena))`. -/
  | NewMIRGraph
  | EnableOpcodeCounting
  | InlineMethod
  | SkipCompilation
  /-- The statements `PassDriver driver(&cu); driver.Launch()`. -/
  | PassDriverLaunch
  | DumpCheckStats
  | ShowOpcodeStats
  | RemapRegLocations
  | PortableCodeGenerator
  | ArmCodeGenerator
  | MipsCodeGenerator
  | X86CodeGenerator
  /-- The call `LOG(FATAL) << "Unexpected instruction set: "`. -/
  | LogFatalUnexpectedInstructionSet
  | Materialize
  | GetCompiledMethod
  deriving DecidableEq, Repr

/-- How a call of `CompileMethod` ends: it returns a pointer, or the process is aborted
(a failed `DCHECK` of a debug build, or `LOG(FATAL)`). -/
inductive Outcome where
  | returned (result : CompiledMethodPtr)
  | aborted
  deriving DecidableEq, Repr

/-- What is observed of one call of `CompileMethod`. -/
structure Run where
  outcome : Outcome
  trace : List Event
  deriving DecidableEq, Repr

/-- Everything `CompileMethod` takes from its surroundings: the build configuration, the
driver's instruction set, the positions of the debug bits it tests (their enum is declared
outside the embedded files), and the values its collaborators return. -/
structure Env where
  /-- Whether `ART_USE_PORTABLE_COMPILER` is defined. -/
  ART_USE_PORTABLE_COMPILER : Bool
  /-- Whether `DCHECK` is compiled in. -/
  kIsDebugBuild : Bool
  /-- The value of `compiler.GetInstructionSet()`. -/
  instruction_set : InstructionSet
  kDebugDumpCheckStats : Nat
  kDebugCountOpcodes : Nat
  /-- What `cu.mir_graph->SkipCompilation(...)` returns if it is called. -/
  skip_compilation : Bool
  /-- What `cu.cg->GetCompiledMethod()` returns if it is called. -/
  compiled_method : CompiledMethodPtr
  deriving Repr

/-- The constant `static uint32_t kCompilerDebugFlags = 0 | ... | 0;`, every flag of which
is commented out. -/
def kCompilerDebugFlags : Nat := 0

/-- The code generator chosen by `switch (compiler.GetInstructionSet())`; `none` is the
`default:` branch. -/
def selectCodeGenerator : InstructionSet → Option Event
  | .kThumb2 => some .ArmCodeGenerator
  | .kMips => some .MipsCodeGenerator
  | .kX86 => some .X86CodeGenerator
  | .other => none

/-- The tail of `CompileMethod` from `cu.cg->Materialize()` on. -/
def CompileMethod.finish (env : Env) (t : List Event) : Run :=
  ⟨.returned env.compiled_method, t ++ [.Materialize, .GetCompiledMethod]⟩

/-- The part of `CompileMethod` that creates the code generator, after
`RemapRegLocations`. -/
def CompileMethod.codegen (env : Env) (compiler_backend : CompilerBackend)
    (t : List Event) : Run :=
  if env.ART_USE_PORTABLE_COMPILER && decide (compiler_backend = .kPortable) then
    CompileMethod.finish env (t ++ [.PortableCodeGenerator])
  else
    match selectCodeGenerator env.instruction_set with
    | some cg => CompileMethod.finish env (t ++ [cg])
    | none => ⟨.aborted, t ++ [.LogFatalUnexpectedInstructionSet]⟩

/-- The part of `CompileMethod` from the creation of the pass driver to
`RemapRegLocations`. `cu.enable_debug` is `kCompilerDebugFlags` here, since
`cu.compiler_method_match` is empty. -/
def CompileMethod.optimize (env : Env) (compiler_backend : CompilerBackend)
    (t : List Event) : Run :=
  let enable_debug := kCompilerDebugFlags
  let t := t ++ [.PassDriverLaunch]
  let t := if enable_debug &&& (1 <<< env.kDebugDumpCheckStats) ≠ 0
    then t ++ [.DumpCheckStats] else t
  let t := if kCompilerDebugFlags &&& (1 <<< env.kDebugCountOpcodes) ≠ 0
    then t ++ [.ShowOpcodeStats] else t
  CompileMethod.codegen env compiler_backend (t ++ [.RemapRegLocations])

/-- The function `CompileMethod` of frontend.cc. Logging through `VLOG` and the timing
splits (switched off by `kCompilerDebugFlags`) leave no event. -/
def CompileMethod (env : Env) (compiler_backend : CompilerBackend)
    (code_item : CodeItem) : Run :=
  if code_item.insns_size_in_code_units_ >= 0x10000 then
    ⟨.returned none, [.LogMethodSizeExceeds code_item.insns_size_in_code_units_]⟩
  else if env.kIsDebugBuild &&
      !(decide (env.instruction_set = .kThumb2) || decide (env.instruction_set = .kX86) ||
        decide (env.instruction_set = .kMips)) then
    -- DCHECK on cu.instruction_set
    ⟨.aborted, []⟩
  else
    let t := [Event.NewMIRGraph]
    let t := if kCompilerDebugFlags &&& (1 <<< env.kDebugCountOpcodes) ≠ 0
      then t ++ [.EnableOpcodeCounting] else t
    let t := t ++ [.InlineMethod]
    if env.ART_USE_PORTABLE_COMPILER then
      CompileMethod.optimize env compiler_backend t
    else if env.skip_compilation then
      ⟨.returned none, t ++ [.SkipCompilation]⟩
    else
      CompileMethod.optimize env compiler_backend (t ++ [.SkipCompilation])

/-- The run of `CompileMethod` that rejects a method of `size` code units as too large. -/
def Run.rejectedAsTooLarge (r : Run) (size : Nat) : Prop :=
  r = ⟨.returned none, [.LogMethodSizeExceeds size]⟩

/-- The events by which the graph reaches a downstream component. -/
def Event.isDownstream : Event → Bool
  | .PassDriverLaunch | .DumpCheckStats | .ShowOpcodeStats | .RemapRegLocations
  | .PortableCodeGenerator | .ArmCodeGenerator | .MipsCodeGenerator | .X86CodeGenerator
  | .Materialize | .GetCompiledMethod => true
  | _ => false

/-! ## mir_graph.h : constants -/

/-- The macro `INVALID_SREG`. -/
def INVALID_SREG : Int := -1

/-- The macro `SSA_METHOD_BASEREG`: SSA encoding of the Method pointer. -/
def SSA_METHOD_BASEREG : Int := -2

/-- The macro `SSA_CTEMP_BASEREG`: first compiler temp basereg, grows smaller. -/
def SSA_CTEMP_BASEREG : Int := SSA_METHOD_BASEREG - 1

/-- The constant `static const BasicBlockId NullBasicBlockId = 0` (a `uint16_t`). -/
def NullBasicBlockId : Nat := 0

/-! The enumerators of `DataFlowAttributePos` that describe operands, and their masks. -/

def kUA : Nat := 0
def kUB : Nat := 1
def kUC : Nat := 2
def kAWide : Nat := 3
def kBWide : Nat := 4
def kCWide : Nat := 5
def kDA : Nat := 6
def kFormat35c : Nat := 9
def kFormat3rc : Nat := 10
def kFPA : Nat := 22
def kFPB : Nat := 23
def kFPC : Nat := 24
def kCoreA : Nat := 25
def kCoreB : Nat := 26
def kCoreC : Nat := 27

def DF_NOP : Nat := 0
def DF_UA : Nat := 1 <<< kUA
def DF_UB : Nat := 1 <<< kUB
def DF_UC : Nat := 1 <<< kUC
def DF_A_WIDE : Nat := 1 <<< kAWide
def DF_B_WIDE : Nat := 1 <<< kBWide
def DF_C_WIDE : Nat := 1 <<< kCWide
def DF_DA : Nat := 1 <<< kDA
def DF_FORMAT_35C : Nat := 1 <<< kFormat35c
def DF_FORMAT_3RC : Nat := 1 <<< kFormat3rc
def DF_FP_A : Nat := 1 <<< kFPA
def DF_FP_B : Nat := 1 <<< kFPB
def DF_FP_C : Nat := 1 <<< kFPC
def DF_CORE_A : Nat := 1 <<< kCoreA
def DF_CORE_B : Nat := 1 <<< kCoreB
def DF_CORE_C : Nat := 1 <<< kCoreC
def DF_HAS_USES : Nat := DF_UA ||| DF_UB ||| DF_UC
def DF_HAS_DEFS : Nat := DF_DA

/-- The C++ test `if (df_attributes & mask)`. -/
def dfTest (df_attributes mask : Nat) : Bool := (df_attributes &&& mask) != 0

/-! ## mir_graph.h : data -/

/-- The struct `SSARepresentation`; the arrays `uses` and `defs` carry their lengths
`num_uses` and `num_defs` beside them, as in the source. -/
structure SSARepresentation where
  num_uses : Int
  num_defs : Int
  uses : List Int
  fp_use : List Bool
  defs : List Int
  fp_def : List Bool
  deriving DecidableEq, Repr

/-- The struct `SuccessorBlockInfo`. -/
structure SuccessorBlockInfo where
  block : Nat
  key : Int
  deriving DecidableEq, Repr

/-- The struct `BasicBlock`, without its instruction list and its data-flow record; bit
vectors and growable arrays are lists. -/
structure BasicBlock where
  id : Nat
  dfs_id : Nat
  start_offset : Nat
  fall_through : Nat
  taken : Nat
  i_dom : Nat
  nesting_depth : Nat
  visited : Bool
  hidden : Bool
  catch_entry : Bool
  dominators : List Nat
  i_dominated : List Nat
  dom_frontier : List Nat
  predecessors : List Nat
  successor_blocks : List SuccessorBlockInfo
  deriving DecidableEq, Repr

/-- A block with the given id and start offset and no edges. -/
def exampleBlock (id start_offset : Nat) : BasicBlock :=
  ⟨id, 0, start_offset, 0, 0, 0, 0, false, false, false, [], [], [], [], []⟩

/-- The struct `RegLocation`. The enumerations `RegLocationType` and `VectorLengthType`
are kept as the numbers stored in their 3-bit fields. -/
structure RegLocation where
  location : Nat
  wide : Bool
  defined : Bool
  is_const : Bool
  fp : Bool
  core : Bool
  ref : Bool
  high_word : Bool
  home : Bool
  vec_len : Nat
  low_reg : Nat
  high_reg : Nat
  s_reg_low : Int
  orig_sreg : Int
  deriving DecidableEq, Repr

/-- A record of a narrow core value in the Dalvik frame whose type is known. -/
def exampleLoc : RegLocation :=
  ⟨0, false, true, false, false, true, false, false, false, 0, 255, 255, 0, 0⟩

/-- The members of `MIRGraph` read or written by the embedded member functions. The raw
arrays `reg_location_` and `constant_values_` are lists (an access beyond the end is an
error of the embedding); `is_constant_v_` is the bit vector as a predicate. -/
structure MIRGraph where
  reg_location_ : List RegLocation
  is_constant_v_ : Nat → Bool
  constant_values_ : List Int
  block_list_ : List BasicBlock
  num_ssa_regs_ : Int

/-- The result of a member function that can fail an assertion or leave its arrays. -/
inductive Checked (α : Type) where
  | ok (value : α)
  /-- A `DCHECK` of a debug build failed: the process is aborted. -/
  | dcheckFailed
  /-- An array was indexed outside its bounds. -/
  | outOfBounds
  deriving DecidableEq, Repr

/-- The flag a checked call returned, if it returned. -/
def Checked.flag? {α : Type} : Checked (Bool × α) → Option Bool
  | .ok r => some r.1
  | _ => none

/-- Raw array indexing `a[i]` with a signed index. -/
def index? {α : Type} (a : List α) (i : Int) : Option α :=
  if i < 0 then none else a[i.toNat]?

/-! ## mir_graph.h : inline member functions -/

/-- The member `MIRGraph::GetNumSSARegs`. -/
def MIRGraph.GetNumSSARegs (g : MIRGraph) : Int := g.num_ssa_regs_

/-- The condition of the `DCHECK` in `MIRGraph::GetRegLocation`:
`(index >= 0) && (index > num_ssa_regs_)`. -/
def MIRGraph.GetRegLocation.dcheck (g : MIRGraph) (index : Int) : Bool :=
  decide (index >= 0) && decide (index > g.num_ssa_regs_)

/-- The member `MIRGraph::GetRegLocation`. -/
def MIRGraph.GetRegLocation (kIsDebugBuild : Bool) (g : MIRGraph) (index : Int) :
    Checked RegLocation :=
  if kIsDebugBuild && !MIRGraph.GetRegLocation.dcheck g index then .dcheckFailed
  else match index? g.reg_location_ index with
    | some loc => .ok loc
    | none => .outOfBounds

/-- Modelled from the spec: `GrowableArray<T>::Get(size_t index)`, declared in
growable_array.h, which is not among the sources. The spec calls the block list
"indexable by id": `Get` yields the element at position `index`, and a position past the
end is outside the array. -/
def GrowableArray.Get {α : Type} (elem_list_ : List α) (index : Nat) : Checked α :=
  match elem_list_[index]? with
  | some x => .ok x
  | none => .outOfBounds

/-- The member `MIRGraph::GetBasicBlockListCount`. -/
def MIRGraph.GetBasicBlockListCount (g : MIRGraph) : Nat := g.block_list_.length

/-- Conversion of an `int` argument to the `size_t` parameter of `Get` (32-bit
`size_t`); the identity on non-negative values. -/
def toSizeT (x : Int) : Nat := (x % 2 ^ 32).toNat

/-- The member `MIRGraph::GetBasicBlock`: `NULL` for `NullBasicBlockId`, else
`block_list_.Get(block_id)`. -/
def MIRGraph.GetBasicBlock (g : MIRGraph) (block_id : Int) : Checked (Option BasicBlock) :=
  if block_id = (NullBasicBlockId : Int) then .ok none
  else match GrowableArray.Get g.block_list_ (toSizeT block_id) with
    | .ok bb => .ok (some bb)
    | .dcheckFailed => .dcheckFailed
    | .outOfBounds => .outOfBounds

/-- The member `MIRGraph::IsConst(int32_t s_reg)`. An `int32_t` passed as the unsigned
bit number wraps. -/
def MIRGraph.IsConst_sreg (g : MIRGraph) (s_reg : Int) : Bool :=
  g.is_constant_v_ (s_reg % 2 ^ 32).toNat

/-- The member `MIRGraph::IsConst(RegLocation loc)`. -/
def MIRGraph.IsConst (g : MIRGraph) (loc : RegLocation) : Bool :=
  if loc.orig_sreg < 0 then false else g.IsConst_sreg loc.orig_sreg

/-- Wrap of a mathematical integer into `int64_t` (two's complement). -/
def wrapInt64 (x : Int) : Int := (x + 2 ^ 63) % 2 ^ 64 - 2 ^ 63

/-- Conversion of an `int64_t` to `uint64_t`. -/
def toUInt64 (x : Int) : Nat := (x % 2 ^ 64).toNat

/-- Modelled from the spec: `Low32Bits(uint64_t value)` of utils.h, which is not among the
sources: the low 32 bits of a 64-bit value, as a `uint32_t`. -/
def Low32Bits (value : Nat) : Nat := value % 2 ^ 32

/-- The operator `<<` on an `int64_t` as compiled for two's complement: the product with
`2 ^ n`, wrapped. -/
def shl64 (x : Int) (n : Nat) : Int := wrapInt64 (x * 2 ^ n)

/-- The operator `|` on two `int64_t` values: bitwise or of the two's complement
representations. -/
def or64 (x y : Int) : Int := wrapInt64 ((toUInt64 x ||| toUInt64 y : Nat) : Int)

/-- The member `MIRGraph::ConstantValueWide`. `static_cast<int64_t>` of an `int32_t` keeps
the value; the `uint32_t` result of `Low32Bits` is converted to `int64_t` for `|`. -/
def MIRGraph.ConstantValueWide (kIsDebugBuild : Bool) (g : MIRGraph) (loc : RegLocation) :
    Checked Int :=
  if kIsDebugBuild && !g.IsConst loc then .dcheckFailed
  else match index? g.constant_values_ (loc.orig_sreg + 1),
      index? g.constant_values_ loc.orig_sreg with
    | some hi, some lo => .ok (or64 (shl64 hi 32) (Low32Bits (toUInt64 lo) : Nat))
    | _, _ => .outOfBounds

/-- The class `Instruction::Code` (an enumeration declared in dex_instruction.h), as the
number of the enumerator. -/
structure Instruction.Code where
  value : Nat
  deriving DecidableEq, Repr

/-- The member `MIRGraph::IsPseudoMirOp(Instruction::Code opcode)`. The parameter
`kMirOpFirst` is `static_cast<int>(kMirOpFirst)`, an enumerator declared outside the
embedded files. -/
def MIRGraph.IsPseudoMirOp_Code (kMirOpFirst : Int) (opcode : Instruction.Code) : Bool :=
  decide ((opcode.value : Int) >= kMirOpFirst)

/-- The member `MIRGraph::IsPseudoMirOp(int opcode)`. -/
def MIRGraph.IsPseudoMirOp (kMirOpFirst : Int) (opcode : Int) : Bool :=
  decide (opcode >= kMirOpFirst)

/-! ## SSA conversion of one instruction (use and def lists) -/

/-- Modelled from the spec: the registers one operand contributes in
`MIRGraph::DoSSAConversion` (mir_dataflow.cc, not among the sources): the register itself, and the next one too when
the operand is wide (a 64-bit value occupies two consecutive original-register slots). -/
def operandVRegs (df_attributes used wide v : Nat) : List Nat :=
  if dfTest df_attributes used then
    (if dfTest df_attributes wide then [v, v + 1] else [v])
  else []

/-- Modelled from the spec: the floating-point flags `MIRGraph::DoSSAConversion` stores
beside the registers of `operandVRegs`, one per register. -/
def operandFp (df_attributes used wide fp : Nat) : List Bool :=
  (operandVRegs df_attributes used wide 0).map (fun _ => dfTest df_attributes fp)

/-- Modelled from the spec: the part of `MIRGraph::DoSSAConversion` that fills the
`SSARepresentation` of an instruction with operands `vA`, `vB`, `vC` from its data-flow
attributes; the body is in mir_dataflow.cc, which is not among the sources (mir_graph.h only
declares it). Following section 4.3 of the spec and the comment on `SSARepresentation`:
each operand flagged as a use (`DF_UA`, `DF_UB`, `DF_UC`) gives one use, and two when it is
flagged wide; the operand flagged as a def (`DF_DA`) gives one def, and two when `A` is
wide; uses are renamed to the current name of their register, defs get freshly minted
names (the next unused SSA numbers). Instructions in the invoke formats (`DF_FORMAT_35C`,
`DF_FORMAT_3RC`) take their uses from the argument list and are not covered here. -/
def DoSSAConversion.ssa_rep (vreg_to_ssa_map : Nat → Int) (num_ssa_regs : Int)
    (df_attributes vA vB vC : Nat) : SSARepresentation :=
  let useRegs :=
    if dfTest df_attributes DF_HAS_USES then
      operandVRegs df_attributes DF_UA DF_A_WIDE vA ++
      operandVRegs df_attributes DF_UB DF_B_WIDE vB ++
      operandVRegs df_attributes DF_UC DF_C_WIDE vC
    else []
  let useFp :=
    if dfTest df_attributes DF_HAS_USES then
      operandFp df_attributes DF_UA DF_A_WIDE DF_FP_A ++
      operandFp df_attributes DF_UB DF_B_WIDE DF_FP_B ++
      operandFp df_attributes DF_UC DF_C_WIDE DF_FP_C
    else []
  let defRegs := operandVRegs df_attributes DF_HAS_DEFS DF_A_WIDE vA
  { num_uses := useRegs.length
    num_defs := defRegs.length
    uses := useRegs.map vreg_to_ssa_map
    fp_use := useFp
    defs := (List.range defRegs.length).map (fun i => num_ssa_regs + (i : Int))
    fp_def := operandFp df_attributes DF_HAS_DEFS DF_A_WIDE DF_FP_A }

/-- The data-flow attributes of a three-address wide arithmetic instruction such as
`ADD_LONG vAA, vBB, vCC`: wide def of `A`, wide uses of `B` and `C`, all core values. The
table `oat_data_flow_attributes_` itself is defined outside the embedded files. -/
def DF_ADD_LONG : Nat :=
  DF_DA ||| DF_A_WIDE ||| DF_UB ||| DF_B_WIDE ||| DF_UC ||| DF_C_WIDE |||
    DF_CORE_A ||| DF_CORE_B ||| DF_CORE_C

/-! ## Type inference helpers -/

/-- The five type fields of a `RegLocation` the `Setxx` helpers write. -/
inductive TypeField where
  | fp
  | core
  | ref
  | wide
  | high_word
  deriving DecidableEq, Repr

/-- The value of a type field of a record. -/
def RegLocation.typeField (loc : RegLocation) : TypeField → Bool
  | .fp => loc.fp
  | .core => loc.core
  | .ref => loc.ref
  | .wide => loc.wide
  | .high_word => loc.high_word

/-- The record with one type field set. Setting `fp`, `core` or `ref` also sets `defined`
("Do we know the type?"). -/
def RegLocation.setTypeField (loc : RegLocation) : TypeField → RegLocation
  | .fp => { loc with fp := true, defined := true }
  | .core => { loc with core := true, defined := true }
  | .ref => { loc with ref := true, defined := true }
  | .wide => { loc with wide := true }
  | .high_word => { loc with high_word := true }

/-- Whether a type field is one of the three type categories (floating-point, core,
reference); `wide` and `high_word` are fields of their own. -/
def TypeField.isCategory : TypeField → Bool
  | .fp => true
  | .core => true
  | .ref => true
  | .wide => false
  | .high_word => false

/-- Whether asserting a field on a record conflicts with what the record carries: the field
is a type category and the record already carries another category. -/
def RegLocation.conflictsWith (loc : RegLocation) : TypeField → Bool
  | .fp => loc.core || loc.ref
  | .core => loc.fp || loc.ref
  | .ref => loc.fp || loc.core
  | .wide => false
  | .high_word => false

/-- Modelled from the spec: the common body of the helpers `MIRGraph::SetFp`, `SetCore`,
`SetRef`, `SetWide` and `SetHigh` in their `(index, is_xx)` form; mir_graph.h only declares
them and their bodies are in a file that is not among the sources. Following section 4.4 of
the spec: the fields (floating/core/reference, wide, high-word) start unknown and only move
from unknown to a concrete value. A field moves from unknown to set when the caller asserts
it (`is_xx`) and it is not set yet; a conflicting re-assertion, that is a category asserted
on a record that already carries another category, is "treated as leave as previously set"
(section 7 (d): "first assertion wins"; the diagnostic it logs leaves no trace in the
graph). Nothing else is written, and the return value says whether the call changed the
current guess. -/
def MIRGraph.Setxx (g : MIRGraph) (field : TypeField) (index : Int) (is_xx : Bool) :
    Checked (Bool × MIRGraph) :=
  match index? g.reg_location_ index with
  | none => .outOfBounds
  | some loc =>
    if is_xx && !loc.typeField field && !loc.conflictsWith field then
      .ok (true,
        { g with reg_location_ := g.reg_location_.set index.toNat (loc.setTypeField field) })
    else
      .ok (false, g)

/-- Modelled from the spec: `MIRGraph::SetFp(int index, bool is_fp)`, see `MIRGraph.Setxx`. -/
def MIRGraph.SetFp_flag (g : MIRGraph) (index : Int) (is_fp : Bool) :=
  g.Setxx .fp index is_fp

/-- Modelled from the spec: `MIRGraph::SetFp(int index)`, the form used on typed opcodes:
the type is asserted unconditionally. See `MIRGraph.Setxx`. -/
def MIRGraph.SetFp (g : MIRGraph) (index : Int) := g.Setxx .fp index true

/-- Modelled from the spec: `MIRGraph::SetCore(int index, bool is_core)`, see
`MIRGraph.Setxx`. -/
def MIRGraph.SetCore_flag (g : MIRGraph) (index : Int) (is_core : Bool) :=
  g.Setxx .core index is_core

/-- Modelled from the spec: `MIRGraph::SetCore(int index)`, see `MIRGraph.Setxx`. -/
def MIRGraph.SetCore (g : MIRGraph) (index : Int) := g.Setxx .core index true

/-- Modelled from the spec: `MIRGraph::SetRef(int index, bool is_ref)`, see
`MIRGraph.Setxx`. -/
def MIRGraph.SetRef_flag (g : MIRGraph) (index : Int) (is_ref : Bool) :=
  g.Setxx .ref index is_ref

/-- Modelled from the spec: `MIRGraph::SetRef(int index)`, see `MIRGraph.Setxx`. -/
def MIRGraph.SetRef (g : MIRGraph) (index : Int) := g.Setxx .ref index true

/-- Modelled from the spec: `MIRGraph::SetWide(int index, bool is_wide)`, see
`MIRGraph.Setxx`. -/
def MIRGraph.SetWide_flag (g : MIRGraph) (index : Int) (is_wide : Bool) :=
  g.Setxx .wide index is_wide

/-- Modelled from the spec: `MIRGraph::SetWide(int index)`, see `MIRGraph.Setxx`. -/
def MIRGraph.SetWide (g : MIRGraph) (index : Int) := g.Setxx .wide index true

/-- Modelled from the spec: `MIRGraph::SetHigh(int index, bool is_high)`, see
`MIRGraph.Setxx`. -/
def MIRGraph.SetHigh_flag (g : MIRGraph) (index : Int) (is_high : Bool) :=
  g.Setxx .high_word index is_high

/-- Modelled from the spec: `MIRGraph::SetHigh(int index)`, see `MIRGraph.Setxx`. -/
def MIRGraph.SetHigh (g : MIRGraph) (index : Int) := g.Setxx .high_word index true

/-- Every type field that is set in a record of `g` is still set in the record of the same
SSA name in `g2`. -/
def MIRGraph.keepsSetFields (g g2 : MIRGraph) : Prop :=
  ∀ (j : Int) (f : TypeField) (loc : RegLocation),
    index? g.reg_location_ j = some loc → loc.typeField f = true →
      ∃ loc2, index? g2.reg_location_ j = some loc2 ∧ loc2.typeField f = true

/-- One call of a `Setxx` helper: which helper, on which SSA name, and the flag of the
two-argument form (`none` for the one-argument form). -/
structure SetxxCall where
  field : TypeField
  index : Int
  flag : Option Bool
  deriving DecidableEq, Repr

/-- The helper a `SetxxCall` names, applied to the graph. -/
def MIRGraph.call (g : MIRGraph) (c : SetxxCall) : Checked (Bool × MIRGraph) :=
  match c.field, c.flag with
  | .fp, none => g.SetFp c.index
  | .fp, some b => g.SetFp_flag c.index b
  | .core, none => g.SetCore c.index
  | .core, some b => g.SetCore_flag c.index b
  | .ref, none => g.SetRef c.index
  | .ref, some b => g.SetRef_flag c.index b
  | .wide, none => g.SetWide c.index
  | .wide, some b => g.SetWide_flag c.index b
  | .high_word, none => g.SetHigh c.index
  | .high_word, some b => g.SetHigh_flag c.index b

/-- A sequence of `Setxx` calls, one after the other; `none` when one of them leaves the
table of records. -/
def MIRGraph.callAll (g : MIRGraph) : List SetxxCall → Option MIRGraph
  | [] => some g
  | c :: cs =>
    match g.call c with
    | .ok (_, g') => g'.callAll cs
    | _ => none

/-! ## interpreter_common.h : arithmetic helpers -/

/-- Wrap of a mathematical integer into `int32_t` (two's complement). -/
def wrapInt32 (x : Int) : Int := (x + 2 ^ 31) % 2 ^ 32 - 2 ^ 31

/-- The constant `kMinInt = std::numeric_limits<int32_t>::min()`. -/
def kMinInt : Int := -2 ^ 31

/-- The constant `kMinLong = std::numeric_limits<int64_t>::min()`. -/
def kMinLong : Int := -2 ^ 63

/-- Whether a value is an `int32_t`. -/
abbrev isInt32 (x : Int) : Prop := -2 ^ 31 ≤ x ∧ x < 2 ^ 31

/-- Whether a value is an `int64_t`. -/
abbrev isInt64 (x : Int) : Prop := -2 ^ 63 ≤ x ∧ x < 2 ^ 63

/-- What the arithmetic helpers of the interpreter do to the thread and to the shadow
frame (both are defined outside the embedded files): raise the divide-by-zero exception,
store a 32-bit value in a register, store a 64-bit value in a register pair. -/
inductive FrameEvent where
  | ThrowArithmeticExceptionDivideByZero
  /-- The call `shadow_frame.SetVReg(i, val)`. -/
  | SetVReg (i : Nat) (val : Int)
  /-- The call `shadow_frame.SetVRegLong(i, val)`. -/
  | SetVRegLong (i : Nat) (val : Int)
  deriving DecidableEq, Repr

/-- The function `DoIntDivide`: the value returned and what was done, in order. The C++
operator `/` on `int32_t` truncates toward zero (`Int.tdiv`). -/
def DoIntDivide (result_reg : Nat) (dividend divisor : Int) : Bool × List FrameEvent :=
  if divisor = 0 then
    (false, [.ThrowArithmeticExceptionDivideByZero])
  else if dividend = kMinInt ∧ divisor = -1 then
    (true, [.SetVReg result_reg kMinInt])
  else
    (true, [.SetVReg result_reg (Int.tdiv dividend divisor)])

/-- The function `DoIntRemainder`. The C++ operator `%` on `int32_t` is the remainder of
the truncating division (`Int.tmod`). -/
def DoIntRemainder (result_reg : Nat) (dividend divisor : Int) : Bool × List FrameEvent :=
  if divisor = 0 then
    (false, [.ThrowArithmeticExceptionDivideByZero])
  else if dividend = kMinInt ∧ divisor = -1 then
    (true, [.SetVReg result_reg 0])
  else
    (true, [.SetVReg result_reg (Int.tmod dividend divisor)])

/-- The function `DoLongDivide`. -/
def DoLongDivide (result_reg : Nat) (dividend divisor : Int) : Bool × List FrameEvent :=
  if divisor = 0 then
    (false, [.ThrowArithmeticExceptionDivideByZero])
  else if dividend = kMinLong ∧ divisor = -1 then
    (true, [.SetVRegLong result_reg kMinLong])
  else
    (true, [.SetVRegLong result_reg (Int.tdiv dividend divisor)])

/-- The function `DoLongRemainder`. -/
def DoLongRemainder (result_reg : Nat) (dividend divisor : Int) : Bool × List FrameEvent :=
  if divisor = 0 then
    (false, [.ThrowArithmeticExceptionDivideByZero])
  else if dividend = kMinLong ∧ divisor = -1 then
    (true, [.SetVRegLong result_reg 0])
  else
    (true, [.SetVRegLong result_reg (Int.tmod dividend divisor)])

/-! ## interpreter_common.h : switch helpers -/

/-- The payload of a packed-switch instruction as `DoPackedSwitch` reads it from
`switch_data`: `switch_data[0]`, `switch_data[1]`, the `int32_t` at `&switch_data[2]` and the
`int32_t` array at `&switch_data[4]`. -/
structure PackedSwitchData where
  ident : Nat
  size : Nat
  first_key : Int
  targets : List Int
  deriving DecidableEq, Repr

/-- The function `DoPackedSwitch`, given the payload and `test_val`, the value of the
register tested. `kPackedSwitchSignature` is a constant of `Instruction` declared outside
the embedded files. The subtraction is done in `int32_t`; `size` is promoted to `int` for
the comparison. The assertions on the opcode and on the alignment of the payload concern
the address of the instruction and are left out. -/
def DoPackedSwitch (kIsDebugBuild : Bool) (kPackedSwitchSignature : Nat)
    (switch_data : PackedSwitchData) (test_val : Int) : Checked Int :=
  if kIsDebugBuild && !decide (switch_data.ident = kPackedSwitchSignature % 2 ^ 16) then
    .dcheckFailed
  else if kIsDebugBuild && !decide (switch_data.size > 0) then .dcheckFailed
  else
    let index := wrapInt32 (test_val - switch_data.first_key)
    if index ≥ 0 ∧ index < (switch_data.size : Int) then
      match index? switch_data.targets index with
      | some target => .ok target
      | none => .outOfBounds
    else
      .ok 3

/-- The payload of a sparse-switch instruction as `DoSparseSwitch` reads it:
`switch_data[0]`, `switch_data[1]`, the `int32_t` array `keys` at `&switch_data[2]`; the
array `entries` of the source is `keys + size`, so it is the part of `keys` from position
`size` on. -/
structure SparseSwitchData where
  ident : Nat
  size : Nat
  keys : List Int
  deriving DecidableEq, Repr

/-- The first `size` entries of `keys`, the case values, are strictly ascending. -/
abbrev SparseSwitchData.keysAscending (switch_data : SparseSwitchData) : Prop :=
  (switch_data.keys.take switch_data.size).Pairwise (· < ·)

/-- The `while (lo <= hi)` loop of `DoSparseSwitch`; `fuel` bounds the number of
iterations and `none` means it ran out. `(lo + hi) / 2` is the truncating division of
`int`; `lo` and `hi` stay between `-1` and `size`, a `uint16_t`, so the `int` arithmetic
does not overflow. -/
def DoSparseSwitch.loop (switch_data : SparseSwitchData) (test_val : Int) :
    Nat → Int → Int → Option (Checked Int)
  | fuel, lo, hi =>
    if lo ≤ hi then
      match fuel with
      | 0 => none
      | fuel + 1 =>
        let mid := Int.tdiv (lo + hi) 2
        match index? switch_data.keys mid with
        | none => some .outOfBounds
        | some foundVal =>
          if test_val < foundVal then
            DoSparseSwitch.loop switch_data test_val fuel lo (mid - 1)
          else if test_val > foundVal then
            DoSparseSwitch.loop switch_data test_val fuel (mid + 1) hi
          else
            match index? switch_data.keys (switch_data.size + mid) with
            | some entry => some (.ok entry)
            | none => some .outOfBounds
    else
      some (.ok 3)

/-- The function `DoSparseSwitch`, given the payload and `test_val`. The loop gets
`size + 1` iterations of fuel. -/
def DoSparseSwitch (kIsDebugBuild : Bool) (kSparseSwitchSignature : Nat)
    (switch_data : SparseSwitchData) (test_val : Int) : Option (Checked Int) :=
  if kIsDebugBuild && !decide (switch_data.ident = kSparseSwitchSignature % 2 ^ 16) then
    some .dcheckFailed
  else if kIsDebugBuild && !decide (switch_data.size > 0) then some .dcheckFailed
  else
    DoSparseSwitch.loop switch_data test_val (switch_data.size + 1) 0
      ((switch_data.size : Int) - 1)

/-! ## Null-check elimination: the state at the entry of a block -/

/-- The struct `BasicBlockDataFlow`; bit vectors are the lists of their set bits. -/
structure BasicBlockDataFlow where
  use_v : List Nat
  def_v : List Nat
  live_in_v : List Nat
  phi_v : List Nat
  vreg_to_ssa_map : List Int
  ending_null_check_v : List Nat
  deriving DecidableEq, Repr

/-- Modelled from the spec: `ArenaBitVector::Intersect` of arena_bit_vector.h, which is not
among the sources: the bits set in both vectors. -/
def ArenaBitVector.Intersect (dest src : List Nat) : List Nat :=
  dest.filter (fun bit => decide (bit ∈ src))

/-- Modelled from the spec: the ending null-check states of the predecessors of a block,
in the order of the predecessor list; `data_flow_info` gives the data-flow record of a
block id. The result is `none` when a predecessor has no block or no data-flow record.
This is the part of `MIRGraph::EliminateNullChecksAndInferTypes` that reads the
predecessors; its body is in a file that is not among the sources. -/
def MIRGraph.predecessorEndingStates (g : MIRGraph)
    (data_flow_info : Nat → Option BasicBlockDataFlow) : List Nat → Option (List (List Nat))
  | [] => some []
  | pred :: rest =>
    match g.GetBasicBlock pred, data_flow_info pred,
        g.predecessorEndingStates data_flow_info rest with
    | .ok (some _), some info, some states => some (info.ending_null_check_v :: states)
    | _, _, _ => none

/-- Modelled from the spec: the null-check state at the entry of block `bb` in
`MIRGraph::EliminateNullChecksAndInferTypes` (declared in mir_graph.h, body not among the
sources); `entry_block_` is the id of the entry sentinel. Following section 8 of the spec,
"for a block with zero predecessors other than the entry sentinel, the entry state is
exactly the empty (no facts) set": a block none of whose predecessors is a block other
than the entry sentinel (the sentinel itself, which has no predecessor, and the blocks the
sentinel alone leads to) starts from the empty set. Following section 4.4, "at block entry,
the state is the intersection (not union) of all predecessors' ending states": every other
block starts from the ending vector of its first predecessor intersected with the ending
vector of each further predecessor. -/
def MIRGraph.nullCheckEntryState (g : MIRGraph) (entry_block_ : Nat)
    (data_flow_info : Nat → Option BasicBlockDataFlow) (bb : BasicBlock) :
    Option (List Nat) :=
  if bb.predecessors.filter (fun pred => decide (pred ≠ entry_block_)) = [] then some []
  else
    match g.predecessorEndingStates data_flow_info bb.predecessors with
    | none => none
    | some [] => some []
    | some (first :: rest) => some (rest.foldl ArenaBitVector.Intersect first)

/-! ## Graph construction: the successors of a switch -/

/-- What an edge out of a block is tagged with: the fall-through (the default of a switch),
the taken branch, or the key of a `SuccessorBlockInfo`. -/
inductive EdgeTag where
  | fall_through
  | taken
  | key (value : Int)
  deriving DecidableEq, Repr

/-- The successor edges of a block: its `fall_through` and `taken` ids when they are not
`NullBasicBlockId`, and the entries of `successor_blocks` with their keys. -/
def BasicBlock.successorEdges (bb : BasicBlock) : List (EdgeTag × Nat) :=
  (if bb.fall_through = NullBasicBlockId then [] else [(EdgeTag.fall_through, bb.fall_through)])
    ++ (if bb.taken = NullBasicBlockId then [] else [(EdgeTag.taken, bb.taken)])
    ++ bb.successor_blocks.map (fun info => (EdgeTag.key info.key, info.block))

/-- Modelled from the spec: the edges `MIRGraph::ProcessCanSwitch` gives the block that ends
in a switch; mir_graph.h only declares the function and its body is not among the sources.
Following section 4.1 of the spec ("Switch instructions fan out one edge per case plus one
fall-through/default edge") and the comment on `SuccessorBlockInfo` ("For swtich blocks,
key is the case value"): `cases` lists the case values with their branch offsets,
`FindBlock` gives the id of the block at a code offset, `width` is the width of the switch
instruction. -/
def MIRGraph.ProcessCanSwitch (FindBlock : Int → Nat) (cur_block : BasicBlock)
    (cur_offset : Int) (width : Int) (cases : List (Int × Int)) : BasicBlock :=
  { cur_block with
    successor_blocks :=
      cases.map (fun c => ⟨FindBlock (cur_offset + c.2), c.1⟩)
    fall_through := FindBlock (cur_offset + width) }

/-! ## Dominance -/

/-- The predecessor ids of the block with id `b`; no block, no predecessors. -/
def MIRGraph.predecessorsOf (g : MIRGraph) (b : Nat) : List Nat :=
  match g.block_list_[b]? with
  | some bb => bb.predecessors
  | none => []

/-- Block `b` can be reached from the entry block along predecessor edges. -/
inductive MIRGraph.Reachable (g : MIRGraph) (entry : Nat) : Nat → Prop where
  | entry : MIRGraph.Reachable g entry entry
  | step {p b : Nat} : MIRGraph.Reachable g entry p → p ∈ g.predecessorsOf b →
      MIRGraph.Reachable g entry b

/-- Block `b` can be reached from the entry block along a path none of whose blocks is
`d`; block `d` dominates `b` when there is no such path. -/
inductive MIRGraph.ReachableAvoiding (g : MIRGraph) (entry d : Nat) : Nat → Prop where
  | entry : entry ≠ d → MIRGraph.ReachableAvoiding g entry d entry
  | step {p b : Nat} : MIRGraph.ReachableAvoiding g entry d p → p ∈ g.predecessorsOf b →
      b ≠ d → MIRGraph.ReachableAvoiding g entry d b

/-- Modelled from the spec: `MIRGraph::InitializeDominationInfo`, declared in mir_graph.h
with its body in a file that is not among the sources. Following section 4.2 of the spec:
"initialize every block's dominator set to all blocks, entry dominates only itself". The
dominator sets of all blocks are a function from block ids to lists of block ids. -/
def MIRGraph.InitializeDominationInfo (g : MIRGraph) (entry : Nat) : Nat → List Nat :=
  fun b => if b = entry then [entry] else List.range g.GetBasicBlockListCount

/-- Modelled from the spec: `MIRGraph::ComputeBlockDominators`, declared in mir_graph.h with
its body in a file that is not among the sources. Following section 4.2 of the spec
("intersecting predecessors' dominator sets"): the new dominator set of block `b` holds `b`
and every block that is in the dominator set of each predecessor of `b`. -/
def MIRGraph.ComputeBlockDominators (g : MIRGraph) (doms : Nat → List Nat) (b : Nat) :
    List Nat :=
  (List.range g.GetBasicBlockListCount).filter (fun d =>
    decide (d = b) || (g.predecessorsOf b).all (fun p => decide (d ∈ doms p)))

/-- Modelled from the spec: one pass of the dominator computation over the blocks of
`order` (section 4.2: "iterate ... in reverse post-order"), updating the sets in place;
the entry block keeps its set. The flag says whether a set changed. -/
def MIRGraph.dominatorPass (g : MIRGraph) (entry : Nat) :
    List Nat → (Nat → List Nat) → Bool × (Nat → List Nat)
  | [], doms => (false, doms)
  | b :: rest, doms =>
    if b = entry then MIRGraph.dominatorPass g entry rest doms
    else
      let updated := g.ComputeBlockDominators doms b
      let r := MIRGraph.dominatorPass g entry rest (Function.update doms b updated)
      (r.1 || decide (updated ≠ doms b), r.2)

/-- Modelled from the spec: the passes are repeated until one changes nothing (section 4.2:
"Exit condition: no dominator-set changed in a full pass"); `none` when `fuel` passes were
not enough. -/
def MIRGraph.iterateDominators (g : MIRGraph) (entry : Nat) (order : List Nat) :
    Nat → (Nat → List Nat) → Option (Nat → List Nat)
  | 0, _ => none
  | fuel + 1, doms =>
    match g.dominatorPass entry order doms with
    | (false, doms2) => some doms2
    | (true, doms2) => MIRGraph.iterateDominators g entry order fuel doms2

/-- Modelled from the spec: the choice of the immediate dominator of block `b`
(`MIRGraph::ComputeblockIDom`, declared in mir_graph.h, body not among the sources) from
the dominator sets: the strict dominator of `b` that dominates no other strict dominator of
`b`, that is, the closest one; `none` when `b` has no strict dominator. -/
def MIRGraph.immediateDominator (doms : Nat → List Nat) (b : Nat) : Option Nat :=
  ((doms b).filter (fun d => decide (d ≠ b))).find? (fun i =>
    ((doms b).filter (fun d => decide (d ≠ b))).all (fun d =>
      decide (d = i) || !decide (i ∈ doms d)))

/-- Modelled from the spec: the graph whose blocks carry the dominance information that
goes with the dominator sets `doms`: every block gets its set as `dominators`, and as
`i_dom` its immediate dominator, or `NullBasicBlockId` when it has none. -/
def MIRGraph.withDominance (g : MIRGraph) (doms : Nat → List Nat) : MIRGraph :=
  { g with
    block_list_ := g.block_list_.mapIdx (fun b bb =>
      { bb with
        dominators := doms b
        i_dom := (MIRGraph.immediateDominator doms b).getD NullBasicBlockId }) }

/-- Modelled from the spec: `MIRGraph::ComputeDominators` (section 4.2 of the spec; the
body is in a file that is not among the sources): the dominator sets are initialised and
iterated to the fixed point over the blocks of `order`, then every block gets its
`dominators` and its `i_dom`, which is `NullBasicBlockId` for a block without immediate
dominator. The iteration gets `order.length * GetBasicBlockListCount() + 1` passes. -/
def MIRGraph.ComputeDominators (g : MIRGraph) (entry : Nat) (order : List Nat) :
    Option MIRGraph :=
  match g.iterateDominators entry order (order.length * g.GetBasicBlockListCount + 1)
      (g.InitializeDominationInfo entry) with
  | none => none
  | some doms => some (g.withDominance doms)

/-- What holds of the dominator sets all through the iteration: the entry block is
dominated by itself only; recomputing the set of another block can only remove blocks;
every block that is on all paths from the entry to `b` is in the set of `b`; and the set
of a block other than the entry lists its members in ascending order. -/
def MIRGraph.DomInv (g : MIRGraph) (entry : Nat) (doms : Nat → List Nat) : Prop :=
  doms entry = [entry] ∧
  (∀ b, b ≠ entry → ∀ d, d ∈ g.ComputeBlockDominators doms b → d ∈ doms b) ∧
  (∀ b d, d < g.GetBasicBlockListCount → ¬ g.ReachableAvoiding entry d b → d ∈ doms b) ∧
  (∀ b, b ≠ entry →
    doms b = (List.range g.GetBasicBlockListCount).filter (fun d => decide (d ∈ doms b)))

/-- The size of the dominator sets of the blocks of `order`, which every pass that changes
a set makes smaller. -/
def MIRGraph.domMeasure (order : List Nat) (doms : Nat → List Nat) : Nat :=
  ∑ b ∈ order.toFinset, (doms b).toFinset.card

/-- The exit condition of the iteration: recomputing the set of any block of `order` other
than the entry changes nothing. -/
def MIRGraph.DomFixed (g : MIRGraph) (entry : Nat) (order : List Nat)
    (doms : Nat → List Nat) : Prop :=
  ∀ b ∈ order, b ≠ entry → g.ComputeBlockDominators doms b = doms b

/-- A diamond: block 1 is the entry and branches to blocks 2 and 3, which both go on to
block 4; block 0 is the null block. -/
def exampleDiamond : MIRGraph :=
  ⟨[], fun _ => false, [],
    [exampleBlock 0 0,
     exampleBlock 1 0,
     { exampleBlock 2 0 with predecessors := [1] },
     { exampleBlock 3 4 with predecessors := [1] },
     { exampleBlock 4 8 with predecessors := [2, 3] }], 0⟩

/-- The `i_dom` and `dominators` fields of the blocks of a graph, in the order of the block
list. -/
def MIRGraph.dominanceFields (g : MIRGraph) : List (Nat × List Nat) :=
  g.block_list_.map (fun bb => (bb.i_dom, bb.dominators))

/-! ## object_utils.h : MethodHelper -/

/-- The enumerators of `Primitive::Type` that the embedded files name; `other` stands for
every remaining enumerator. -/
inductive PrimitiveType where
  | kPrimNot
  | kPrimBoolean
  | kPrimByte
  | kPrimChar
  | kPrimShort
  | kPrimInt
  | kPrimLong
  | kPrimDouble
  | other
  deriving DecidableEq, Repr

/-- What the parameter lookup of `MethodHelper` reads: whether the method is static
(`method_->IsStatic()`) and the shorty of the method, whose first character stands for the
return type. -/
structure MethodHelper where
  is_static : Bool
  shorty : List Char
  deriving DecidableEq, Repr

/-- The member `MethodHelper::IsStatic`. -/
def MethodHelper.IsStatic (mh : MethodHelper) : Bool := mh.is_static

/-- The member `MethodHelper::GetShortyLength`, a `uint32_t`. -/
def MethodHelper.GetShortyLength (mh : MethodHelper) : Nat := mh.shorty.length

/-- The member `MethodHelper::NumArgs`: `(IsStatic() ? 0 : 1) + GetShortyLength() - 1`,
computed in `uint32_t`. -/
def MethodHelper.NumArgs (mh : MethodHelper) : Nat :=
  ((((if mh.IsStatic then 0 else 1) + mh.GetShortyLength : Nat) : Int) - 1) % 2 ^ 32 |>.toNat

/-- How a parameter lookup ends. -/
inductive ShortyLookup where
  /-- The check `CHECK_LT(param, NumArgs())` failed: the process is aborted. -/
  | checkFailed
  /-- The type was returned without a read of the shorty. -/
  | noRead (type : PrimitiveType)
  /-- The character `shorty[index]` was read and its type returned. -/
  | read (index : Nat) (type : PrimitiveType)
  /-- The position `index` read is not a character of the shorty. -/
  | outOfBounds (index : Nat)
  deriving DecidableEq, Repr

/-- The member `MethodHelper::GetParamPrimitiveType`. The parameter `GetType` is
`Primitive::GetType`, declared outside the embedded files. -/
def MethodHelper.GetParamPrimitiveType (GetType : Char → PrimitiveType) (mh : MethodHelper)
    (param : Nat) : ShortyLookup :=
  if ¬ param < mh.NumArgs then .checkFailed
  else if mh.IsStatic then
    -- param++ : 0th argument must skip return value at start of the shorty
    match mh.shorty[toSizeT (param + 1)]? with
    | some c => .read (toSizeT (param + 1)) (GetType c)
    | none => .outOfBounds (toSizeT (param + 1))
  else if param = 0 then .noRead .kPrimNot
  else
    match mh.shorty[param]? with
    | some c => .read param (GetType c)
    | none => .outOfBounds param

/-- The type a lookup returned, if it returned. -/
def ShortyLookup.type? : ShortyLookup → Option PrimitiveType
  | .noRead t => some t
  | .read _ t => some t
  | _ => none

/-- The member `MethodHelper::IsParamALongOrDouble`; `none` when the lookup does not
return. -/
def MethodHelper.IsParamALongOrDouble (GetType : Char → PrimitiveType) (mh : MethodHelper)
    (param : Nat) : Option Bool :=
  (mh.GetParamPrimitiveType GetType param).type?.map
    (fun type => decide (type = .kPrimLong) || decide (type = .kPrimDouble))

/-- The member `MethodHelper::IsParamAReference`; `none` when the lookup does not
return. -/
def MethodHelper.IsParamAReference (GetType : Char → PrimitiveType) (mh : MethodHelper)
    (param : Nat) : Option Bool :=
  (mh.GetParamPrimitiveType GetType param).type?.map (fun type => decide (type = .kPrimNot))

/-! ## quick_lock_entrypoints.cc -/

/-- The two monitor operations; the message of the `NullPointerException` names one:
"Null reference used for synchronization (monitor-enter)" or "(monitor-exit)". -/
inductive MonitorOp where
  | monitor_enter
  | monitor_exit
  deriving DecidableEq, Repr

/-- The calls the lock entrypoints make into the runtime, whose bodies are outside the
embedded files. -/
inductive LockEvent where
  | FinishCalleeSaveFrameSetup
  | GetCurrentLocationForThrow
  | ThrowNullPointerException (op : MonitorOp)
  /-- The call `obj->MonitorEnter(self)`. -/
  | MonitorEnter (obj : Nat)
  /-- The call `obj->MonitorExit(self)`. -/
  | MonitorExit (obj : Nat)
  deriving DecidableEq, Repr

/-- How a call of an entrypoint ends: it returns an `int`, or a `CHECK` fails and the
process is aborted. -/
inductive EntrypointOutcome where
  | returned (value : Int)
  | aborted
  deriving DecidableEq, Repr

/-- The function `artLockObjectFromCode`. The object is `none` for `NULL`; `holds_lock`
and `exception_pending` are what `self->HoldsLock(...)` and `self->IsExceptionPending()`
answer after `MonitorEnter` in a debug build. -/
def artLockObjectFromCode (kIsDebugBuild holds_lock exception_pending : Bool)
    (obj : Option Nat) : EntrypointOutcome × List LockEvent :=
  match obj with
  | none =>
    (.returned (-1), [.FinishCalleeSaveFrameSetup, .GetCurrentLocationForThrow,
      .ThrowNullPointerException .monitor_enter])
  | some o =>
    if kIsDebugBuild then
      if !holds_lock then (.aborted, [.FinishCalleeSaveFrameSetup, .MonitorEnter o])
      else if exception_pending then
        (.aborted, [.FinishCalleeSaveFrameSetup, .MonitorEnter o])
      else (.returned 0, [.FinishCalleeSaveFrameSetup, .MonitorEnter o])
    else (.returned 0, [.FinishCalleeSaveFrameSetup, .MonitorEnter o])

/-- The function `artUnlockObjectFromCode`; `monitor_exit` is what `obj->MonitorExit(self)`
returns. -/
def artUnlockObjectFromCode (monitor_exit : Bool) (obj : Option Nat) :
    EntrypointOutcome × List LockEvent :=
  match obj with
  | none =>
    (.returned (-1), [.FinishCalleeSaveFrameSetup, .GetCurrentLocationForThrow,
      .ThrowNullPointerException .monitor_exit])
  | some o =>
    (.returned (if monitor_exit then 0 else -1),
      [.FinishCalleeSaveFrameSetup, .MonitorExit o])

/-! ## malloc_space.h : ValgrindMallocSpace -/

/-- The constant `kValgrindRedZoneBytes`. -/
def kValgrindRedZoneBytes : Nat := 8

/-- Wrap of a mathematical integer into an unsigned machine word of `bits` bits. In a build
whose pointers have `bits` bits this is the arithmetic of `size_t` and of `byte*`: sizes
and addresses are the numbers below `2 ^ bits`. -/
def wrapWord (bits : Nat) (x : Int) : Nat := (x % 2 ^ bits).toNat

/-- The null pointer `NULL`, address zero. -/
def NULL : Nat := 0

/-- The calls `ValgrindMallocSpace` makes into its base space and into valgrind. Addresses
and sizes are machine words. -/
inductive SpaceEvent where
  /-- The call `BaseMallocSpaceType::Alloc(self, num_bytes, bytes_allocated)`. -/
  | BaseAlloc (num_bytes : Nat)
  /-- The call `BaseMallocSpaceType::AllocWithGrowth(self, num_bytes, bytes_allocated)`. -/
  | BaseAllocWithGrowth (num_bytes : Nat)
  /-- The call `BaseMallocSpaceType::AllocationSize(obj)`. -/
  | BaseAllocationSize (obj : Nat)
  /-- The call `BaseMallocSpaceType::Free(self, ptr)`. -/
  | BaseFree (ptr : Nat)
  | VALGRIND_MAKE_MEM_NOACCESS (addr : Nat) (len : Nat)
  | VALGRIND_MAKE_MEM_UNDEFINED (addr : Nat) (len : Nat)
  deriving DecidableEq, Repr

/-- The member `ValgrindMallocSpace::AllocWithGrowth` in a build with pointers and `size_t`
of `bits` bits: the pointer returned and the calls made. `base_AllocWithGrowth` is the
pointer the base space returns for a request. The sum of `size_t` values and the sums of a
pointer and an offset wrap at `bits` bits. -/
def ValgrindMallocSpace.AllocWithGrowth (bits : Nat) (base_AllocWithGrowth : Nat → Nat)
    (num_bytes : Nat) : Nat × List SpaceEvent :=
  let obj_with_rdz :=
    base_AllocWithGrowth (wrapWord bits (num_bytes + 2 * kValgrindRedZoneBytes : Nat))
  if obj_with_rdz = NULL then
    (NULL, [.BaseAllocWithGrowth (wrapWord bits (num_bytes + 2 * kValgrindRedZoneBytes : Nat))])
  else
    let result := wrapWord bits (obj_with_rdz + kValgrindRedZoneBytes : Nat)
    (result,
      [.BaseAllocWithGrowth (wrapWord bits (num_bytes + 2 * kValgrindRedZoneBytes : Nat)),
       .VALGRIND_MAKE_MEM_NOACCESS obj_with_rdz kValgrindRedZoneBytes,
       .VALGRIND_MAKE_MEM_NOACCESS (wrapWord bits (result + num_bytes : Nat))
         kValgrindRedZoneBytes])

/-- The member `ValgrindMallocSpace::Alloc` in a build with pointers and `size_t` of `bits`
bits. -/
def ValgrindMallocSpace.Alloc (bits : Nat) (base_Alloc : Nat → Nat) (num_bytes : Nat) :
    Nat × List SpaceEvent :=
  let obj_with_rdz := base_Alloc (wrapWord bits (num_bytes + 2 * kValgrindRedZoneBytes : Nat))
  if obj_with_rdz = NULL then
    (NULL, [.BaseAlloc (wrapWord bits (num_bytes + 2 * kValgrindRedZoneBytes : Nat))])
  else
    let result := wrapWord bits (obj_with_rdz + kValgrindRedZoneBytes : Nat)
    (result,
      [.BaseAlloc (wrapWord bits (num_bytes + 2 * kValgrindRedZoneBytes : Nat)),
       .VALGRIND_MAKE_MEM_NOACCESS obj_with_rdz kValgrindRedZoneBytes,
       .VALGRIND_MAKE_MEM_NOACCESS (wrapWord bits (result + num_bytes : Nat))
         kValgrindRedZoneBytes])

/-- The member `ValgrindMallocSpace::AllocationSize`; the pointer difference and the
difference of `size_t` values wrap at `bits` bits. -/
def ValgrindMallocSpace.AllocationSize (bits : Nat) (base_AllocationSize : Nat → Nat)
    (obj : Nat) : Nat × List SpaceEvent :=
  let result := base_AllocationSize (wrapWord bits ((obj : Int) - kValgrindRedZoneBytes))
  (wrapWord bits ((result : Int) - 2 * kValgrindRedZoneBytes),
    [.BaseAllocationSize (wrapWord bits ((obj : Int) - kValgrindRedZoneBytes))])

/-- The member `ValgrindMallocSpace::Free`; the pointer difference and the difference of
`size_t` values wrap at `bits` bits. -/
def ValgrindMallocSpace.Free (bits : Nat) (base_AllocationSize base_Free : Nat → Nat)
    (ptr : Nat) : Nat × List SpaceEvent :=
  let obj_with_rdz := wrapWord bits ((ptr : Int) - kValgrindRedZoneBytes)
  let allocation_size := base_AllocationSize obj_with_rdz
  let freed := base_Free obj_with_rdz
  (wrapWord bits ((freed : Int) - 2 * kValgrindRedZoneBytes),
    [.BaseAllocationSize obj_with_rdz,
     .VALGRIND_MAKE_MEM_UNDEFINED obj_with_rdz allocation_size,
     .BaseFree obj_with_rdz])

end art

namespace art

/-! ## Theorems: CompileMethod -/

/-- With every debug flag off, a bit test on `kCompilerDebugFlags` fails. -/
theorem kCompilerDebugFlags_test (k : Nat) : (kCompilerDebugFlags &&& (1 <<< k) ≠ 0) ↔ False := by
  simp [kCompilerDebugFlags]

/-- The events `CompileMethod` produces once the size check and the instruction-set
assertion are behind it all follow the creation of the graph. -/
theorem CompileMethod_trace_of_small (env : Env) (backend : CompilerBackend)
    (code_item : CodeItem) (h : code_item.insns_size_in_code_units_ < 0x10000) :
    (CompileMethod env backend code_item).trace = [] ∨
      ∃ rest, (CompileMethod env backend code_item).trace =
        Event.NewMIRGraph :: Event.InlineMethod :: rest ∧
        ∀ size, Event.LogMethodSizeExceeds size ∉ rest := by
  have h' : ¬ code_item.insns_size_in_code_units_ ≥ 0x10000 := by omega
  obtain ⟨portable, dbg, iset, k1, k2, skip, cm⟩ := env
  cases portable <;> cases dbg <;> cases iset <;> cases skip <;> cases backend <;>
    simp [CompileMethod, CompileMethod.optimize, CompileMethod.codegen, CompileMethod.finish,
      selectCodeGenerator, kCompilerDebugFlags, h']

/-- C1: `CompileMethod` rejects a method on size grounds exactly when its body has
`0x10000` code units or more. For such a code item it returns `NULL` after logging "Method
size exceeds compiler limits" and nothing else happens; for a code item of at most `0xFFFF`
code units the run is not a size rejection and the size message is never logged. -/
theorem CompileMethod_size_check (env : Env) (backend : CompilerBackend)
    (code_item : CodeItem) :
    ((CompileMethod env backend code_item).rejectedAsTooLarge
        code_item.insns_size_in_code_units_ ↔
      code_item.insns_size_in_code_units_ ≥ 0x10000) ∧
    (code_item.insns_size_in_code_units_ ≤ 0xFFFF ↔
      ∀ size, Event.LogMethodSizeExceeds size ∉
        (CompileMethod env backend code_item).trace) := by
  by_cases h : code_item.insns_size_in_code_units_ ≥ 0x10000
  · have hrun : CompileMethod env backend code_item =
        ⟨.returned none, [.LogMethodSizeExceeds code_item.insns_size_in_code_units_]⟩ := by
      simp [CompileMethod, h]
    refine ⟨⟨fun _ => h, fun _ => hrun⟩, ⟨fun hle => absurd h (by omega), fun hno => ?_⟩⟩
    exact absurd (by simp [hrun]) (hno code_item.insns_size_in_code_units_)
  · have hlt : code_item.insns_size_in_code_units_ < 0x10000 := by omega
    have hno : ∀ size, Event.LogMethodSizeExceeds size ∉
        (CompileMethod env backend code_item).trace := by
      intro size
      rcases CompileMethod_trace_of_small env backend code_item hlt with h0 | ⟨rest, hr, hrest⟩
      · simp [h0]
      · simp [hr, hrest size]
    refine ⟨⟨fun hrej => ?_, fun hge => absurd hge h⟩, ⟨fun _ => hno, fun _ => by omega⟩⟩
    have : Event.LogMethodSizeExceeds code_item.insns_size_in_code_units_ ∈
        (CompileMethod env backend code_item).trace := by
      rw [Run.rejectedAsTooLarge] at hrej
      simp [hrej]
    exact absurd this (hno _)

/-- C1, at two code items next to the limit: `0x10000` code units are rejected,
`0xFFFF` are compiled. -/
theorem CompileMethod_size_check_witness :
    CompileMethod ⟨false, true, .kThumb2, 11, 12, false, some 7⟩ .other ⟨4, 0x10000⟩ =
      ⟨.returned none, [.LogMethodSizeExceeds 0x10000]⟩ ∧
    CompileMethod ⟨false, true, .kThumb2, 11, 12, false, some 7⟩ .other ⟨4, 0xFFFF⟩ =
      ⟨.returned (some 7), [.NewMIRGraph, .InlineMethod, .SkipCompilation,
        .PassDriverLaunch, .RemapRegLocations, .ArmCodeGenerator, .Materialize,
        .GetCompiledMethod]⟩ ∧
    (∀ size, Event.LogMethodSizeExceeds size ∉
      (CompileMethod ⟨false, true, .kThumb2, 11, 12, false, some 7⟩ .other
        ⟨4, 0xFFFF⟩).trace) :=
  ⟨by decide, by decide,
    (CompileMethod_size_check ⟨false, true, .kThumb2, 11, 12, false, some 7⟩ .other
      ⟨4, 0xFFFF⟩).2.mp (by decide)⟩

/-- C2: when `CompileMethod` rejects a method as too large, it returns `NULL` and the only
thing that has happened is the log message: no `MIRGraph` was constructed, `InlineMethod`
was not called, and neither the pass driver nor any code generator ran. -/
theorem CompileMethod_too_large_publishes_nothing (env : Env) (backend : CompilerBackend)
    (code_item : CodeItem) (h : code_item.insns_size_in_code_units_ ≥ 0x10000) :
    (CompileMethod env backend code_item).outcome = .returned none ∧
    (CompileMethod env backend code_item).trace =
      [.LogMethodSizeExceeds code_item.insns_size_in_code_units_] ∧
    Event.NewMIRGraph ∉ (CompileMethod env backend code_item).trace ∧
    Event.InlineMethod ∉ (CompileMethod env backend code_item).trace ∧
    Event.SkipCompilation ∉ (CompileMethod env backend code_item).trace ∧
    ∀ e ∈ (CompileMethod env backend code_item).trace, e.isDownstream = false := by
  have hrun : CompileMethod env backend code_item =
      ⟨.returned none, [.LogMethodSizeExceeds code_item.insns_size_in_code_units_]⟩ := by
    simp [CompileMethod, h]
  rw [hrun]
  simp [Event.isDownstream]

/-- C2, at a method of `0x12345` code units on a portable MIPS build. -/
theorem CompileMethod_too_large_publishes_nothing_witness :
    (0x12345 : Nat) ≥ 0x10000 ∧
    (CompileMethod ⟨true, false, .kMips, 11, 12, false, some 1⟩ .kPortable
      ⟨16, 0x12345⟩).outcome = .returned none ∧
    Event.NewMIRGraph ∉ (CompileMethod ⟨true, false, .kMips, 11, 12, false, some 1⟩
      .kPortable ⟨16, 0x12345⟩).trace :=
  ⟨by decide,
    (CompileMethod_too_large_publishes_nothing ⟨true, false, .kMips, 11, 12, false, some 1⟩
      .kPortable ⟨16, 0x12345⟩ (by decide)).1,
    (CompileMethod_too_large_publishes_nothing ⟨true, false, .kMips, 11, 12, false, some 1⟩
      .kPortable ⟨16, 0x12345⟩ (by decide)).2.2.1⟩

/-- C3: in the non-portable build, whenever `SkipCompilation` is called (the graph has been
built by then) and returns true, `CompileMethod` returns `NULL`, the call of
`SkipCompilation` is the last thing that happens, and the pass driver, `RemapRegLocations`
and every code generator are never invoked. -/
theorem CompileMethod_skip_abandons (env : Env) (backend : CompilerBackend)
    (code_item : CodeItem) (hbuild : env.ART_USE_PORTABLE_COMPILER = false)
    (hcalled : Event.SkipCompilation ∈ (CompileMethod env backend code_item).trace)
    (hskip : env.skip_compilation = true) :
    (CompileMethod env backend code_item).outcome = .returned none ∧
    (CompileMethod env backend code_item).trace =
      [.NewMIRGraph, .InlineMethod, .SkipCompilation] ∧
    Event.PassDriverLaunch ∉ (CompileMethod env backend code_item).trace ∧
    Event.RemapRegLocations ∉ (CompileMethod env backend code_item).trace ∧
    ∀ e ∈ (CompileMethod env backend code_item).trace, e.isDownstream = false := by
  obtain ⟨portable, dbg, iset, k1, k2, skip, cm⟩ := env
  simp only at hbuild hskip
  subst hbuild hskip
  by_cases h : code_item.insns_size_in_code_units_ ≥ 0x10000
  · exfalso
    simp [CompileMethod, h] at hcalled
  · cases dbg <;> cases iset <;>
      simp [CompileMethod, kCompilerDebugFlags, Event.isDownstream, h] at hcalled ⊢

/-- C3, at a small method the filter turns down on a Thumb2 build. -/
theorem CompileMethod_skip_abandons_witness :
    (CompileMethod ⟨false, true, .kThumb2, 11, 12, true, some 7⟩ .other ⟨4, 20⟩).outcome =
      .returned none ∧
    Event.PassDriverLaunch ∉
      (CompileMethod ⟨false, true, .kThumb2, 11, 12, true, some 7⟩ .other ⟨4, 20⟩).trace :=
  ⟨(CompileMethod_skip_abandons ⟨false, true, .kThumb2, 11, 12, true, some 7⟩ .other ⟨4, 20⟩
      rfl (by decide) rfl).1,
    (CompileMethod_skip_abandons ⟨false, true, .kThumb2, 11, 12, true, some 7⟩ .other ⟨4, 20⟩
      rfl (by decide) rfl).2.2.1⟩

/-! ## Theorems: inline members of MIRGraph -/

/-- For every index of an SSA name, `0 <= index < num_ssa_regs_`, the condition of the
`DCHECK` in `GetRegLocation` is false. -/
theorem GetRegLocation_dcheck_false_of_valid (g : MIRGraph) (index : Int)
    (hi : index < g.GetNumSSARegs) : MIRGraph.GetRegLocation.dcheck g index = false := by
  have : ¬ index > g.num_ssa_regs_ := by
    simp only [MIRGraph.GetNumSSARegs] at hi
    omega
  simp [MIRGraph.GetRegLocation.dcheck, this]

/-- C4, on a graph with one SSA name: for index 0, which is below `GetNumSSARegs()`, the
debug assertion of `GetRegLocation` evaluates to false, so a debug build aborts instead of
returning `reg_location_[0]`; a build without `DCHECK` returns it. -/
theorem GetRegLocation_dcheck_rejects_valid_index :
    (⟨[⟨0, false, true, false, false, true, false, false, false, 0, 255, 255, 0, 0⟩],
        fun _ => false, [0], [], 1⟩ : MIRGraph).GetNumSSARegs = 1 ∧
    MIRGraph.GetRegLocation.dcheck
      ⟨[⟨0, false, true, false, false, true, false, false, false, 0, 255, 255, 0, 0⟩],
        fun _ => false, [0], [], 1⟩ 0 = false ∧
    MIRGraph.GetRegLocation true
      ⟨[⟨0, false, true, false, false, true, false, false, false, 0, 255, 255, 0, 0⟩],
        fun _ => false, [0], [], 1⟩ 0 = .dcheckFailed ∧
    MIRGraph.GetRegLocation false
      ⟨[⟨0, false, true, false, false, true, false, false, false, 0, 255, 255, 0, 0⟩],
        fun _ => false, [0], [], 1⟩ 0 =
      .ok ⟨0, false, true, false, false, true, false, false, false, 0, 255, 255, 0, 0⟩ := by
  refine ⟨rfl, ?_, ?_, ?_⟩ <;> decide

/-- C5: `GetBasicBlock(NullBasicBlockId)` is `NULL` whatever the block list holds (also when
it is empty, so the list is not read), and for every `int` id with
`0 < id < GetBasicBlockListCount()` the call returns the element at position `id` of the
block list. -/
theorem GetBasicBlock_indexes_block_list (g : MIRGraph) :
    g.GetBasicBlock NullBasicBlockId = .ok none ∧
    ∀ id : Int, id < 2 ^ 31 → 0 < id → id < g.GetBasicBlockListCount →
      ∃ bb, g.block_list_[id.toNat]? = some bb ∧ g.GetBasicBlock id = .ok (some bb) := by
  refine ⟨by simp [MIRGraph.GetBasicBlock], fun id hint h0 hlt => ?_⟩
  simp only [MIRGraph.GetBasicBlockListCount] at hlt
  have hn : id.toNat < g.block_list_.length := by omega
  have hne : ¬ id = (NullBasicBlockId : Int) := by
    simp only [NullBasicBlockId]; omega
  have hsz : toSizeT id = id.toNat := by
    simp only [toSizeT]
    congr 1
    omega
  refine ⟨g.block_list_[id.toNat], by simp [hn], ?_⟩
  simp [MIRGraph.GetBasicBlock, hne, hsz, GrowableArray.Get, hn]

/-- C5, on a list of three blocks: id 2 yields the block at position 2, id 0 yields
`NULL`. -/
theorem GetBasicBlock_indexes_block_list_witness :
    (⟨[], fun _ => false, [], [exampleBlock 0 0, exampleBlock 1 0, exampleBlock 2 8], 0⟩ :
      MIRGraph).GetBasicBlock 0 = .ok none ∧
    ∃ bb, [exampleBlock 0 0, exampleBlock 1 0, exampleBlock 2 8][(2 : Int).toNat]? = some bb ∧
      (⟨[], fun _ => false, [], [exampleBlock 0 0, exampleBlock 1 0, exampleBlock 2 8], 0⟩ :
        MIRGraph).GetBasicBlock 2 = .ok (some bb) :=
  ⟨(GetBasicBlock_indexes_block_list
      ⟨[], fun _ => false, [], [exampleBlock 0 0, exampleBlock 1 0, exampleBlock 2 8], 0⟩).1,
    (GetBasicBlock_indexes_block_list
      ⟨[], fun _ => false, [], [exampleBlock 0 0, exampleBlock 1 0, exampleBlock 2 8], 0⟩).2
      2 (by decide) (by decide) (by decide)⟩

/-- The two halves of a wide constant, put together without carries: with `hi` and `lo`
32-bit signed values, the `int64_t` computed by `(hi << 32) | Low32Bits(lo)`. -/
theorem or64_shl64_Low32Bits (hi lo : Int) (hhi : -2 ^ 31 ≤ hi ∧ hi < 2 ^ 31)
    (hlo : -2 ^ 31 ≤ lo ∧ lo < 2 ^ 31) :
    or64 (shl64 hi 32) (Low32Bits (toUInt64 lo) : Nat) = hi * 2 ^ 32 + lo % 2 ^ 32 := by
  obtain ⟨hh1, hh2⟩ := hhi
  obtain ⟨hl1, hl2⟩ := hlo
  norm_num at hh1 hh2 hl1 hl2
  have hs : shl64 hi 32 = hi * 4294967296 := by
    simp only [shl64, wrapInt64]
    norm_num
    omega
  have ha : toUInt64 (shl64 hi 32) = 2 ^ 32 * (hi % 4294967296).toNat := by
    rw [hs]
    simp only [toUInt64]
    norm_num
    omega
  have hb : toUInt64 ((Low32Bits (toUInt64 lo) : Nat) : Int) = (lo % 4294967296).toNat := by
    simp only [toUInt64, Low32Bits]
    norm_num
    omega
  have hblt : (lo % 4294967296).toNat < 2 ^ 32 := by
    norm_num
    omega
  simp only [or64]
  rw [ha, hb, ← Nat.mul_add_lt_is_or hblt]
  simp only [wrapInt64]
  norm_num
  omega

/-- C6: for a constant location whose pair is stored as low word `lo` at
`constant_values_[orig_sreg]` and high word `hi` at `constant_values_[orig_sreg + 1]` (two
`int32_t` values), `ConstantValueWide` returns `hi * 2^32 + (lo mod 2^32)`. The result is
an `int64_t`, its high 32 bits are `hi` and its low 32 bits are `lo` taken as unsigned: a
negative low word does not sign-extend into the high word. -/
theorem ConstantValueWide_joins_pair (kIsDebugBuild : Bool) (g : MIRGraph)
    (loc : RegLocation) (lo hi : Int)
    (hconst : g.IsConst loc = true)
    (hlo : index? g.constant_values_ loc.orig_sreg = some lo)
    (hhi : index? g.constant_values_ (loc.orig_sreg + 1) = some hi)
    (hlo32 : -2 ^ 31 ≤ lo ∧ lo < 2 ^ 31) (hhi32 : -2 ^ 31 ≤ hi ∧ hi < 2 ^ 31) :
    g.ConstantValueWide kIsDebugBuild loc = .ok (hi * 2 ^ 32 + lo % 2 ^ 32) ∧
    (-2 ^ 63 ≤ hi * 2 ^ 32 + lo % 2 ^ 32 ∧ hi * 2 ^ 32 + lo % 2 ^ 32 < 2 ^ 63) ∧
    (hi * 2 ^ 32 + lo % 2 ^ 32) / 2 ^ 32 = hi ∧
    (hi * 2 ^ 32 + lo % 2 ^ 32) % 2 ^ 32 = lo % 2 ^ 32 := by
  refine ⟨?_, ?_, ?_, ?_⟩
  · simp [MIRGraph.ConstantValueWide, hconst, hlo, hhi, or64_shl64_Low32Bits hi lo hhi32 hlo32]
  · obtain ⟨hh1, hh2⟩ := hhi32
    norm_num at hh1 hh2 ⊢
    omega
  · norm_num
    omega
  · norm_num
    omega

/-- C6, at the pair `lo = -1`, `hi = 5` stored at SSA names 2 and 3: the wide constant is
`5 * 2^32 + (2^32 - 1)`, not `-1`. -/
theorem ConstantValueWide_joins_pair_witness :
    (⟨[], fun s => decide (s = 2), [0, 0, -1, 5], [], 4⟩ : MIRGraph).ConstantValueWide true
      ⟨0, true, true, true, false, true, false, false, false, 0, 255, 255, 2, 2⟩ =
      .ok (5 * 2 ^ 32 + (-1) % 2 ^ 32) ∧
    (5 * 2 ^ 32 + (-1) % 2 ^ 32 : Int) / 2 ^ 32 = 5 :=
  ⟨(ConstantValueWide_joins_pair true ⟨[], fun s => decide (s = 2), [0, 0, -1, 5], [], 4⟩
      ⟨0, true, true, true, false, true, false, false, false, 0, 255, 255, 2, 2⟩ (-1) 5
      (by decide) (by decide) (by decide) (by decide) (by decide)).1,
    (ConstantValueWide_joins_pair true ⟨[], fun s => decide (s = 2), [0, 0, -1, 5], [], 4⟩
      ⟨0, true, true, true, false, true, false, false, false, 0, 255, 255, 2, 2⟩ (-1) 5
      (by decide) (by decide) (by decide) (by decide) (by decide)).2.2.1⟩

/-- C7: the reserved SSA names are `INVALID_SREG = -1`, `SSA_METHOD_BASEREG = -2` and
`SSA_CTEMP_BASEREG = -3`; they are negative and pairwise distinct, and none of them is the
name `n` that a Dalvik vreg `vn` gets, for any `n = 0, 1, 2, ...`. -/
theorem reserved_sregs_disjoint_from_vreg_names :
    INVALID_SREG = -1 ∧ SSA_METHOD_BASEREG = -2 ∧ SSA_CTEMP_BASEREG = -3 ∧
    INVALID_SREG < 0 ∧ SSA_METHOD_BASEREG < 0 ∧ SSA_CTEMP_BASEREG < 0 ∧
    INVALID_SREG ≠ SSA_METHOD_BASEREG ∧ INVALID_SREG ≠ SSA_CTEMP_BASEREG ∧
    SSA_METHOD_BASEREG ≠ SSA_CTEMP_BASEREG ∧
    ∀ n : Nat, (n : Int) ≠ INVALID_SREG ∧ (n : Int) ≠ SSA_METHOD_BASEREG ∧
      (n : Int) ≠ SSA_CTEMP_BASEREG := by
  refine ⟨rfl, rfl, rfl, by decide, by decide, by decide, by decide, by decide, by decide,
    fun n => ?_⟩
  simp only [INVALID_SREG, SSA_METHOD_BASEREG, SSA_CTEMP_BASEREG]
  omega

/-- C8: for every opcode value, `IsPseudoMirOp(opcode)` is true iff
`opcode >= kMirOpFirst`, for the `int` overload and for the `Instruction::Code` overload,
and the two overloads agree on the same numeric value. -/
theorem IsPseudoMirOp_iff_ge_kMirOpFirst (kMirOpFirst : Int) :
    (∀ opcode : Int, MIRGraph.IsPseudoMirOp kMirOpFirst opcode = true ↔
      opcode ≥ kMirOpFirst) ∧
    (∀ opcode : Instruction.Code, MIRGraph.IsPseudoMirOp_Code kMirOpFirst opcode = true ↔
      (opcode.value : Int) ≥ kMirOpFirst) ∧
    (∀ opcode : Instruction.Code, MIRGraph.IsPseudoMirOp_Code kMirOpFirst opcode =
      MIRGraph.IsPseudoMirOp kMirOpFirst (opcode.value : Int)) := by
  refine ⟨fun opcode => ?_, fun opcode => ?_, fun opcode => rfl⟩
  · simp [MIRGraph.IsPseudoMirOp]
  · simp [MIRGraph.IsPseudoMirOp_Code]

/-! ## Theorems: SSA use and def lists -/

/-- A test against a union of masks succeeds iff the test against one of them does. -/
theorem dfTest_or (df a b : Nat) : dfTest df (a ||| b) = (dfTest df a || dfTest df b) := by
  have zero_of_or : ∀ x y : Nat, x ||| y = 0 → x = 0 := by
    intro x y h
    apply Nat.eq_of_testBit_eq
    intro i
    have hi : (x ||| y).testBit i = false := by rw [h]; exact Nat.zero_testBit i
    rw [Nat.testBit_or, Bool.or_eq_false_iff] at hi
    rw [hi.1, Nat.zero_testBit]
  have key : ∀ x y : Nat, (x ||| y = 0) ↔ (x = 0 ∧ y = 0) := by
    intro x y
    constructor
    · intro h
      exact ⟨zero_of_or x y h, zero_of_or y x (by rw [Nat.or_comm]; exact h)⟩
    · rintro ⟨rfl, rfl⟩
      rfl
  rw [Bool.eq_iff_iff]
  simp only [dfTest, Nat.and_or_distrib_left, bne_iff_ne, ne_eq, Bool.or_eq_true, key]
  tauto

/-- C9: an instruction whose data-flow attributes flag a wide def of `A` and wide uses of
`B` and `C` (a three-address wide arithmetic instruction such as `ADD_LONG`) gets an
`SSARepresentation` with `num_uses = 4` and `num_defs = 2`: the uses are the names of the
two source pairs, the defs two fresh names for the destination pair. -/
theorem wide_arithmetic_ssa_rep_counts (vreg_to_ssa_map : Nat → Int) (num_ssa_regs : Int)
    (df vA vB vC : Nat)
    (hUA : dfTest df DF_UA = false)
    (hUB : dfTest df DF_UB = true) (hBW : dfTest df DF_B_WIDE = true)
    (hUC : dfTest df DF_UC = true) (hCW : dfTest df DF_C_WIDE = true)
    (hDA : dfTest df DF_DA = true) (hAW : dfTest df DF_A_WIDE = true) :
    (DoSSAConversion.ssa_rep vreg_to_ssa_map num_ssa_regs df vA vB vC).num_uses = 4 ∧
    (DoSSAConversion.ssa_rep vreg_to_ssa_map num_ssa_regs df vA vB vC).num_defs = 2 ∧
    (DoSSAConversion.ssa_rep vreg_to_ssa_map num_ssa_regs df vA vB vC).uses =
      [vreg_to_ssa_map vB, vreg_to_ssa_map (vB + 1),
       vreg_to_ssa_map vC, vreg_to_ssa_map (vC + 1)] ∧
    (DoSSAConversion.ssa_rep vreg_to_ssa_map num_ssa_regs df vA vB vC).defs =
      [num_ssa_regs, num_ssa_regs + 1] ∧
    (DoSSAConversion.ssa_rep vreg_to_ssa_map num_ssa_regs df vA vB vC).fp_use.length = 4 ∧
    (DoSSAConversion.ssa_rep vreg_to_ssa_map num_ssa_regs df vA vB vC).fp_def.length = 2 := by
  have hU : dfTest df DF_HAS_USES = true := by
    simp [DF_HAS_USES, dfTest_or, hUB]
  have hD : dfTest df DF_HAS_DEFS = true := by
    simpa [DF_HAS_DEFS] using hDA
  simp [DoSSAConversion.ssa_rep, operandVRegs, operandFp, hU, hD, hUA, hUB, hBW, hUC, hCW,
    hAW, List.range_succ]

/-- C9, at `ADD_LONG v0, v2, v2` in a method of six registers that still carry their
initial names: four uses `2, 3, 2, 3` and two defs `6, 7`. -/
theorem wide_arithmetic_ssa_rep_counts_witness :
    (DoSSAConversion.ssa_rep (fun v => (v : Int)) 6 DF_ADD_LONG 0 2 2).num_uses = 4 ∧
    (DoSSAConversion.ssa_rep (fun v => (v : Int)) 6 DF_ADD_LONG 0 2 2).num_defs = 2 ∧
    (DoSSAConversion.ssa_rep (fun v => (v : Int)) 6 DF_ADD_LONG 0 2 2).uses = [2, 3, 2, 3] ∧
    (DoSSAConversion.ssa_rep (fun v => (v : Int)) 6 DF_ADD_LONG 0 2 2).defs = [6, 7] :=
  ⟨(wide_arithmetic_ssa_rep_counts (fun v => (v : Int)) 6 DF_ADD_LONG 0 2 2
      (by decide) (by decide) (by decide) (by decide) (by decide) (by decide) (by decide)).1,
    (wide_arithmetic_ssa_rep_counts (fun v => (v : Int)) 6 DF_ADD_LONG 0 2 2
      (by decide) (by decide) (by decide) (by decide) (by decide) (by decide) (by decide)).2.1,
    by decide, by decide⟩

/-! ## Theorems: type inference helpers -/

/-- Reading a raw array at a signed index succeeds only inside the array. -/
theorem index?_eq_some {α : Type} (a : List α) (i : Int) (x : α) :
    index? a i = some x ↔ 0 ≤ i ∧ a[i.toNat]? = some x := by
  unfold index?
  by_cases h : i < 0
  · simp only [h, if_true]
    constructor
    · intro h'; cases h'
    · intro h'; omega
  · simp only [h, if_false]
    constructor
    · intro h'; exact ⟨by omega, h'⟩
    · intro h'; exact h'.2

/-- Setting a type field leaves every field that was set before set. -/
theorem setTypeField_keeps (loc : RegLocation) (f f2 : TypeField)
    (h : loc.typeField f2 = true) : (loc.setTypeField f).typeField f2 = true := by
  cases f <;> cases f2 <;> simp_all [RegLocation.setTypeField, RegLocation.typeField]

/-- Setting a type field sets it. -/
theorem setTypeField_sets (loc : RegLocation) (f : TypeField) :
    (loc.setTypeField f).typeField f = true := by
  cases f <;> simp [RegLocation.setTypeField, RegLocation.typeField]

/-- Every helper call is the common body at the field, index and flag of the call, the
one-argument form asserting the type. -/
theorem call_eq_Setxx (g : MIRGraph) (c : SetxxCall) :
    g.call c = g.Setxx c.field c.index (c.flag.getD true) := by
  obtain ⟨f, i, fl⟩ := c
  cases f <;> cases fl <;>
    simp [MIRGraph.call, MIRGraph.SetFp, MIRGraph.SetFp_flag, MIRGraph.SetCore,
      MIRGraph.SetCore_flag, MIRGraph.SetRef, MIRGraph.SetRef_flag, MIRGraph.SetWide,
      MIRGraph.SetWide_flag, MIRGraph.SetHigh, MIRGraph.SetHigh_flag]

/-- Replacing the record of one SSA name by the record with one more field set keeps the
set fields of every record. -/
theorem keepsSetFields_set (g : MIRGraph) (index : Int) (loc : RegLocation) (f : TypeField)
    (hloc : index? g.reg_location_ index = some loc) :
    g.keepsSetFields
      { g with reg_location_ := g.reg_location_.set index.toNat (loc.setTypeField f) } := by
  intro j f2 locj hj hset
  rw [index?_eq_some] at hj hloc
  simp only [index?_eq_some]
  by_cases hij : index.toNat = j.toNat
  · have hlt : j.toNat < g.reg_location_.length := by
      rcases List.getElem?_eq_some_iff.mp hj.2 with ⟨hlt, _⟩
      exact hlt
    have hsame : locj = loc := by
      have h1 := hj.2
      rw [← hij, hloc.2] at h1
      exact (Option.some.inj h1).symm
    refine ⟨loc.setTypeField f, ⟨hj.1, ?_⟩, setTypeField_keeps loc f f2 (hsame ▸ hset)⟩
    rw [hij]
    simp [hlt]
  · refine ⟨locj, ⟨hj.1, ?_⟩, hset⟩
    rw [List.getElem?_set_ne hij]
    exact hj.2

/-- A graph keeps its own set fields. -/
theorem keepsSetFields_refl (g : MIRGraph) : g.keepsSetFields g :=
  fun _ _ loc hj hset => ⟨loc, hj, hset⟩

/-- Keeping set fields is transitive. -/
theorem keepsSetFields_trans (g g2 g3 : MIRGraph) (h12 : g.keepsSetFields g2)
    (h23 : g2.keepsSetFields g3) : g.keepsSetFields g3 := by
  intro j f loc hj hset
  obtain ⟨loc2, hj2, hset2⟩ := h12 j f loc hj hset
  exact h23 j f loc2 hj2 hset2

/-- One helper call on the record of an SSA name: it succeeds, returns true iff the record
changed, and keeps every set field. -/
theorem call_spec (g : MIRGraph) (c : SetxxCall) (loc : RegLocation)
    (hloc : index? g.reg_location_ c.index = some loc) :
    ∃ changed g2, g.call c = .ok (changed, g2) ∧
      (changed = true ↔ index? g2.reg_location_ c.index ≠ some loc) ∧
      g.keepsSetFields g2 := by
  rw [call_eq_Setxx]
  simp only [MIRGraph.Setxx, hloc]
  by_cases hb : (c.flag.getD true && !loc.typeField c.field && !loc.conflictsWith c.field) = true
  · simp only [hb, if_true]
    refine ⟨true, _, rfl, ?_, keepsSetFields_set g c.index loc c.field hloc⟩
    simp only [true_iff]
    have hin := (index?_eq_some _ _ _).mp hloc
    have hlt : c.index.toNat < g.reg_location_.length := by
      rcases List.getElem?_eq_some_iff.mp hin.2 with ⟨hlt, _⟩
      exact hlt
    have hnew : index? (g.reg_location_.set c.index.toNat (loc.setTypeField c.field)) c.index =
        some (loc.setTypeField c.field) := by
      rw [index?_eq_some]
      exact ⟨hin.1, by simp [hlt]⟩
    rw [hnew]
    intro heq
    have hfield : loc.typeField c.field = true := by
      have := setTypeField_sets loc c.field
      rwa [Option.some.inj heq] at this
    simp [hfield] at hb
  · simp only [hb]
    refine ⟨false, g, rfl, ?_, keepsSetFields_refl g⟩
    simp [hloc]

/-- A helper call that returns keeps every set field. -/
theorem call_ok_keeps (g g2 : MIRGraph) (c : SetxxCall) (changed : Bool)
    (h : g.call c = .ok (changed, g2)) : g.keepsSetFields g2 := by
  cases hloc : index? g.reg_location_ c.index with
  | none =>
    rw [call_eq_Setxx] at h
    simp [MIRGraph.Setxx, hloc] at h
  | some loc =>
    obtain ⟨b, g3, hcall, _, hkeep⟩ := call_spec g c loc hloc
    rw [hcall] at h
    injection h with h
    injection h with _ hg
    exact hg ▸ hkeep

/-- A sequence of helper calls keeps every set field. -/
theorem callAll_keeps (cs : List SetxxCall) :
    ∀ g g2 : MIRGraph, g.callAll cs = some g2 → g.keepsSetFields g2 := by
  induction cs with
  | nil =>
    intro g g2 h
    simp only [MIRGraph.callAll] at h
    exact (Option.some.inj h) ▸ keepsSetFields_refl g
  | cons c cs ih =>
    intro g g2 h
    simp only [MIRGraph.callAll] at h
    cases hc : g.call c with
    | ok r =>
      obtain ⟨b, g1⟩ := r
      rw [hc] at h
      exact keepsSetFields_trans g g1 g2 (call_ok_keeps g g1 c b hc) (ih g1 g2 h)
    | dcheckFailed => rw [hc] at h; cases h
    | outOfBounds => rw [hc] at h; cases h

/-- C10: on the record of any SSA name, each of `SetFp`, `SetCore`, `SetRef`, `SetWide`
and `SetHigh`, in the one-argument and in the `(index, flag)` form, returns true iff it
changed the record, and a type field that is set stays set through the call and through
any sequence of later `Setxx` calls. -/
theorem Setxx_reports_change_and_never_clears (g : MIRGraph) :
    (∀ (c : SetxxCall) (loc : RegLocation), index? g.reg_location_ c.index = some loc →
      ∃ changed g2, g.call c = .ok (changed, g2) ∧
        (changed = true ↔ index? g2.reg_location_ c.index ≠ some loc) ∧
        g.keepsSetFields g2) ∧
    (∀ (cs : List SetxxCall) (g2 : MIRGraph), g.callAll cs = some g2 →
      g.keepsSetFields g2) :=
  ⟨fun c loc hloc => call_spec g c loc hloc, fun cs g2 h => callAll_keeps cs g g2 h⟩

/-- C10, on a graph with the single record `exampleLoc`, whose `core` field is set:
`SetWide(0)` returns true and sets `wide`, and after `SetWide(0)`, `SetCore(0, false)` and
`SetHigh(0)` the field `core` is still set. -/
theorem Setxx_reports_change_and_never_clears_witness :
    (∃ changed g2, (⟨[exampleLoc], fun _ => false, [], [], 1⟩ : MIRGraph).call
        ⟨.wide, 0, none⟩ = .ok (changed, g2) ∧
      (changed = true ↔ index? g2.reg_location_ 0 ≠ some exampleLoc) ∧
      (⟨[exampleLoc], fun _ => false, [], [], 1⟩ : MIRGraph).keepsSetFields g2) ∧
    ((⟨[exampleLoc], fun _ => false, [], [], 1⟩ : MIRGraph).call ⟨.wide, 0, none⟩).flag? =
      some true ∧
    ∀ g2, (⟨[exampleLoc], fun _ => false, [], [], 1⟩ : MIRGraph).callAll
        [⟨.wide, 0, none⟩, ⟨.core, 0, some false⟩, ⟨.high_word, 0, none⟩] = some g2 →
      (⟨[exampleLoc], fun _ => false, [], [], 1⟩ : MIRGraph).keepsSetFields g2 :=
  ⟨(Setxx_reports_change_and_never_clears ⟨[exampleLoc], fun _ => false, [], [], 1⟩).1
      ⟨.wide, 0, none⟩ exampleLoc rfl,
    rfl,
    (Setxx_reports_change_and_never_clears ⟨[exampleLoc], fun _ => false, [], [], 1⟩).2
      [⟨.wide, 0, none⟩, ⟨.core, 0, some false⟩, ⟨.high_word, 0, none⟩]⟩

/-! ## Theorems: truncating division -/

/-- The remainder of the truncating division changes sign with the dividend. -/
theorem tmod_neg_left (a b : Int) : Int.tmod (-a) b = -Int.tmod a b := by
  rw [Int.tmod_def, Int.tmod_def, Int.neg_tdiv]
  rw [Int.mul_neg]
  omega

/-- The remainder of the truncating division of a non-negative dividend lies in
`[0, |b|)`. -/
theorem tmod_bounds_of_nonneg (a b : Int) (ha : 0 ≤ a) (hb : b ≠ 0) :
    0 ≤ Int.tmod a b ∧ Int.tmod a b < |b| := by
  refine ⟨Int.tmod_nonneg b ha, ?_⟩
  rcases lt_or_gt_of_ne hb with hneg | hpos
  · have h := Int.tmod_lt_of_pos a (b := -b) (by omega)
    rw [Int.tmod_neg] at h
    rw [abs_of_neg hneg]
    exact h
  · rw [abs_of_pos hpos]
    exact Int.tmod_lt_of_pos a hpos

/-- The remainder of the truncating division is smaller in absolute value than the
divisor, and is zero or has the sign of the dividend. -/
theorem tmod_bounds (a b : Int) (hb : b ≠ 0) :
    |Int.tmod a b| < |b| ∧ (0 ≤ a → 0 ≤ Int.tmod a b) ∧ (a ≤ 0 → Int.tmod a b ≤ 0) := by
  rcases le_or_lt 0 a with ha | ha
  · obtain ⟨h0, h1⟩ := tmod_bounds_of_nonneg a b ha hb
    refine ⟨by rw [abs_of_nonneg h0]; exact h1, fun _ => h0, fun ha' => ?_⟩
    have : a = 0 := by omega
    subst this
    simp
  · obtain ⟨h0, h1⟩ := tmod_bounds_of_nonneg (-a) b (by omega) hb
    rw [tmod_neg_left] at h0 h1
    refine ⟨?_, fun ha' => by omega, fun _ => by omega⟩
    rw [abs_of_nonpos (by omega)]
    exact h1

/-- The truncated quotient is at most the dividend in absolute value, and at most half of
it when the divisor is neither `1` nor `-1`. -/
theorem tdiv_abs_le (a b : Int) (hb : b ≠ 0) :
    |Int.tdiv a b| ≤ |a| ∧ (b ≠ 1 → b ≠ -1 → 2 * |Int.tdiv a b| ≤ |a|) := by
  have hq : (Int.tdiv a b).natAbs = a.natAbs / b.natAbs := Int.natAbs_tdiv a b
  have hbpos : 0 < b.natAbs := Int.natAbs_pos.mpr hb
  rw [Int.abs_eq_natAbs, Int.abs_eq_natAbs, hq]
  constructor
  · exact_mod_cast Nat.div_le_self _ _
  · intro h1 h2
    have h2le : 2 ≤ b.natAbs := by omega
    have : a.natAbs / b.natAbs ≤ a.natAbs / 2 := Nat.div_le_div_left h2le (by decide)
    have h3 : 2 * (a.natAbs / 2) ≤ a.natAbs := Nat.mul_div_le _ _
    have : 2 * (a.natAbs / b.natAbs) ≤ a.natAbs := by omega
    exact_mod_cast this

/-- For operands of `w + 1` bits, the truncated quotient is again a value of `w + 1` bits
unless the dividend is the least value and the divisor is `-1`. -/
theorem tdiv_in_range (m a b : Int) (hm : 0 < m) (ha : -m ≤ a ∧ a < m) (hb : b ≠ 0)
    (hne : ¬ (a = -m ∧ b = -1)) : -m ≤ Int.tdiv a b ∧ Int.tdiv a b < m := by
  obtain ⟨h1, h2⟩ := tdiv_abs_le a b hb
  by_cases hb1 : b = 1
  · subst hb1
    simpa using ha
  by_cases hb2 : b = -1
  · subst hb2
    have : Int.tdiv a (-1) = -a := by
      rw [Int.tdiv_neg, Int.tdiv_one]
    rw [this]
    have : a ≠ -m := fun h => hne ⟨h, rfl⟩
    omega
  · have h3 := h2 hb1 hb2
    have habs : |a| ≤ m := abs_le.mpr ⟨ha.1, by omega⟩
    have hq := abs_le.mp (show |Int.tdiv a b| ≤ m by omega)
    have hlt : |Int.tdiv a b| < m := by omega
    have := abs_lt.mp hlt
    omega

/-! ## Theorems: DoIntDivide, DoIntRemainder, DoLongDivide, DoLongRemainder -/

/-- C15: `DoIntDivide` returns false iff the divisor is zero; in that case it throws the
divide-by-zero `ArithmeticException` and stores nothing in the shadow frame; when it
returns true the one thing it does is store a value in the result register. -/
theorem DoIntDivide_false_iff_zero_divisor (result_reg : Nat) (dividend divisor : Int) :
    ((DoIntDivide result_reg dividend divisor).1 = false ↔ divisor = 0) ∧
    (divisor = 0 → (DoIntDivide result_reg dividend divisor).2 =
      [.ThrowArithmeticExceptionDivideByZero]) ∧
    ((DoIntDivide result_reg dividend divisor).1 = true →
      ∃ q, (DoIntDivide result_reg dividend divisor).2 = [.SetVReg result_reg q]) := by
  by_cases h0 : divisor = 0
  · simp [DoIntDivide, h0]
  · by_cases h1 : dividend = kMinInt ∧ divisor = -1
    · simp [DoIntDivide, h0, h1]
    · simp [DoIntDivide, h0, h1]

/-- C15, at `7 / 0` and `7 / 2` with result register 3. -/
theorem DoIntDivide_false_iff_zero_divisor_witness :
    DoIntDivide 3 7 0 = (false, [.ThrowArithmeticExceptionDivideByZero]) ∧
    DoIntDivide 3 7 2 = (true, [.SetVReg 3 3]) ∧
    ((DoIntDivide 3 7 0).1 = false ↔ (0 : Int) = 0) ∧
    ∃ q, (DoIntDivide 3 7 2).2 = [.SetVReg 3 q] :=
  ⟨by decide, by decide, (DoIntDivide_false_iff_zero_divisor 3 7 0).1,
    (DoIntDivide_false_iff_zero_divisor 3 7 2).2.2 (by decide)⟩

/-- C16: for a 32-bit dividend and a 32-bit divisor other than zero, the value
`DoIntDivide` writes is the quotient truncated toward zero and wrapped to 32 bits; it is an
`int32_t`; the wrap changes the quotient for the pair `INT_MIN / -1` (which yields
`INT_MIN`) and for no other pair. Truncated toward zero: the quotient times the divisor is
no larger than the dividend in absolute value and misses it by less than the divisor. -/
theorem DoIntDivide_writes_wrapped_quotient (result_reg : Nat) (dividend divisor : Int)
    (hdividend : isInt32 dividend) (hdivisor : isInt32 divisor) (hne : divisor ≠ 0) :
    DoIntDivide result_reg dividend divisor =
      (true, [.SetVReg result_reg (wrapInt32 (Int.tdiv dividend divisor))]) ∧
    isInt32 (wrapInt32 (Int.tdiv dividend divisor)) ∧
    (wrapInt32 (Int.tdiv dividend divisor) ≠ Int.tdiv dividend divisor ↔
      (dividend = kMinInt ∧ divisor = -1)) ∧
    (dividend = kMinInt ∧ divisor = -1 →
      wrapInt32 (Int.tdiv dividend divisor) = kMinInt) ∧
    |Int.tdiv dividend divisor * divisor| ≤ |dividend| ∧
    |dividend - Int.tdiv dividend divisor * divisor| < |divisor| := by
  obtain ⟨ha1, ha2⟩ := hdividend
  have htrunc1 : |Int.tdiv dividend divisor * divisor| ≤ |dividend| := by
    rw [Int.abs_eq_natAbs, Int.abs_eq_natAbs, Int.natAbs_mul, Int.natAbs_tdiv]
    exact_mod_cast Nat.div_mul_le_self _ _
  have htrunc2 : |dividend - Int.tdiv dividend divisor * divisor| < |divisor| := by
    have h := (tmod_bounds dividend divisor hne).1
    rw [Int.tmod_def, Int.mul_comm] at h
    exact h
  by_cases h1 : dividend = kMinInt ∧ divisor = -1
  · obtain ⟨rfl, rfl⟩ := h1
    refine ⟨?_, by decide, ?_, fun _ => by decide, htrunc1, htrunc2⟩
    · have hw : wrapInt32 (Int.tdiv kMinInt (-1)) = kMinInt := by decide
      rw [hw]
      simp [DoIntDivide]
    · exact ⟨fun _ => ⟨rfl, rfl⟩, fun _ => by decide⟩
  · have hr := tdiv_in_range (2 ^ 31) dividend divisor (by norm_num) ⟨ha1, ha2⟩ hne
      (by simpa [kMinInt] using h1)
    have hw : wrapInt32 (Int.tdiv dividend divisor) = Int.tdiv dividend divisor := by
      obtain ⟨hr1, hr2⟩ := hr
      simp only [wrapInt32]
      norm_num at hr1 hr2 ⊢
      omega
    rw [hw]
    refine ⟨by simp [DoIntDivide, hne, h1], hr, ?_, fun h => absurd h h1, htrunc1, htrunc2⟩
    exact ⟨fun h => absurd rfl h, fun h => absurd h h1⟩

/-- C16, at `-7 / 2` (the quotient is `-3`, truncated toward zero). -/
theorem DoIntDivide_writes_wrapped_quotient_witness :
    DoIntDivide 0 (-7) 2 = (true, [.SetVReg 0 (wrapInt32 (Int.tdiv (-7) 2))]) ∧
    wrapInt32 (Int.tdiv (-7) 2) = -3 :=
  ⟨(DoIntDivide_writes_wrapped_quotient 0 (-7) 2 (by decide) (by decide) (by decide)).1,
    by decide⟩

/-- C17: for 32-bit `a` and `b` with `b` not zero, the quotient `q` written by
`DoIntDivide` and the remainder `r` written by `DoIntRemainder` satisfy `a = b * q + r`
modulo `2^32`, `|r| < |b|`, and `r` is zero or has the sign of `a`; `INT_MIN % -1` is `0`.
For every divisor, `DoIntRemainder` returns false iff the divisor is zero, and then it
throws and writes nothing. -/
theorem DoIntRemainder_consistent_with_DoIntDivide (result_reg : Nat) (a b : Int)
    (ha : isInt32 a) (hb : isInt32 b) (hne : b ≠ 0) :
    (∃ q r, DoIntDivide result_reg a b = (true, [.SetVReg result_reg q]) ∧
      DoIntRemainder result_reg a b = (true, [.SetVReg result_reg r]) ∧
      (b * q + r) % 2 ^ 32 = a % 2 ^ 32 ∧ |r| < |b| ∧
      (r = 0 ∨ (0 < r ∧ 0 < a) ∨ (r < 0 ∧ a < 0)) ∧
      (a = kMinInt ∧ b = -1 → r = 0)) ∧
    (∀ divisor : Int, ((DoIntRemainder result_reg a divisor).1 = false ↔ divisor = 0) ∧
      (divisor = 0 → DoIntRemainder result_reg a divisor =
        (false, [.ThrowArithmeticExceptionDivideByZero]))) := by
  constructor
  · by_cases h1 : a = kMinInt ∧ b = -1
    · obtain ⟨rfl, rfl⟩ := h1
      exact ⟨kMinInt, 0, by simp [DoIntDivide], by simp [DoIntRemainder], by decide,
        by decide, Or.inl rfl, fun _ => rfl⟩
    · refine ⟨Int.tdiv a b, Int.tmod a b, by simp [DoIntDivide, hne, h1],
        by simp [DoIntRemainder, hne, h1], ?_, ?_, ?_, fun h => absurd h h1⟩
      · rw [Int.tdiv_add_tmod]
      · exact (tmod_bounds a b hne).1
      · obtain ⟨_, h2, h3⟩ := tmod_bounds a b hne
        rcases lt_trichotomy a 0 with h | h | h
        · have := h3 (by omega)
          omega
        · subst h
          left
          simp
        · have := h2 (by omega)
          omega
  · intro divisor
    by_cases h0 : divisor = 0
    · simp [DoIntRemainder, h0]
    · by_cases h1 : a = kMinInt ∧ divisor = -1
      · simp [DoIntRemainder, h0, h1]
      · simp [DoIntRemainder, h0, h1]

/-- C17, at `a = -7`, `b = 2`: the quotient is `-3` and the remainder `-1`. -/
theorem DoIntRemainder_consistent_with_DoIntDivide_witness :
    DoIntDivide 1 (-7) 2 = (true, [.SetVReg 1 (-3)]) ∧
    DoIntRemainder 1 (-7) 2 = (true, [.SetVReg 1 (-1)]) ∧
    ∃ q r, DoIntDivide 1 (-7) 2 = (true, [.SetVReg 1 q]) ∧
      DoIntRemainder 1 (-7) 2 = (true, [.SetVReg 1 r]) ∧
      (2 * q + r) % 2 ^ 32 = (-7) % 2 ^ 32 ∧ |r| < |(2 : Int)| ∧
      (r = 0 ∨ (0 < r ∧ 0 < (-7 : Int)) ∨ (r < 0 ∧ (-7 : Int) < 0)) ∧
      ((-7 : Int) = kMinInt ∧ (2 : Int) = -1 → r = 0) :=
  ⟨by decide, by decide,
    (DoIntRemainder_consistent_with_DoIntDivide 1 (-7) 2 (by decide) (by decide)
      (by decide)).1⟩

/-- C18: `DoLongDivide` and `DoLongRemainder` return false iff the divisor is zero, and
then they throw and write nothing. For 64-bit `a` and `b` with `b` not zero, the quotient
`q` and the remainder `r` they write are 64-bit values with `a = b * q + r` modulo `2^64`,
`|r| < |b|` and `r` zero or of the sign of `a`; `q` is the truncated quotient unless the
pair is `LONG_MIN / -1`, for which `q = LONG_MIN` and `r = 0`. -/
theorem DoLongDivide_DoLongRemainder_truncating (result_reg : Nat) (a b : Int)
    (ha : isInt64 a) (hb : isInt64 b) (hne : b ≠ 0) :
    (∃ q r, DoLongDivide result_reg a b = (true, [.SetVRegLong result_reg q]) ∧
      DoLongRemainder result_reg a b = (true, [.SetVRegLong result_reg r]) ∧
      isInt64 q ∧ isInt64 r ∧
      (b * q + r) % 2 ^ 64 = a % 2 ^ 64 ∧ |r| < |b| ∧
      (r = 0 ∨ (0 < r ∧ 0 < a) ∨ (r < 0 ∧ a < 0)) ∧
      (a = kMinLong ∧ b = -1 → q = kMinLong ∧ r = 0) ∧
      (¬ (a = kMinLong ∧ b = -1) → q = Int.tdiv a b ∧ r = Int.tmod a b)) ∧
    (∀ divisor : Int,
      ((DoLongDivide result_reg a divisor).1 = false ↔ divisor = 0) ∧
      ((DoLongRemainder result_reg a divisor).1 = false ↔ divisor = 0) ∧
      (divisor = 0 →
        DoLongDivide result_reg a divisor =
          (false, [.ThrowArithmeticExceptionDivideByZero]) ∧
        DoLongRemainder result_reg a divisor =
          (false, [.ThrowArithmeticExceptionDivideByZero]))) := by
  obtain ⟨ha1, ha2⟩ := ha
  obtain ⟨hb1, hb2⟩ := hb
  constructor
  · by_cases h1 : a = kMinLong ∧ b = -1
    · obtain ⟨rfl, rfl⟩ := h1
      exact ⟨kMinLong, 0, by simp [DoLongDivide], by simp [DoLongRemainder], by decide,
        by decide, by decide, by decide, Or.inl rfl, fun _ => ⟨rfl, rfl⟩,
        fun h => absurd ⟨rfl, rfl⟩ h⟩
    · have hq := tdiv_in_range (2 ^ 63) a b (by norm_num) ⟨ha1, ha2⟩ hne
        (by simpa [kMinLong] using h1)
      obtain ⟨hr0, hr1, hr2⟩ := tmod_bounds a b hne
      have hrabs := abs_lt.mp hr0
      have hbabs : |b| ≤ 2 ^ 63 := abs_le.mpr ⟨hb1, by omega⟩
      refine ⟨Int.tdiv a b, Int.tmod a b, by simp [DoLongDivide, hne, h1],
        by simp [DoLongRemainder, hne, h1], hq, ⟨by omega, by omega⟩, ?_, hr0, ?_,
        fun h => absurd h h1, fun _ => ⟨rfl, rfl⟩⟩
      · rw [Int.tdiv_add_tmod]
      · rcases lt_trichotomy a 0 with h | h | h
        · have := hr2 (by omega)
          omega
        · subst h
          left
          simp
        · have := hr1 (by omega)
          omega
  · intro divisor
    by_cases h0 : divisor = 0
    · simp [DoLongDivide, DoLongRemainder, h0]
    · by_cases h1 : a = kMinLong ∧ divisor = -1
      · simp [DoLongDivide, DoLongRemainder, h0, h1]
      · simp [DoLongDivide, DoLongRemainder, h0, h1]

/-- C18, at `-7 / 2` and `-7 % 2` on 64-bit operands. -/
theorem DoLongDivide_DoLongRemainder_truncating_witness :
    DoLongDivide 4 (-7) 2 = (true, [.SetVRegLong 4 (-3)]) ∧
    DoLongRemainder 4 (-7) 2 = (true, [.SetVRegLong 4 (-1)]) ∧
    ((DoLongDivide 4 (-7) 0).1 = false ↔ (0 : Int) = 0) :=
  ⟨by decide, by decide,
    ((DoLongDivide_DoLongRemainder_truncating 4 (-7) 2 (by decide) (by decide)
      (by decide)).2 0).1⟩

/-! ## Theorems: DoPackedSwitch -/

/-- C19 fails as stated: with `first_key = INT_MAX` and two targets, the test value
`INT_MIN` lies below `first_key`, yet the 32-bit difference wraps to `1` and the second
target is returned, not `3`. -/
theorem DoPackedSwitch_difference_wraps :
    DoPackedSwitch true 0x0100 ⟨0x0100, 2, 2147483647, [10, 20]⟩ (-2147483648) = .ok 20 ∧
    ¬ ((2147483647 : Int) ≤ -2147483648 ∧ (-2147483648 : Int) < 2147483647 + 2) ∧
    (20 : Int) ≠ 3 := by
  decide

/-- C19, amended: for a packed table whose keys `first_key .. first_key + size - 1` are all
`int32_t` values (`first_key + size <= 2^31`), with `size > 0` targets (`size` a
`uint16_t`), and for every 32-bit test value `v`, `DoPackedSwitch` returns `targets[v - first_key]` if
`first_key <= v < first_key + size`, and `3` otherwise. -/
theorem DoPackedSwitch_selects_target (kIsDebugBuild : Bool) (kPackedSwitchSignature : Nat)
    (switch_data : PackedSwitchData) (v : Int)
    (hident : switch_data.ident = kPackedSwitchSignature % 2 ^ 16)
    (hsize : switch_data.size > 0) (hsize16 : switch_data.size < 2 ^ 16)
    (htargets : switch_data.targets.length = switch_data.size)
    (hv : isInt32 v) (hkey : isInt32 switch_data.first_key)
    (hkeys : switch_data.first_key + switch_data.size ≤ 2 ^ 31) :
    (switch_data.first_key ≤ v ∧ v < switch_data.first_key + switch_data.size →
      ∃ target, switch_data.targets[(v - switch_data.first_key).toNat]? = some target ∧
        DoPackedSwitch kIsDebugBuild kPackedSwitchSignature switch_data v = .ok target) ∧
    (¬ (switch_data.first_key ≤ v ∧ v < switch_data.first_key + switch_data.size) →
      DoPackedSwitch kIsDebugBuild kPackedSwitchSignature switch_data v = .ok 3) := by
  obtain ⟨hv1, hv2⟩ := hv
  obtain ⟨hk1, hk2⟩ := hkey
  norm_num at hv1 hv2 hk1 hk2 hkeys hsize16
  constructor
  · rintro ⟨h1, h2⟩
    have hw : wrapInt32 (v - switch_data.first_key) = v - switch_data.first_key := by
      simp only [wrapInt32]
      norm_num
      omega
    have hlt : (v - switch_data.first_key).toNat < switch_data.targets.length := by omega
    refine ⟨switch_data.targets[(v - switch_data.first_key).toNat], by simp [hlt], ?_⟩
    have hcond : v - switch_data.first_key ≥ 0 ∧
        v - switch_data.first_key < (switch_data.size : Int) := ⟨by omega, by omega⟩
    have hnn : ¬ v - switch_data.first_key < 0 := by omega
    simp [DoPackedSwitch, hident, hsize, hw, hcond, index?, hnn, hlt]
  · intro hout
    have hcond : ¬ (wrapInt32 (v - switch_data.first_key) ≥ 0 ∧
        wrapInt32 (v - switch_data.first_key) < (switch_data.size : Int)) := by
      simp only [wrapInt32]
      norm_num
      omega
    simp only [DoPackedSwitch, hident, hsize]
    simp [hcond]

/-- C19, amended, at the table with keys `10, 11, 12`: the test value `11` selects the
second target and `13` falls through. -/
theorem DoPackedSwitch_selects_target_witness :
    (∃ target, [100, 200, 300][((11 : Int) - 10).toNat]? = some target ∧
      DoPackedSwitch true 0x0100 ⟨0x0100, 3, 10, [100, 200, 300]⟩ 11 = .ok target) ∧
    DoPackedSwitch true 0x0100 ⟨0x0100, 3, 10, [100, 200, 300]⟩ 11 = .ok 200 ∧
    DoPackedSwitch true 0x0100 ⟨0x0100, 3, 10, [100, 200, 300]⟩ 13 = .ok 3 :=
  ⟨(DoPackedSwitch_selects_target true 0x0100 ⟨0x0100, 3, 10, [100, 200, 300]⟩ 11
      (by decide) (by decide) (by decide) (by decide) (by decide) (by decide)
      (by decide)).1 (by decide),
    by decide,
    (DoPackedSwitch_selects_target true 0x0100 ⟨0x0100, 3, 10, [100, 200, 300]⟩ 13
      (by decide) (by decide) (by decide) (by decide) (by decide) (by decide)
      (by decide)).2 (by decide)⟩

/-! ## Theorems: DoSparseSwitch -/

/-- Strictly ascending keys, position by position. -/
theorem keysAscending_getElem? (switch_data : SparseSwitchData)
    (hasc : switch_data.keysAscending) (i j : Nat) (a b : Int) (hij : i < j)
    (hj : j < switch_data.size) (hi' : switch_data.keys[i]? = some a)
    (hj' : switch_data.keys[j]? = some b) : a < b := by
  have hjl : j < switch_data.keys.length := (List.getElem?_eq_some_iff.mp hj').1
  have hil : i < switch_data.keys.length := (List.getElem?_eq_some_iff.mp hi').1
  have hjt : j < (switch_data.keys.take switch_data.size).length := by
    simp only [List.length_take]; omega
  have hit : i < (switch_data.keys.take switch_data.size).length := by omega
  have h := List.pairwise_iff_getElem.mp hasc i j hit hjt hij
  simp only [List.getElem_take] at h
  have ha : switch_data.keys[i] = a := (List.getElem?_eq_some_iff.mp hi').2
  have hb : switch_data.keys[j] = b := (List.getElem?_eq_some_iff.mp hj').2
  rw [ha, hb] at h
  exact h

/-- The binary search loop: started on a window `[lo, hi]` of the keys that contains every
position holding `test_val`, with fuel for the width of the window, it returns the entry
that goes with `test_val` if a key equals it, and `3` if none does. -/
theorem DoSparseSwitch_loop_spec (switch_data : SparseSwitchData) (test_val : Int)
    (hlen : switch_data.keys.length = 2 * switch_data.size)
    (hasc : ∀ (i j : Nat) (a b : Int), i < j → j < switch_data.size →
      switch_data.keys[i]? = some a → switch_data.keys[j]? = some b → a < b) :
    ∀ (fuel : Nat) (lo hi : Int), 0 ≤ lo → hi < switch_data.size → hi + 1 - lo ≤ fuel →
      (∀ i : Nat, i < switch_data.size → switch_data.keys[i]? = some test_val →
        lo ≤ i ∧ (i : Int) ≤ hi) →
      (∃ i : Nat, i < switch_data.size ∧ switch_data.keys[i]? = some test_val ∧
        ∃ entry, switch_data.keys[switch_data.size + i]? = some entry ∧
          DoSparseSwitch.loop switch_data test_val fuel lo hi = some (.ok entry)) ∨
      ((∀ i : Nat, i < switch_data.size → switch_data.keys[i]? ≠ some test_val) ∧
        DoSparseSwitch.loop switch_data test_val fuel lo hi = some (.ok 3)) := by
  intro fuel
  induction fuel with
  | zero =>
    intro lo hi hlo hhi hfuel hwin
    have hgt : ¬ lo ≤ hi := by omega
    right
    refine ⟨fun i hi' hk => ?_, by simp [DoSparseSwitch.loop, hgt]⟩
    have := hwin i hi' hk
    omega
  | succ fuel ih =>
    intro lo hi hlo hhi hfuel hwin
    by_cases hle : lo ≤ hi
    · have hmid : Int.tdiv (lo + hi) 2 = (lo + hi) / 2 :=
        Int.tdiv_eq_ediv (by omega) (by decide)
      have hm1 : lo ≤ (lo + hi) / 2 := by omega
      have hm2 : (lo + hi) / 2 ≤ hi := by omega
      have hmnat : ((lo + hi) / 2).toNat < switch_data.size := by omega
      have hmlen : ((lo + hi) / 2).toNat < switch_data.keys.length := by omega
      have hkey : index? switch_data.keys ((lo + hi) / 2) =
          some switch_data.keys[((lo + hi) / 2).toNat] := by
        rw [index?_eq_some]
        exact ⟨by omega, by simp [hmlen]⟩
      have hkey' : switch_data.keys[((lo + hi) / 2).toNat]? =
          some switch_data.keys[((lo + hi) / 2).toNat] := by simp [hmlen]
      rw [DoSparseSwitch.loop]
      simp only [hle, if_true, hmid, hkey]
      by_cases hlt : test_val < switch_data.keys[((lo + hi) / 2).toNat]
      · simp only [hlt, if_true]
        apply ih lo ((lo + hi) / 2 - 1) hlo (by omega) (by omega)
        intro i hi' hk
        have hw := hwin i hi' hk
        refine ⟨hw.1, ?_⟩
        by_contra hcon
        rcases Nat.lt_or_ge ((lo + hi) / 2).toNat i with h | h
        · have := hasc _ _ _ _ h hi' hkey' hk
          omega
        · have hieq : i = ((lo + hi) / 2).toNat := by omega
          rw [hieq, hkey'] at hk
          have := Option.some.inj hk
          omega
      · simp only [hlt, if_false]
        by_cases hgt : test_val > switch_data.keys[((lo + hi) / 2).toNat]
        · simp only [hgt, if_true]
          apply ih ((lo + hi) / 2 + 1) hi (by omega) hhi (by omega)
          intro i hi' hk
          have hw := hwin i hi' hk
          refine ⟨?_, hw.2⟩
          by_contra hcon
          rcases Nat.lt_or_ge i ((lo + hi) / 2).toNat with h | h
          · have := hasc _ _ _ _ h hmnat hk hkey'
            omega
          · have hieq : i = ((lo + hi) / 2).toNat := by omega
            rw [hieq, hkey'] at hk
            have := Option.some.inj hk
            omega
        · simp only [hgt, if_false]
          have heq : switch_data.keys[((lo + hi) / 2).toNat] = test_val := by omega
          have helen : switch_data.size + ((lo + hi) / 2).toNat < switch_data.keys.length := by
            omega
          have hentry : index? switch_data.keys ((switch_data.size : Int) + (lo + hi) / 2) =
              some switch_data.keys[switch_data.size + ((lo + hi) / 2).toNat] := by
            rw [index?_eq_some]
            refine ⟨by omega, ?_⟩
            have : ((switch_data.size : Int) + (lo + hi) / 2).toNat =
                switch_data.size + ((lo + hi) / 2).toNat := by omega
            rw [this]
            simp [helen]
          left
          refine ⟨((lo + hi) / 2).toNat, hmnat, by rw [hkey', heq],
            switch_data.keys[switch_data.size + ((lo + hi) / 2).toNat], by simp [helen], ?_⟩
          simp only [hentry]
    · right
      refine ⟨fun i hi' hk => ?_, by rw [DoSparseSwitch.loop]; simp [hle]⟩
      have := hwin i hi' hk
      omega

/-- C20: for a sparse table whose `size` keys are strictly ascending (followed by the
`size` entries) and every test value `v`, `DoSparseSwitch` returns `entries[i]` for the
position `i` with `keys[i] == v` if there is one, and `3` if no key equals `v`. In a debug
build the table passes the assertion `size > 0`. -/
theorem DoSparseSwitch_finds_key (kIsDebugBuild : Bool) (kSparseSwitchSignature : Nat)
    (switch_data : SparseSwitchData) (v : Int)
    (hident : switch_data.ident = kSparseSwitchSignature % 2 ^ 16)
    (hsize : kIsDebugBuild = true → switch_data.size > 0)
    (hlen : switch_data.keys.length = 2 * switch_data.size)
    (hasc : switch_data.keysAscending) :
    (∀ i : Nat, i < switch_data.size → switch_data.keys[i]? = some v →
      ∃ entry, switch_data.keys[switch_data.size + i]? = some entry ∧
        DoSparseSwitch kIsDebugBuild kSparseSwitchSignature switch_data v =
          some (.ok entry)) ∧
    ((∀ i : Nat, i < switch_data.size → switch_data.keys[i]? ≠ some v) →
      DoSparseSwitch kIsDebugBuild kSparseSwitchSignature switch_data v = some (.ok 3)) := by
  have hrun : DoSparseSwitch kIsDebugBuild kSparseSwitchSignature switch_data v =
      DoSparseSwitch.loop switch_data v (switch_data.size + 1) 0
        ((switch_data.size : Int) - 1) := by
    cases hd : kIsDebugBuild
    · simp [DoSparseSwitch]
    · have := hsize hd
      simp [DoSparseSwitch, hident, this]
  have hspec := DoSparseSwitch_loop_spec switch_data v hlen
    (keysAscending_getElem? switch_data hasc) (switch_data.size + 1) 0
    ((switch_data.size : Int) - 1) (le_refl 0) (by omega) (by push_cast; omega)
    (fun i hi' _ => ⟨by omega, by omega⟩)
  rw [hrun]
  constructor
  · intro i hi' hk
    rcases hspec with ⟨i2, hi2, hk2, entry, he, hres⟩ | ⟨hnone, _⟩
    · have hii : i = i2 := by
        rcases Nat.lt_trichotomy i i2 with h | h | h
        · have := keysAscending_getElem? switch_data hasc i i2 v v h hi2 hk hk2
          omega
        · exact h
        · have := keysAscending_getElem? switch_data hasc i2 i v v h hi' hk2 hk
          omega
      subst hii
      exact ⟨entry, he, hres⟩
    · exact absurd hk (hnone i hi')
  · intro hnone
    rcases hspec with ⟨i2, hi2, hk2, _⟩ | ⟨_, hres⟩
    · exact absurd hk2 (hnone i2 hi2)
    · exact hres

/-- C20, at the table with keys `1, 2, 5` and entries `10, 20, 30`: the test value `5`
selects the third entry and `3` matches no key. -/
theorem DoSparseSwitch_finds_key_witness :
    (∃ entry, ([1, 2, 5, 10, 20, 30] : List Int)[3 + 2]? = some entry ∧
      DoSparseSwitch true 0x0200 ⟨0x0200, 3, [1, 2, 5, 10, 20, 30]⟩ 5 = some (.ok entry)) ∧
    DoSparseSwitch true 0x0200 ⟨0x0200, 3, [1, 2, 5, 10, 20, 30]⟩ 5 = some (.ok 30) ∧
    DoSparseSwitch true 0x0200 ⟨0x0200, 3, [1, 2, 5, 10, 20, 30]⟩ 3 = some (.ok 3) :=
  ⟨(DoSparseSwitch_finds_key true 0x0200 ⟨0x0200, 3, [1, 2, 5, 10, 20, 30]⟩ 5
      (by decide) (by decide) (by decide) (by decide)).1 2 (by decide) (by decide),
    by decide,
    (DoSparseSwitch_finds_key true 0x0200 ⟨0x0200, 3, [1, 2, 5, 10, 20, 30]⟩ 3
      (by decide) (by decide) (by decide) (by decide)).2 (by decide)⟩

/-! ## Theorems: conflicting type assertions -/

/-- A category asserted on a record that carries another category conflicts with it. -/
theorem conflictsWith_of_other (loc : RegLocation) (first field : TypeField)
    (hcat : first.isCategory = true) (hfirst : loc.typeField first = true)
    (hcat2 : field.isCategory = true) (hne : field ≠ first) :
    loc.conflictsWith field = true := by
  cases first <;> cases field <;>
    simp_all [RegLocation.typeField, RegLocation.conflictsWith, TypeField.isCategory]

/-- Setting `wide` or `high_word` leaves the three categories of a record as they are. -/
theorem setTypeField_category (loc : RegLocation) (field f : TypeField)
    (hfield : field.isCategory = false) (hcat : f.isCategory = true) :
    (loc.setTypeField field).typeField f = loc.typeField f := by
  cases field <;> cases f <;>
    simp_all [RegLocation.typeField, RegLocation.setTypeField, TypeField.isCategory]

/-- One helper call, on any SSA name, leaves a record that carries exactly one category
with exactly that category. -/
theorem call_keeps_only_category (g g2 : MIRGraph) (c : SetxxCall) (changed : Bool)
    (index : Int) (loc : RegLocation) (first : TypeField)
    (hloc : index? g.reg_location_ index = some loc)
    (hcat : first.isCategory = true) (hfirst : loc.typeField first = true)
    (honly : ∀ f : TypeField, f.isCategory = true → f ≠ first → loc.typeField f = false)
    (h : g.call c = .ok (changed, g2)) :
    ∃ loc2, index? g2.reg_location_ index = some loc2 ∧ loc2.typeField first = true ∧
      ∀ f : TypeField, f.isCategory = true → f ≠ first → loc2.typeField f = false := by
  rw [call_eq_Setxx] at h
  cases hc : index? g.reg_location_ c.index with
  | none => simp [MIRGraph.Setxx, hc] at h
  | some locc =>
    simp only [MIRGraph.Setxx, hc] at h
    by_cases hb : (c.flag.getD true && !locc.typeField c.field &&
        !locc.conflictsWith c.field) = true
    · simp only [hb, if_true] at h
      injection h with h
      injection h with _ hg
      subst hg
      have hin := (index?_eq_some _ _ _).mp hloc
      have hcin := (index?_eq_some _ _ _).mp hc
      have hlt : index.toNat < g.reg_location_.length :=
        (List.getElem?_eq_some_iff.mp hin.2).1
      by_cases hij : c.index.toNat = index.toNat
      · have hsame : locc = loc := by
          have h1 := hcin.2
          rw [hij, hin.2] at h1
          exact (Option.some.inj h1).symm
        subst hsame
        simp only [Bool.and_eq_true, Bool.not_eq_true', Bool.not_eq_eq_eq_not,
          Bool.not_true] at hb
        have hfield : c.field.isCategory = false := by
          cases hcf : c.field.isCategory
          · rfl
          · by_cases hne : c.field = first
            · rw [hne, hfirst] at hb
              simp at hb
            · have := conflictsWith_of_other locc first c.field hcat hfirst hcf hne
              rw [this] at hb
              simp at hb
        refine ⟨locc.setTypeField c.field, ?_, ?_, fun f hf hne => ?_⟩
        · rw [index?_eq_some]
          exact ⟨hin.1, by simp [hij, hlt]⟩
        · rw [setTypeField_category locc c.field first hfield hcat]
          exact hfirst
        · rw [setTypeField_category locc c.field f hfield hf]
          exact honly f hf hne
      · refine ⟨loc, ?_, hfirst, honly⟩
        rw [index?_eq_some]
        refine ⟨hin.1, ?_⟩
        show (g.reg_location_.set c.index.toNat (locc.setTypeField c.field))[index.toNat]? =
          some loc
        rw [List.getElem?_set_ne hij]
        exact hin.2
    · simp only [hb] at h
      injection h with h
      injection h with _ hg
      subst hg
      exact ⟨loc, hloc, hfirst, honly⟩

/-- C11: when the record of an SSA name carries exactly one type category (floating-point,
core or reference) and a helper asserts another category on it, in the one-argument or in
the `(index, flag)` form, the call returns false and leaves the graph as it was, so the
record keeps the first category and does not acquire the conflicting one; and through any
sequence of later `Setxx` calls, on this or on other SSA names, the record still carries
the first category and no other. -/
theorem Setxx_first_assertion_wins (g : MIRGraph) (index : Int) (loc : RegLocation)
    (first : TypeField)
    (hloc : index? g.reg_location_ index = some loc)
    (hcat : first.isCategory = true) (hfirst : loc.typeField first = true)
    (honly : ∀ f : TypeField, f.isCategory = true → f ≠ first → loc.typeField f = false) :
    (∀ (field : TypeField) (flag : Option Bool), field.isCategory = true → field ≠ first →
      g.call ⟨field, index, flag⟩ = .ok (false, g)) ∧
    (∀ (cs : List SetxxCall) (g2 : MIRGraph), g.callAll cs = some g2 →
      ∃ loc2, index? g2.reg_location_ index = some loc2 ∧ loc2.typeField first = true ∧
        ∀ f : TypeField, f.isCategory = true → f ≠ first → loc2.typeField f = false) := by
  constructor
  · intro field flag hcat2 hne
    rw [call_eq_Setxx]
    simp only [MIRGraph.Setxx, hloc,
      conflictsWith_of_other loc first field hcat hfirst hcat2 hne]
    simp
  · intro cs
    induction cs generalizing g loc with
    | nil =>
      intro g2 h
      simp only [MIRGraph.callAll] at h
      exact (Option.some.inj h) ▸ ⟨loc, hloc, hfirst, honly⟩
    | cons c cs ih =>
      intro g2 h
      simp only [MIRGraph.callAll] at h
      cases hc : g.call c with
      | ok r =>
        obtain ⟨b, g1⟩ := r
        rw [hc] at h
        obtain ⟨loc1, hloc1, hfirst1, honly1⟩ :=
          call_keeps_only_category g g1 c b index loc first hloc hcat hfirst honly hc
        exact ih g1 loc1 hloc1 hfirst1 honly1 g2 h
      | dcheckFailed => rw [hc] at h; cases h
      | outOfBounds => rw [hc] at h; cases h

/-- C11, on the record `exampleLoc`, which carries the core category only: `SetFp(0)` and
`SetRef(0, true)` return false and leave the graph as it was, and after `SetFp(0)`,
`SetWide(0)` and `SetRef(0)` the record carries the core category and neither the
floating-point nor the reference one. -/
theorem Setxx_first_assertion_wins_witness :
    ((⟨[exampleLoc], fun _ => false, [], [], 1⟩ : MIRGraph).call ⟨.fp, 0, none⟩ =
        .ok (false, ⟨[exampleLoc], fun _ => false, [], [], 1⟩) ∧
      (⟨[exampleLoc], fun _ => false, [], [], 1⟩ : MIRGraph).call ⟨.ref, 0, some true⟩ =
        .ok (false, ⟨[exampleLoc], fun _ => false, [], [], 1⟩)) ∧
    ∀ g2, (⟨[exampleLoc], fun _ => false, [], [], 1⟩ : MIRGraph).callAll
        [⟨.fp, 0, none⟩, ⟨.wide, 0, none⟩, ⟨.ref, 0, none⟩] = some g2 →
      ∃ loc2, index? g2.reg_location_ 0 = some loc2 ∧ loc2.typeField .core = true ∧
        ∀ f : TypeField, f.isCategory = true → f ≠ .core → loc2.typeField f = false :=
  ⟨⟨(Setxx_first_assertion_wins ⟨[exampleLoc], fun _ => false, [], [], 1⟩ 0 exampleLoc .core
        rfl rfl rfl (fun f => by cases f <;> decide)).1 .fp none rfl (by decide),
      (Setxx_first_assertion_wins ⟨[exampleLoc], fun _ => false, [], [], 1⟩ 0 exampleLoc .core
        rfl rfl rfl (fun f => by cases f <;> decide)).1 .ref (some true) rfl (by decide)⟩,
    (Setxx_first_assertion_wins ⟨[exampleLoc], fun _ => false, [], [], 1⟩ 0 exampleLoc .core
      rfl rfl rfl (fun f => by cases f <;> decide)).2 [⟨.fp, 0, none⟩, ⟨.wide, 0, none⟩, ⟨.ref, 0, none⟩]⟩

/-! ## Theorems: null-check state at block entry -/

/-- A bit is in the intersection of a vector with a list of vectors iff it is in all of
them. -/
theorem mem_foldl_Intersect (rest : List (List Nat)) :
    ∀ (first : List Nat) (s : Nat),
      s ∈ rest.foldl ArenaBitVector.Intersect first ↔ s ∈ first ∧ ∀ v ∈ rest, s ∈ v := by
  induction rest with
  | nil => intro first s; simp
  | cons v rest ih =>
    intro first s
    rw [List.foldl_cons, ih]
    simp only [ArenaBitVector.Intersect, List.mem_filter, decide_eq_true_eq,
      List.mem_cons, forall_eq_or_imp]
    tauto

/-- When every predecessor has a block and a data-flow record, their ending states are
read in the order of the predecessor list. -/
theorem predecessorEndingStates_eq (g : MIRGraph)
    (data_flow_info : Nat → Option BasicBlockDataFlow) :
    ∀ preds : List Nat,
      (∀ p ∈ preds, ∃ blk info, g.GetBasicBlock p = .ok (some blk) ∧
        data_flow_info p = some info) →
      ∃ states, g.predecessorEndingStates data_flow_info preds = some states ∧
        states.length = preds.length ∧
        ∀ s, (∀ v ∈ states, s ∈ v) ↔
          ∀ p ∈ preds, ∃ info, data_flow_info p = some info ∧
            s ∈ info.ending_null_check_v := by
  intro preds
  induction preds with
  | nil => intro _; exact ⟨[], rfl, rfl, by simp⟩
  | cons p rest ih =>
    intro h
    obtain ⟨blk, info, hb, hi⟩ := h p (List.mem_cons_self _ _)
    obtain ⟨states, hs, hl, hmem⟩ := ih (fun q hq => h q (List.mem_cons_of_mem _ hq))
    refine ⟨info.ending_null_check_v :: states, ?_, by simp [hl], fun s => ?_⟩
    · simp [MIRGraph.predecessorEndingStates, hb, hi, hs]
    · simp only [List.mem_cons, forall_eq_or_imp, hmem s, hi, Option.some.injEq,
        exists_eq_left']

/-- C12: a block with zero predecessors other than the entry sentinel (no predecessor at
all, or the sentinel only) has the empty set as its null-check state at entry, whatever the
data-flow records hold. When every predecessor of a block has a data-flow record, the state
at the entry of the block is computed; if the block has a predecessor other than the
sentinel, an SSA name is in the state iff it is in the `ending_null_check_v` of every
predecessor of the block, the sentinel included when it is one of them, so the state is
contained in the vector of each predecessor and contains every set of names that all of
these vectors contain. The two rules agree where the sentinel ends with the empty vector:
then the state of every block with a predecessor is the intersection over all its
predecessors. -/
theorem nullCheckEntryState_is_intersection (g : MIRGraph) (entry_block_ : Nat)
    (data_flow_info : Nat → Option BasicBlockDataFlow) (bb : BasicBlock) :
    ((∀ p ∈ bb.predecessors, p = entry_block_) →
      g.nullCheckEntryState entry_block_ data_flow_info bb = some []) ∧
    ((∀ p ∈ bb.predecessors, ∃ blk info, g.GetBasicBlock p = .ok (some blk) ∧
        data_flow_info p = some info) →
      ∃ state, g.nullCheckEntryState entry_block_ data_flow_info bb = some state ∧
        ((∃ p ∈ bb.predecessors, p ≠ entry_block_) →
          (∀ s, s ∈ state ↔
            ∀ p ∈ bb.predecessors, ∃ info, data_flow_info p = some info ∧
              s ∈ info.ending_null_check_v) ∧
          (∀ p ∈ bb.predecessors, ∀ info, data_flow_info p = some info →
            ∀ s ∈ state, s ∈ info.ending_null_check_v) ∧
          (∀ common : List Nat,
            (∀ p ∈ bb.predecessors, ∀ info, data_flow_info p = some info →
              ∀ s ∈ common, s ∈ info.ending_null_check_v) →
            ∀ s ∈ common, s ∈ state)) ∧
        (bb.predecessors ≠ [] →
          (∀ info, data_flow_info entry_block_ = some info →
            info.ending_null_check_v = []) →
          ∀ s, s ∈ state ↔
            ∀ p ∈ bb.predecessors, ∃ info, data_flow_info p = some info ∧
              s ∈ info.ending_null_check_v)) := by
  have hfilter : bb.predecessors.filter (fun pred => decide (pred ≠ entry_block_)) = [] ↔
      ∀ p ∈ bb.predecessors, p = entry_block_ := by
    simp [List.filter_eq_nil_iff]
  constructor
  · intro hall
    rw [MIRGraph.nullCheckEntryState, if_pos (hfilter.mpr hall)]
  · intro hpreds
    obtain ⟨states, hs, hl, hmem⟩ :=
      predecessorEndingStates_eq g data_flow_info bb.predecessors hpreds
    by_cases hall : ∀ p ∈ bb.predecessors, p = entry_block_
    · refine ⟨[], by rw [MIRGraph.nullCheckEntryState, if_pos (hfilter.mpr hall)], ?_, ?_⟩
      · rintro ⟨p, hp, hne⟩
        exact absurd (hall p hp) hne
      · intro hne hempty s
        obtain ⟨p, hp⟩ := List.exists_mem_of_ne_nil _ hne
        have hpe := hall p hp
        simp only [List.not_mem_nil, false_iff, not_forall]
        refine ⟨p, hp, ?_⟩
        rintro ⟨info, hinfo, hsin⟩
        rw [hpe] at hinfo
        rw [hempty info hinfo] at hsin
        exact absurd hsin (List.not_mem_nil s)
    · have hnf : ¬ bb.predecessors.filter (fun pred => decide (pred ≠ entry_block_)) = [] :=
        fun h => hall (hfilter.mp h)
      cases hst : states with
      | nil =>
        have hnil : bb.predecessors = [] := by
          rw [hst] at hl
          exact List.length_eq_zero.mp hl.symm
        exact absurd (by simp [hnil]) hall
      | cons first rest =>
        have hchar : ∀ s, s ∈ rest.foldl ArenaBitVector.Intersect first ↔
            ∀ p ∈ bb.predecessors, ∃ info, data_flow_info p = some info ∧
              s ∈ info.ending_null_check_v := by
          intro s
          rw [mem_foldl_Intersect, ← hmem s, hst]
          simp
        refine ⟨rest.foldl ArenaBitVector.Intersect first,
          by rw [MIRGraph.nullCheckEntryState, if_neg hnf, hs, hst], fun _ => ⟨hchar, ?_, ?_⟩,
          fun _ _ => hchar⟩
        · intro p hp info hinfo s hsin
          obtain ⟨info2, hinfo2, hs2⟩ := (hchar s).mp hsin p hp
          rw [hinfo] at hinfo2
          exact (Option.some.inj hinfo2) ▸ hs2
        · intro common hcommon s hsc
          refine (hchar s).mpr (fun p hp => ?_)
          obtain ⟨_, info, _, hinfo⟩ := hpreds p hp
          exact ⟨info, hinfo, hcommon p hp info hinfo s hsc⟩

/-- C12, in a graph whose entry sentinel is block 0: block 1, whose only predecessor is the
sentinel, starts from the empty set; block 3, whose predecessors 1 and 2 end with the names
`[3, 4, 7]` and `[4, 7, 9]` known non-null, starts from `[4, 7]`, and name 3, known on one
arm only, is not in its state. -/
theorem nullCheckEntryState_is_intersection_witness :
    (⟨[], fun _ => false, [], [exampleBlock 0 0, exampleBlock 1 0, exampleBlock 2 8], 0⟩ :
      MIRGraph).nullCheckEntryState 0
        (fun b => if b = 1 then some ⟨[], [], [], [], [], [3, 4, 7]⟩
          else if b = 2 then some ⟨[], [], [], [], [], [4, 7, 9]⟩ else none)
        { exampleBlock 1 0 with predecessors := [0] } = some [] ∧
    (⟨[], fun _ => false, [], [exampleBlock 0 0, exampleBlock 1 0, exampleBlock 2 8], 0⟩ :
      MIRGraph).nullCheckEntryState 0
        (fun b => if b = 1 then some ⟨[], [], [], [], [], [3, 4, 7]⟩
          else if b = 2 then some ⟨[], [], [], [], [], [4, 7, 9]⟩ else none)
        { exampleBlock 3 12 with predecessors := [1, 2] } = some [4, 7] ∧
    ∃ state, (⟨[], fun _ => false, [], [exampleBlock 0 0, exampleBlock 1 0, exampleBlock 2 8],
      0⟩ : MIRGraph).nullCheckEntryState 0
        (fun b => if b = 1 then some ⟨[], [], [], [], [], [3, 4, 7]⟩
          else if b = 2 then some ⟨[], [], [], [], [], [4, 7, 9]⟩ else none)
        { exampleBlock 3 12 with predecessors := [1, 2] } = some state ∧
      ∀ s, s ∈ state ↔
        ∀ p ∈ ({ exampleBlock 3 12 with predecessors := [1, 2] } : BasicBlock).predecessors,
          ∃ info, (fun b => if b = 1 then some (⟨[], [], [], [], [], [3, 4, 7]⟩ :
              BasicBlockDataFlow)
            else if b = 2 then some ⟨[], [], [], [], [], [4, 7, 9]⟩ else none) p = some info ∧
            s ∈ info.ending_null_check_v :=
  ⟨(nullCheckEntryState_is_intersection
      ⟨[], fun _ => false, [], [exampleBlock 0 0, exampleBlock 1 0, exampleBlock 2 8], 0⟩ 0
      (fun b => if b = 1 then some ⟨[], [], [], [], [], [3, 4, 7]⟩
        else if b = 2 then some ⟨[], [], [], [], [], [4, 7, 9]⟩ else none)
      { exampleBlock 1 0 with predecessors := [0] }).1
      (by
        intro p hp
        simpa [exampleBlock] using hp),
    by decide,
    by
      obtain ⟨state, hstate, hchar, _⟩ :=
        (nullCheckEntryState_is_intersection
          ⟨[], fun _ => false, [], [exampleBlock 0 0, exampleBlock 1 0, exampleBlock 2 8], 0⟩ 0
          (fun b => if b = 1 then some ⟨[], [], [], [], [], [3, 4, 7]⟩
            else if b = 2 then some ⟨[], [], [], [], [], [4, 7, 9]⟩ else none)
          { exampleBlock 3 12 with predecessors := [1, 2] }).2
          (by
            intro p hp
            simp only [exampleBlock, List.mem_cons, List.mem_singleton, List.not_mem_nil,
              or_false] at hp
            rcases hp with rfl | rfl
            · exact ⟨exampleBlock 1 0, _, by decide, rfl⟩
            · exact ⟨exampleBlock 2 8, _, by decide, rfl⟩)
      exact ⟨state, hstate, (hchar ⟨1, by simp [exampleBlock], by decide⟩).1⟩⟩

/-! ## Theorems: successors of a switch -/

/-- C14: for a switch with `n` cases, the block gets `n` `SuccessorBlockInfo` entries whose
keys are the case values, in order, and one default edge (the fall-through); these `n + 1`
edges are all its successor edges. -/
theorem ProcessCanSwitch_edges (FindBlock : Int → Nat) (cur_block : BasicBlock)
    (cur_offset width : Int) (cases : List (Int × Int))
    (htaken : cur_block.taken = NullBasicBlockId)
    (hfound : ∀ offset, FindBlock offset ≠ NullBasicBlockId) :
    (MIRGraph.ProcessCanSwitch FindBlock cur_block cur_offset width
      cases).successor_blocks.length = cases.length ∧
    (MIRGraph.ProcessCanSwitch FindBlock cur_block cur_offset width
      cases).successor_blocks.map (fun info => info.key) = cases.map (fun c => c.1) ∧
    (MIRGraph.ProcessCanSwitch FindBlock cur_block cur_offset width cases).successorEdges =
      (EdgeTag.fall_through, FindBlock (cur_offset + width)) ::
        cases.map (fun c => (EdgeTag.key c.1, FindBlock (cur_offset + c.2))) ∧
    (MIRGraph.ProcessCanSwitch FindBlock cur_block cur_offset width
      cases).successorEdges.length = cases.length + 1 := by
  have hedges : (MIRGraph.ProcessCanSwitch FindBlock cur_block cur_offset width
      cases).successorEdges =
      (EdgeTag.fall_through, FindBlock (cur_offset + width)) ::
        cases.map (fun c => (EdgeTag.key c.1, FindBlock (cur_offset + c.2))) := by
    simp [BasicBlock.successorEdges, MIRGraph.ProcessCanSwitch, htaken, hfound,
      Function.comp_def]
  refine ⟨by simp [MIRGraph.ProcessCanSwitch], ?_, hedges, by simp [hedges]⟩
  simp [MIRGraph.ProcessCanSwitch, Function.comp_def]

/-- C14, at a switch at offset 16 (width 3) with cases `1, 2, 5` branching to the blocks
at offsets 20, 30 and 40: four successor edges, tagged `1`, `2`, `5` and default. -/
theorem ProcessCanSwitch_edges_witness :
    (MIRGraph.ProcessCanSwitch (fun offset => offset.toNat + 1) (exampleBlock 3 16) 16 3
      [(1, 4), (2, 14), (5, 24)]).successorEdges =
      [(.fall_through, 20), (.key 1, 21), (.key 2, 31), (.key 5, 41)] ∧
    (MIRGraph.ProcessCanSwitch (fun offset => offset.toNat + 1) (exampleBlock 3 16) 16 3
      [(1, 4), (2, 14), (5, 24)]).successorEdges.length =
      [((1 : Int), (4 : Int)), (2, 14), (5, 24)].length + 1 :=
  ⟨by decide,
    (ProcessCanSwitch_edges (fun offset => offset.toNat + 1) (exampleBlock 3 16) 16 3
      [(1, 4), (2, 14), (5, 24)] rfl (fun offset => by simp [NullBasicBlockId])).2.2.2⟩

/-! ## Theorems: paths and dominance -/

/-- A block reached while avoiding `d` is not `d`. -/
theorem ReachableAvoiding.ne {g : MIRGraph} {entry d x : Nat}
    (h : g.ReachableAvoiding entry d x) : x ≠ d := by
  cases h with
  | entry h => exact h
  | step _ _ h => exact h

/-- A block reached while avoiding `d` is reachable. -/
theorem ReachableAvoiding.reachable {g : MIRGraph} {entry d x : Nat}
    (h : g.ReachableAvoiding entry d x) : g.Reachable entry x := by
  induction h with
  | entry _ => exact .entry
  | step _ hp _ ih => exact .step ih hp

/-- Every block on all paths to a reachable block is reachable itself. -/
theorem Reachable.dominator_reachable {g : MIRGraph} {entry d x : Nat}
    (h : g.Reachable entry x) : g.Reachable entry d ∨ g.ReachableAvoiding entry d x := by
  induction h with
  | entry =>
    by_cases he : entry = d
    · exact Or.inl (he ▸ .entry)
    · exact Or.inr (.entry he)
  | @step p b hp hpb ih =>
    rcases ih with h | h
    · exact Or.inl h
    · by_cases hb : b = d
      · exact Or.inl (hb ▸ .step hp hpb)
      · exact Or.inr (.step h hpb hb)

/-- Two blocks that can each be reached avoiding the other cannot both dominate a
reachable block: every reachable block is reached avoiding one of them. -/
theorem Reachable.avoids_one {g : MIRGraph} {entry d1 d2 x : Nat}
    (h12 : g.ReachableAvoiding entry d1 d2) (h21 : g.ReachableAvoiding entry d2 d1)
    (h : g.Reachable entry x) :
    g.ReachableAvoiding entry d1 x ∨ g.ReachableAvoiding entry d2 x := by
  induction h with
  | entry =>
    by_cases he : entry = d1
    · right
      exact he ▸ h21
    · exact Or.inl (.entry he)
  | @step p b _ hpb ih =>
    by_cases hb1 : b = d1
    · right
      exact hb1 ▸ h21
    · by_cases hb2 : b = d2
      · left
        exact hb2 ▸ h12
      · rcases ih with h | h
        · exact Or.inl (.step h hpb hb1)
        · exact Or.inr (.step h hpb hb2)

/-- Dominance is transitive: a path that avoids `d1` and reaches `x` either reaches `d2`
avoiding `d1` or avoids `d2` as well. -/
theorem ReachableAvoiding.trans {g : MIRGraph} {entry d1 : Nat} (d2 : Nat) {x : Nat}
    (h : g.ReachableAvoiding entry d1 x) :
    g.ReachableAvoiding entry d1 d2 ∨ g.ReachableAvoiding entry d2 x := by
  induction h with
  | entry he =>
    by_cases h2 : entry = d2
    · left
      exact h2 ▸ .entry he
    · exact Or.inr (.entry h2)
  | @step p b hp hpb hb ih =>
    rcases ih with h | h
    · exact Or.inl h
    · by_cases hb2 : b = d2
      · left
        exact hb2 ▸ .step hp hpb hb
      · exact Or.inr (.step h hpb hb2)

/-- Dominance is antisymmetric on reachable blocks: of two different blocks, one is reached
avoiding the other. -/
theorem Reachable.avoids_other {g : MIRGraph} {entry : Nat} (d1 d2 : Nat) {x : Nat}
    (hne : d1 ≠ d2) (h : g.Reachable entry x) :
    (g.ReachableAvoiding entry d1 x ∧ g.ReachableAvoiding entry d2 x) ∨
      g.ReachableAvoiding entry d1 d2 ∨ g.ReachableAvoiding entry d2 d1 := by
  induction h with
  | entry =>
    by_cases h1 : entry = d1
    · right; right
      exact h1 ▸ .entry (fun h => hne (h1.symm.trans h))
    · by_cases h2 : entry = d2
      · right; left
        exact h2 ▸ .entry h1
      · exact Or.inl ⟨.entry h1, .entry h2⟩
  | @step p b _ hpb ih =>
    rcases ih with ⟨ha, hb⟩ | h | h
    · by_cases h1 : b = d1
      · right; right
        exact h1 ▸ .step hb hpb (fun h => hne (h1.symm.trans h))
      · by_cases h2 : b = d2
        · right; left
          exact h2 ▸ .step ha hpb h1
        · exact Or.inl ⟨.step ha hpb h1, .step hb hpb h2⟩
    · exact Or.inr (Or.inl h)
    · exact Or.inr (Or.inr h)

/-! ## Theorems: the iteration of the dominator sets -/

/-- The members of a recomputed dominator set. -/
theorem mem_ComputeBlockDominators (g : MIRGraph) (doms : Nat → List Nat) (b d : Nat) :
    d ∈ g.ComputeBlockDominators doms b ↔
      d < g.GetBasicBlockListCount ∧ (d = b ∨ ∀ p ∈ g.predecessorsOf b, d ∈ doms p) := by
  simp [MIRGraph.ComputeBlockDominators]

/-- Recomputing a set from smaller sets gives a smaller set. -/
theorem ComputeBlockDominators_mono (g : MIRGraph) (doms doms2 : Nat → List Nat)
    (h : ∀ b d, d ∈ doms b → d ∈ doms2 b) (b d : Nat)
    (hd : d ∈ g.ComputeBlockDominators doms b) : d ∈ g.ComputeBlockDominators doms2 b := by
  rw [mem_ComputeBlockDominators] at hd ⊢
  refine ⟨hd.1, ?_⟩
  rcases hd.2 with h1 | h1
  · exact Or.inl h1
  · exact Or.inr (fun p hp => h p d (h1 p hp))

/-- The initial dominator sets satisfy the invariant. -/
theorem DomInv_init (g : MIRGraph) (entry : Nat) :
    g.DomInv entry (g.InitializeDominationInfo entry) := by
  refine ⟨by simp [MIRGraph.InitializeDominationInfo], ?_, ?_, ?_⟩
  · intro b hb d hd
    rw [mem_ComputeBlockDominators] at hd
    simp [MIRGraph.InitializeDominationInfo, hb, hd.1]
  · intro b d hd hav
    by_cases hb : b = entry
    · subst hb
      have : d = b := by
        by_contra hne
        exact hav (.entry (fun h => hne h.symm))
      simp [MIRGraph.InitializeDominationInfo, this]
    · simp [MIRGraph.InitializeDominationInfo, hb, hd]
  · intro b hb
    simp only [MIRGraph.InitializeDominationInfo, hb, if_false]
    symm
    rw [List.filter_eq_self]
    intro d hd
    simpa using hd

/-- Recomputing the set of one block other than the entry keeps the invariant and removes
blocks only. -/
theorem DomInv_update (g : MIRGraph) (entry : Nat) (doms : Nat → List Nat) (b : Nat)
    (hb : b ≠ entry) (hinv : g.DomInv entry doms) :
    g.DomInv entry (Function.update doms b (g.ComputeBlockDominators doms b)) ∧
    ∀ c d, d ∈ Function.update doms b (g.ComputeBlockDominators doms b) c → d ∈ doms c := by
  obtain ⟨h1, h2, h3, h4⟩ := hinv
  have hle : ∀ c d, d ∈ Function.update doms b (g.ComputeBlockDominators doms b) c →
      d ∈ doms c := by
    intro c d hd
    by_cases hc : c = b
    · subst hc
      rw [Function.update_same] at hd
      exact h2 c hb d hd
    · rwa [Function.update_noteq hc] at hd
  refine ⟨⟨?_, ?_, ?_, ?_⟩, hle⟩
  · rw [Function.update_noteq (Ne.symm hb)]
    exact h1
  · intro c hc d hd
    have hd2 := ComputeBlockDominators_mono g _ doms hle c d hd
    by_cases hcb : c = b
    · subst hcb
      rw [Function.update_same]
      exact hd2
    · rw [Function.update_noteq hcb]
      exact h2 c hc d hd2
  · intro c d hd hav
    by_cases hcb : c = b
    · subst hcb
      rw [Function.update_same, mem_ComputeBlockDominators]
      refine ⟨hd, ?_⟩
      by_cases hdc : d = c
      · exact Or.inl hdc
      · right
        intro p hp
        apply h3 p d hd
        intro hap
        exact hav (.step hap hp (fun h => hdc h.symm))
    · rw [Function.update_noteq hcb]
      exact h3 c d hd hav
  · intro c hc
    by_cases hcb : c = b
    · subst hcb
      rw [Function.update_same]
      symm
      conv_rhs => rw [MIRGraph.ComputeBlockDominators]
      apply List.filter_congr
      intro d hd
      simp only [MIRGraph.ComputeBlockDominators, List.mem_filter, hd, true_and,
        Bool.decide_eq_true]
    · rw [Function.update_noteq hcb]
      exact h4 c hc

/-- Two lists that list their members in ascending order and have the same members are
equal. -/
theorem eq_of_mem_iff_of_filter_range (n : Nat) (l1 l2 : List Nat)
    (h1 : l1 = (List.range n).filter (fun d => decide (d ∈ l1)))
    (h2 : l2 = (List.range n).filter (fun d => decide (d ∈ l2)))
    (h : ∀ d, d ∈ l1 ↔ d ∈ l2) : l1 = l2 :=
  calc l1 = (List.range n).filter (fun d => decide (d ∈ l1)) := h1
    _ = (List.range n).filter (fun d => decide (d ∈ l2)) :=
      List.filter_congr (fun d _ => by simp [h d])
    _ = l2 := h2.symm

/-- A recomputed dominator set lists its members in ascending order. -/
theorem ComputeBlockDominators_filter_range (g : MIRGraph) (doms : Nat → List Nat) (b : Nat) :
    g.ComputeBlockDominators doms b = (List.range g.GetBasicBlockListCount).filter
      (fun d => decide (d ∈ g.ComputeBlockDominators doms b)) := by
  conv_lhs => rw [MIRGraph.ComputeBlockDominators]
  apply List.filter_congr
  intro d hd
  simp only [MIRGraph.ComputeBlockDominators, List.mem_filter, hd, true_and,
    Bool.decide_eq_true]

/-- One pass keeps the invariant and removes blocks only; if it reports no change, the sets
are as before and recomputing any block of the pass changes nothing; if it reports a
change, the set of some block of the pass has lost a block. -/
theorem dominatorPass_spec (g : MIRGraph) (entry : Nat) :
    ∀ (order : List Nat) (doms : Nat → List Nat), g.DomInv entry doms →
      g.DomInv entry (g.dominatorPass entry order doms).2 ∧
      (∀ c d, d ∈ (g.dominatorPass entry order doms).2 c → d ∈ doms c) ∧
      ((g.dominatorPass entry order doms).1 = false →
        (g.dominatorPass entry order doms).2 = doms ∧ g.DomFixed entry order doms) ∧
      ((g.dominatorPass entry order doms).1 = true →
        ∃ b ∈ order, ((g.dominatorPass entry order doms).2 b).toFinset ⊂
          (doms b).toFinset) := by
  intro order
  induction order with
  | nil =>
    intro doms hinv
    refine ⟨hinv, fun _ _ h => h, fun _ => ⟨rfl, ?_⟩, fun h => ?_⟩
    · intro b hb
      cases hb
    · simp [MIRGraph.dominatorPass] at h
  | cons b rest ih =>
    intro doms hinv
    by_cases hb : b = entry
    · have hrun : g.dominatorPass entry (b :: rest) doms = g.dominatorPass entry rest doms := by
        simp [MIRGraph.dominatorPass, hb]
      rw [hrun]
      obtain ⟨i1, i2, i3, i4⟩ := ih doms hinv
      refine ⟨i1, i2, fun h => ⟨(i3 h).1, ?_⟩, fun h => ?_⟩
      · intro c hc hce
        rcases List.mem_cons.mp hc with rfl | hc'
        · exact absurd hb hce
        · exact (i3 h).2 c hc' hce
      · obtain ⟨c, hc, hlt⟩ := i4 h
        exact ⟨c, List.mem_cons_of_mem _ hc, hlt⟩
    · obtain ⟨hinv1, hle1⟩ := DomInv_update g entry doms b hb hinv
      obtain ⟨i1, i2, i3, i4⟩ :=
        ih (Function.update doms b (g.ComputeBlockDominators doms b)) hinv1
      have hrun : g.dominatorPass entry (b :: rest) doms =
          ((g.dominatorPass entry rest
              (Function.update doms b (g.ComputeBlockDominators doms b))).1 ||
            decide (g.ComputeBlockDominators doms b ≠ doms b),
           (g.dominatorPass entry rest
              (Function.update doms b (g.ComputeBlockDominators doms b))).2) := by
        simp [MIRGraph.dominatorPass, hb]
      rw [hrun]
      refine ⟨i1, fun c d hd => hle1 c d (i2 c d hd), fun h => ?_, fun h => ?_⟩
      · simp only [Bool.or_eq_false_iff, decide_eq_false_iff_not, not_not] at h
        obtain ⟨hr, hsame⟩ := h
        have hupd : Function.update doms b (g.ComputeBlockDominators doms b) = doms := by
          rw [hsame]
          exact Function.update_eq_self b doms
        obtain ⟨j1, j2⟩ := i3 hr
        rw [hupd] at j1 j2
        refine ⟨by simpa [hupd] using j1, ?_⟩
        intro c hc hce
        rcases List.mem_cons.mp hc with rfl | hc'
        · exact hsame
        · exact j2 c hc' hce
      · simp only [Bool.or_eq_true, decide_eq_true_eq] at h
        rcases h with hr | hchg
        · obtain ⟨c, hc, hlt⟩ := i4 hr
          refine ⟨c, List.mem_cons_of_mem _ hc, ?_⟩
          apply Finset.ssubset_of_ssubset_of_subset hlt
          intro d hd
          rw [List.mem_toFinset] at hd ⊢
          exact hle1 c d hd
        · refine ⟨b, List.mem_cons_self _ _, ?_⟩
          have hsub : ((g.dominatorPass entry rest
              (Function.update doms b (g.ComputeBlockDominators doms b))).2 b).toFinset ⊆
              (g.ComputeBlockDominators doms b).toFinset := by
            intro d hd
            rw [List.mem_toFinset] at hd ⊢
            have := i2 b d hd
            rwa [Function.update_same] at this
          apply Finset.ssubset_of_subset_of_ssubset hsub
          rw [Finset.ssubset_iff_subset_ne]
          constructor
          · intro d hd
            rw [List.mem_toFinset] at hd ⊢
            exact hinv.2.1 b hb d hd
          · intro heq
            apply hchg
            apply eq_of_mem_iff_of_filter_range g.GetBasicBlockListCount _ _
              (ComputeBlockDominators_filter_range g doms b) (hinv.2.2.2 b hb)
            intro d
            have := congrArg (fun (t : Finset Nat) => d ∈ t) heq
            simpa using this

/-- A pass that reports a change makes the measure smaller. -/
theorem dominatorPass_measure (g : MIRGraph) (entry : Nat) (order : List Nat)
    (doms : Nat → List Nat) (hinv : g.DomInv entry doms)
    (hchg : (g.dominatorPass entry order doms).1 = true) :
    MIRGraph.domMeasure order (g.dominatorPass entry order doms).2 <
      MIRGraph.domMeasure order doms := by
  obtain ⟨_, hle, _, hstrict⟩ := dominatorPass_spec g entry order doms hinv
  obtain ⟨b, hb, hlt⟩ := hstrict hchg
  apply Finset.sum_lt_sum
  · intro c _
    apply Finset.card_le_card
    intro d hd
    rw [List.mem_toFinset] at hd ⊢
    exact hle c d hd
  · exact ⟨b, List.mem_toFinset.mpr hb, Finset.card_lt_card hlt⟩

/-- With fuel above the measure, the iteration ends, and it ends in sets that satisfy the
invariant and the exit condition. -/
theorem iterateDominators_spec (g : MIRGraph) (entry : Nat) (order : List Nat) :
    ∀ (fuel : Nat) (doms : Nat → List Nat), g.DomInv entry doms →
      MIRGraph.domMeasure order doms < fuel →
      ∃ doms2, g.iterateDominators entry order fuel doms = some doms2 ∧
        g.DomInv entry doms2 ∧ g.DomFixed entry order doms2 := by
  intro fuel
  induction fuel with
  | zero => intro doms _ h; omega
  | succ fuel ih =>
    intro doms hinv hm
    obtain ⟨i1, _, i3, _⟩ := dominatorPass_spec g entry order doms hinv
    have hdec := dominatorPass_measure g entry order doms hinv
    rcases hpass : g.dominatorPass entry order doms with ⟨flag, doms2⟩
    rw [hpass] at i1 i3 hdec
    cases flag with
    | false =>
      obtain ⟨heq, hfix⟩ := i3 rfl
      simp only at heq
      refine ⟨doms2, by simp [MIRGraph.iterateDominators, hpass], i1, ?_⟩
      rw [heq]
      exact hfix
    | true =>
      have := hdec rfl
      simp only at this i1
      obtain ⟨doms3, h3, hinv3, hfix3⟩ := ih doms2 i1 (by omega)
      exact ⟨doms3, by simp [MIRGraph.iterateDominators, hpass, h3], hinv3, hfix3⟩

/-- The measure of the initial sets. -/
theorem domMeasure_init (g : MIRGraph) (entry : Nat) (order : List Nat)
    (hentry : entry < g.GetBasicBlockListCount) :
    MIRGraph.domMeasure order (g.InitializeDominationInfo entry) ≤
      order.length * g.GetBasicBlockListCount := by
  have hcard : ∀ b ∈ order.toFinset, ((g.InitializeDominationInfo entry) b).toFinset.card ≤
      g.GetBasicBlockListCount := by
    intro b _
    refine le_trans (List.toFinset_card_le _) ?_
    by_cases hb : b = entry
    · simp only [MIRGraph.InitializeDominationInfo, hb, if_true, List.length_singleton]
      omega
    · simp [MIRGraph.InitializeDominationInfo, hb]
  calc MIRGraph.domMeasure order (g.InitializeDominationInfo entry)
      ≤ order.toFinset.card • g.GetBasicBlockListCount := Finset.sum_le_card_nsmul _ _ _ hcard
    _ ≤ order.length * g.GetBasicBlockListCount := by
        rw [smul_eq_mul]
        exact Nat.mul_le_mul_right _ (List.toFinset_card_le _)

/-! ## Theorems: the dominator sets at the fixed point -/

/-- No path from the entry avoids the entry. -/
theorem not_ReachableAvoiding_entry (g : MIRGraph) (entry x : Nat) :
    ¬ g.ReachableAvoiding entry entry x := by
  have key : ∀ d y, g.ReachableAvoiding entry d y → entry ≠ d := by
    intro d y h
    induction h with
    | entry he => exact he
    | step _ _ _ ih => exact ih
  exact fun h => key entry x h rfl

/-- At the fixed point, a block that some path to `x` avoids is not in the dominator set
of `x`. -/
theorem not_mem_doms_of_avoiding (g : MIRGraph) (entry : Nat) (order : List Nat)
    (doms : Nat → List Nat) (hinv : g.DomInv entry doms) (hfix : g.DomFixed entry order doms)
    (horder : ∀ b, g.Reachable entry b → b ≠ entry → b ∈ order) (d x : Nat)
    (h : g.ReachableAvoiding entry d x) : d ∉ doms x := by
  induction h with
  | entry he =>
    rw [hinv.1]
    simpa using fun h => he h.symm
  | @step p b hp hpb hbd ih =>
    by_cases hbe : b = entry
    · rw [hbe, hinv.1]
      simpa using fun h => hbd (hbe.trans h.symm)
    · intro hd
      have hreach : g.Reachable entry b := .step (ReachableAvoiding.reachable hp) hpb
      rw [← hfix b (horder b hreach hbe) hbe, mem_ComputeBlockDominators] at hd
      rcases hd.2 with h1 | h1
      · exact hbd h1.symm
      · exact ih (h1 p hpb)

/-- The members of the dominator sets are ids of blocks. -/
theorem mem_doms_lt (g : MIRGraph) (entry : Nat) (doms : Nat → List Nat)
    (hentry : entry < g.GetBasicBlockListCount) (hinv : g.DomInv entry doms) (b d : Nat)
    (hd : d ∈ doms b) : d < g.GetBasicBlockListCount := by
  by_cases hb : b = entry
  · rw [hb, hinv.1] at hd
    simp only [List.mem_singleton] at hd
    omega
  · rw [hinv.2.2.2 b hb, List.mem_filter, List.mem_range] at hd
    exact hd.1

/-- At the fixed point the dominator set of a reachable block holds exactly the blocks
that lie on every path from the entry to it. -/
theorem mem_doms_iff_dominates (g : MIRGraph) (entry : Nat) (order : List Nat)
    (doms : Nat → List Nat) (hentry : entry < g.GetBasicBlockListCount)
    (hinv : g.DomInv entry doms) (hfix : g.DomFixed entry order doms)
    (horder : ∀ b, g.Reachable entry b → b ≠ entry → b ∈ order) (d x : Nat) :
    d ∈ doms x ↔ d < g.GetBasicBlockListCount ∧ ¬ g.ReachableAvoiding entry d x :=
  ⟨fun h => ⟨mem_doms_lt g entry doms hentry hinv x d h,
      fun hav => not_mem_doms_of_avoiding g entry order doms hinv hfix horder d x hav h⟩,
    fun h => hinv.2.2.1 x d h.1 h.2⟩

/-- At the fixed point every reachable block other than the entry has an immediate
dominator: a strict dominator `I` of it that every other dominator of the block
dominates. -/
theorem immediateDominator_spec (g : MIRGraph) (entry : Nat) (order : List Nat)
    (doms : Nat → List Nat) (hentry : entry < g.GetBasicBlockListCount)
    (hinv : g.DomInv entry doms) (hfix : g.DomFixed entry order doms)
    (horder : ∀ b, g.Reachable entry b → b ≠ entry → b ∈ order) (B : Nat)
    (hB : g.Reachable entry B) (hBe : B ≠ entry) :
    ∃ I, MIRGraph.immediateDominator doms B = some I ∧ I ∈ doms B ∧ I ≠ B ∧
      ∀ D ∈ doms B, D ≠ B → D ∈ doms I := by
  have hiff := mem_doms_iff_dominates g entry order doms hentry hinv hfix horder
  have hreach : ∀ d, d ∈ doms B → g.Reachable entry d := by
    intro d hd
    rcases Reachable.dominator_reachable (d := d) hB with h | h
    · exact h
    · exact absurd h ((hiff d B).mp hd).2
  have hrefl : ∀ d, d < g.GetBasicBlockListCount → d ∈ doms d :=
    fun d hd => (hiff d d).mpr ⟨hd, fun h => ReachableAvoiding.ne h rfl⟩
  -- the strict dominators of `B`
  have hstrict : ∀ d, d ∈ (doms B).filter (fun d => decide (d ≠ B)) ↔ d ∈ doms B ∧ d ≠ B := by
    intro d
    simp [List.mem_filter]
  have hentry_mem : entry ∈ (doms B).filter (fun d => decide (d ≠ B)) :=
    (hstrict entry).mpr ⟨(hiff entry B).mpr ⟨hentry, not_ReachableAvoiding_entry g entry B⟩,
      fun h => hBe h.symm⟩
  -- a strict dominator with the largest dominator set dominates no other one
  obtain ⟨i, hi, hmax⟩ := Finset.exists_max_image
    ((doms B).filter (fun d => decide (d ≠ B))).toFinset
    (fun i => (doms i).toFinset.card) ⟨entry, List.mem_toFinset.mpr hentry_mem⟩
  rw [List.mem_toFinset] at hi
  have hclosest : ∀ d, d ∈ (doms B).filter (fun d => decide (d ≠ B)) → d ≠ i →
      i ∉ doms d := by
    intro d hd hdi hid
    have hdB := (hstrict d).mp hd
    have hiB := (hstrict i).mp hi
    have hlt : (doms i).toFinset.card < (doms d).toFinset.card := by
      apply Finset.card_lt_card
      rw [Finset.ssubset_iff_of_subset]
      · refine ⟨d, List.mem_toFinset.mpr (hrefl d ((hiff d B).mp hdB.1).1), ?_⟩
        rw [List.mem_toFinset]
        intro hdi'
        rcases Reachable.avoids_other i d (fun h => hdi h.symm)
          (hreach i hiB.1) with ⟨h, _⟩ | h | h
        · exact ReachableAvoiding.ne h rfl
        · exact ((hiff i d).mp hid).2 h
        · exact ((hiff d i).mp hdi').2 h
      · intro x hx
        rw [List.mem_toFinset] at hx ⊢
        have hxi := (hiff x i).mp hx
        refine (hiff x d).mpr ⟨hxi.1, fun hav => ?_⟩
        rcases ReachableAvoiding.trans i hav with h | h
        · exact hxi.2 h
        · exact ((hiff i d).mp hid).2 h
    have := hmax d (List.mem_toFinset.mpr hd)
    omega
  -- so the search finds one
  cases hfind : MIRGraph.immediateDominator doms B with
  | none =>
    exfalso
    simp only [MIRGraph.immediateDominator, List.find?_eq_none] at hfind
    apply hfind i hi
    rw [List.all_eq_true]
    intro d hd
    by_cases hdi : d = i
    · simp [hdi]
    · simp [hdi, hclosest d hd hdi]
  | some I =>
    have hI : I ∈ (doms B).filter (fun d => decide (d ≠ B)) := by
      simp only [MIRGraph.immediateDominator] at hfind
      exact List.mem_of_find?_eq_some hfind
    have hP := List.find?_some (by simpa only [MIRGraph.immediateDominator] using hfind)
    rw [List.all_eq_true] at hP
    have hIB := (hstrict I).mp hI
    refine ⟨I, rfl, hIB.1, hIB.2, fun D hD hDB => ?_⟩
    by_cases hDI : D = I
    · rw [hDI]
      exact hrefl I ((hiff I B).mp hIB.1).1
    · have hPD := hP D ((hstrict D).mpr ⟨hD, hDB⟩)
      simp only [hDI, decide_False, Bool.false_or, Bool.not_eq_true', decide_eq_false_iff_not]
        at hPD
      by_contra hnot
      have hDlt := ((hiff D B).mp hD).1
      have hIlt := ((hiff I B).mp hIB.1).1
      have h12 : g.ReachableAvoiding entry I D := by
        by_contra h
        exact hPD ((hiff I D).mpr ⟨hIlt, h⟩)
      have h21 : g.ReachableAvoiding entry D I := by
        by_contra h
        exact hnot ((hiff D I).mpr ⟨hDlt, h⟩)
      rcases Reachable.avoids_one h12 h21 hB with h | h
      · exact ((hiff I B).mp hIB.1).2 h
      · exact ((hiff D B).mp hD).2 h

/-! ## Theorems: ComputeDominators -/

/-- A reachable block other than the entry has a predecessor. -/
theorem Reachable.has_predecessor {g : MIRGraph} {entry b : Nat}
    (h : g.Reachable entry b) : b = entry ∨ ∃ p, p ∈ g.predecessorsOf b := by
  cases h with
  | entry => exact Or.inl rfl
  | step _ hp => exact Or.inr ⟨_, hp⟩

/-- C13: the dominance computation ends, and afterwards, for every reachable block `B`
other than the entry block, `i_dom` is a dominator of `B` other than `B`, and every other
dominator of `B` (every member of `B`'s `dominators` other than `B`) is in the `dominators`
of the block `i_dom`; the `dominators` of `B` are the blocks that lie on every path from the
entry to `B`; the entry block is dominated by itself only and its `i_dom` is
`NullBasicBlockId`: it has no immediate dominator. -/
theorem ComputeDominators_i_dom_dominated (g : MIRGraph) (entry : Nat) (order : List Nat)
    (hentry : entry < g.GetBasicBlockListCount)
    (horder : ∀ b, g.Reachable entry b → b ≠ entry → b ∈ order) :
    ∃ g2, g.ComputeDominators entry order = some g2 ∧
      (∀ B bb, g2.block_list_[B]? = some bb → g.Reachable entry B → B ≠ entry →
        bb.i_dom ∈ bb.dominators ∧ bb.i_dom ≠ B ∧
        (∃ idom_bb, g2.block_list_[bb.i_dom]? = some idom_bb ∧
          ∀ D ∈ bb.dominators, D ≠ B → D ∈ idom_bb.dominators) ∧
        (∀ D, D ∈ bb.dominators ↔
          D < g.GetBasicBlockListCount ∧ ¬ g.ReachableAvoiding entry D B)) ∧
      (∀ bb, g2.block_list_[entry]? = some bb →
        bb.i_dom = NullBasicBlockId ∧ bb.dominators = [entry]) := by
  obtain ⟨doms, hrun, hinv, hfix⟩ := iterateDominators_spec g entry order
    (order.length * g.GetBasicBlockListCount + 1) (g.InitializeDominationInfo entry)
    (DomInv_init g entry) (Nat.lt_succ_of_le (domMeasure_init g entry order hentry))
  have hget : ∀ b bb, (g.withDominance doms).block_list_[b]? = some bb →
      bb.dominators = doms b ∧
        bb.i_dom = (MIRGraph.immediateDominator doms b).getD NullBasicBlockId := by
    intro b bb hbb
    simp only [MIRGraph.withDominance] at hbb
    rw [List.getElem?_mapIdx] at hbb
    cases hb0 : g.block_list_[b]? with
    | none => rw [hb0] at hbb; cases hbb
    | some bb0 =>
      rw [hb0] at hbb
      simp only [Option.map_some', Option.some.injEq] at hbb
      rw [← hbb]
      exact ⟨rfl, rfl⟩
  refine ⟨g.withDominance doms, by simp only [MIRGraph.ComputeDominators, hrun], ?_, ?_⟩
  · intro B bb hbb hB hBe
    obtain ⟨hd, hi⟩ := hget B bb hbb
    obtain ⟨I, hI, hIB, hIne, hall⟩ :=
      immediateDominator_spec g entry order doms hentry hinv hfix horder B hB hBe
    rw [hI, Option.getD_some] at hi
    have hIlt : I < g.block_list_.length := mem_doms_lt g entry doms hentry hinv B I hIB
    refine ⟨by rw [hi, hd]; exact hIB, by rw [hi]; exact hIne, ?_, ?_⟩
    · refine ⟨{ g.block_list_[I] with
          dominators := doms I
          i_dom := (MIRGraph.immediateDominator doms I).getD NullBasicBlockId }, ?_, ?_⟩
      · rw [hi]
        simp only [MIRGraph.withDominance]
        rw [List.getElem?_mapIdx]
        simp [hIlt]
      · intro D hD hDB
        rw [hd] at hD
        exact hall D hD hDB
    · intro D
      rw [hd]
      exact mem_doms_iff_dominates g entry order doms hentry hinv hfix horder D B
  · intro bb hbb
    obtain ⟨hd, hi⟩ := hget entry bb hbb
    rw [hd, hi, hinv.1]
    simp [MIRGraph.immediateDominator, hinv.1]

/-- C13, on the diamond `exampleDiamond` with entry block 1, traversed in the order
1, 2, 3, 4: blocks 2, 3 and 4 get the immediate dominator 1 and the entry block gets
`NullBasicBlockId`. -/
theorem ComputeDominators_i_dom_dominated_witness :
    (exampleDiamond.ComputeDominators 1 [1, 2, 3, 4]).map MIRGraph.dominanceFields =
      some [(2, [0, 1, 2, 3, 4]), (0, [1]), (1, [1, 2]), (1, [1, 3]), (1, [1, 4])] ∧
    ∃ g2, exampleDiamond.ComputeDominators 1 [1, 2, 3, 4] = some g2 ∧
      (∀ B bb, g2.block_list_[B]? = some bb → exampleDiamond.Reachable 1 B → B ≠ 1 →
        bb.i_dom ∈ bb.dominators ∧ bb.i_dom ≠ B ∧
        (∃ idom_bb, g2.block_list_[bb.i_dom]? = some idom_bb ∧
          ∀ D ∈ bb.dominators, D ≠ B → D ∈ idom_bb.dominators) ∧
        (∀ D, D ∈ bb.dominators ↔
          D < exampleDiamond.GetBasicBlockListCount ∧
            ¬ exampleDiamond.ReachableAvoiding 1 D B)) ∧
      (∀ bb, g2.block_list_[1]? = some bb →
        bb.i_dom = NullBasicBlockId ∧ bb.dominators = [1]) :=
  ⟨by decide,
    ComputeDominators_i_dom_dominated exampleDiamond 1 [1, 2, 3, 4] (by decide)
      (by
        intro b hb hne
        rcases Reachable.has_predecessor hb with h | ⟨p, hp⟩
        · exact absurd h hne
        · have hlt : b < 5 := by
            by_contra hge
            have hnone : exampleDiamond.block_list_[b]? = none :=
              List.getElem?_eq_none (by simp [exampleDiamond]; omega)
            simp [MIRGraph.predecessorsOf, hnone] at hp
          interval_cases b
          · simp [MIRGraph.predecessorsOf, exampleDiamond, exampleBlock] at hp
          · exact absurd rfl hne
          · decide
          · decide
          · decide)⟩

/-! ## Theorems: MethodHelper -/

/-- The number of arguments of a method whose shorty holds at least the return type. -/
theorem NumArgs_eq (mh : MethodHelper) (hret : 1 ≤ mh.GetShortyLength)
    (hlen : mh.GetShortyLength < 2 ^ 32) :
    mh.NumArgs = if mh.IsStatic then mh.GetShortyLength - 1 else mh.GetShortyLength := by
  norm_num at hlen
  cases hs : mh.IsStatic
  · simp only [MethodHelper.NumArgs, hs, Bool.false_eq_true, if_false]
    norm_num
    omega
  · simp only [MethodHelper.NumArgs, hs, if_true]
    norm_num
    omega

/-- C21: for a method whose shorty has length `L`, return type included (`L >= 1`, and `L`
is a `uint32_t`), `NumArgs()` is `L - 1` for a static method and `L` for an instance
method. For every `param < NumArgs()`, `GetParamPrimitiveType(param)` returns `kPrimNot`
for parameter 0 of an instance method without reading the shorty, and otherwise returns the
type of the character it reads at `shorty[param + 1]` (static) or `shorty[param]`
(instance); the index read lies in `[1, L - 1]`, so it is a character of the shorty and
never the return type. -/
theorem GetParamPrimitiveType_reads_inside_shorty (GetType : Char → PrimitiveType)
    (mh : MethodHelper) (hret : 1 ≤ mh.GetShortyLength)
    (hlen : mh.GetShortyLength < 2 ^ 32) :
    (mh.NumArgs = if mh.IsStatic then mh.GetShortyLength - 1 else mh.GetShortyLength) ∧
    ∀ param, param < mh.NumArgs →
      (mh.IsStatic = false → param = 0 →
        mh.GetParamPrimitiveType GetType param = .noRead .kPrimNot) ∧
      (mh.IsStatic = true →
        ∃ c, mh.shorty[param + 1]? = some c ∧
          mh.GetParamPrimitiveType GetType param = .read (param + 1) (GetType c) ∧
          1 ≤ param + 1 ∧ param + 1 ≤ mh.GetShortyLength - 1) ∧
      (mh.IsStatic = false → param ≠ 0 →
        ∃ c, mh.shorty[param]? = some c ∧
          mh.GetParamPrimitiveType GetType param = .read param (GetType c) ∧
          1 ≤ param ∧ param ≤ mh.GetShortyLength - 1) := by
  have hnum := NumArgs_eq mh hret hlen
  refine ⟨hnum, fun param hparam => ⟨fun hs h0 => ?_, fun hs => ?_, fun hs h0 => ?_⟩⟩
  · rw [MethodHelper.GetParamPrimitiveType, if_neg (not_not.mpr hparam)]
    simp [hs, h0]
  · rw [hs] at hnum
    simp only [if_true] at hnum
    simp only [MethodHelper.GetShortyLength] at hnum hret hlen ⊢
    norm_num at hlen
    have hlt : param + 1 < mh.shorty.length := by omega
    have hsz : toSizeT ((param : Int) + 1) = param + 1 := by
      simp only [toSizeT]
      norm_num
      omega
    refine ⟨mh.shorty[param + 1], by simp [hlt], ?_, by omega, by omega⟩
    simp [MethodHelper.GetParamPrimitiveType, hparam, hs, hsz, hlt]
  · rw [hs] at hnum
    simp only [Bool.false_eq_true, if_false] at hnum
    simp only [MethodHelper.GetShortyLength] at hnum hret hlen ⊢
    have hlt : param < mh.shorty.length := by omega
    refine ⟨mh.shorty[param], by simp [hlt], ?_, by omega, by omega⟩
    simp [MethodHelper.GetParamPrimitiveType, hparam, hs, h0, hlt]

/-- C21, at the static method with shorty `VIJ` (two arguments) and the instance method with
shorty `ZL` (the receiver and one argument), with a `GetType` that knows `J` and `L`. -/
theorem GetParamPrimitiveType_reads_inside_shorty_witness :
    (⟨true, ['V', 'I', 'J']⟩ : MethodHelper).NumArgs = 2 ∧
    (⟨true, ['V', 'I', 'J']⟩ : MethodHelper).GetParamPrimitiveType
      (fun c => if c = 'J' then .kPrimLong else if c = 'L' then .kPrimNot else .other) 1 =
      .read 2 .kPrimLong ∧
    (⟨false, ['Z', 'L']⟩ : MethodHelper).GetParamPrimitiveType
      (fun c => if c = 'J' then .kPrimLong else if c = 'L' then .kPrimNot else .other) 0 =
      .noRead .kPrimNot ∧
    ((⟨true, ['V', 'I', 'J']⟩ : MethodHelper).NumArgs =
      if (⟨true, ['V', 'I', 'J']⟩ : MethodHelper).IsStatic
      then (⟨true, ['V', 'I', 'J']⟩ : MethodHelper).GetShortyLength - 1
      else (⟨true, ['V', 'I', 'J']⟩ : MethodHelper).GetShortyLength) :=
  ⟨by decide, by decide, by decide,
    (GetParamPrimitiveType_reads_inside_shorty
      (fun c => if c = 'J' then .kPrimLong else if c = 'L' then .kPrimNot else .other)
      ⟨true, ['V', 'I', 'J']⟩ (by decide) (by decide)).1⟩

/-! ## Theorems: monitor entrypoints -/

/-- C22: `artLockObjectFromCode` returns `-1` iff `obj` is `NULL`; then a
`NullPointerException` is thrown and `MonitorEnter` is not called; for an object it calls
`MonitorEnter` once and returns `0` (in a debug build, given that the thread then holds the
lock and has no pending exception, as the two `CHECK`s after `MonitorEnter` require).
`artUnlockObjectFromCode` returns `0` iff `obj` is not `NULL` and `MonitorExit` returns
true; for `NULL` it throws a `NullPointerException` and returns `-1` without calling
`MonitorExit`. -/
theorem lock_entrypoints_report_failure (kIsDebugBuild holds_lock exception_pending : Bool)
    (monitor_exit : Bool) (obj : Option Nat)
    (hchecks : kIsDebugBuild = true → holds_lock = true ∧ exception_pending = false) :
    (((artLockObjectFromCode kIsDebugBuild holds_lock exception_pending obj).1 =
        .returned (-1)) ↔ obj = none) ∧
    (obj = none →
      artLockObjectFromCode kIsDebugBuild holds_lock exception_pending obj =
        (.returned (-1), [.FinishCalleeSaveFrameSetup, .GetCurrentLocationForThrow,
          .ThrowNullPointerException .monitor_enter])) ∧
    (∀ o, obj = some o →
      artLockObjectFromCode kIsDebugBuild holds_lock exception_pending obj =
        (.returned 0, [.FinishCalleeSaveFrameSetup, .MonitorEnter o]) ∧
      (artLockObjectFromCode kIsDebugBuild holds_lock exception_pending obj).2.count
        (.MonitorEnter o) = 1) ∧
    (((artUnlockObjectFromCode monitor_exit obj).1 = .returned 0) ↔
      (obj ≠ none ∧ monitor_exit = true)) ∧
    (obj = none →
      artUnlockObjectFromCode monitor_exit obj =
        (.returned (-1), [.FinishCalleeSaveFrameSetup, .GetCurrentLocationForThrow,
          .ThrowNullPointerException .monitor_exit])) ∧
    (∀ o, obj = some o →
      artUnlockObjectFromCode monitor_exit obj =
        (.returned (if monitor_exit then 0 else -1),
          [.FinishCalleeSaveFrameSetup, .MonitorExit o])) := by
  cases obj with
  | none => simp [artLockObjectFromCode, artUnlockObjectFromCode]
  | some o =>
    have hlock : artLockObjectFromCode kIsDebugBuild holds_lock exception_pending (some o) =
        (.returned 0, [.FinishCalleeSaveFrameSetup, .MonitorEnter o]) := by
      cases hd : kIsDebugBuild
      · simp [artLockObjectFromCode]
      · obtain ⟨h1, h2⟩ := hchecks hd
        simp [artLockObjectFromCode, h1, h2]
    rw [hlock]
    cases monitor_exit <;> simp [artUnlockObjectFromCode]

/-- C22, at the object 5 in a debug build whose checks pass, with `MonitorExit` returning
true, and at `NULL`. -/
theorem lock_entrypoints_report_failure_witness :
    artLockObjectFromCode true true false (some 5) =
      (.returned 0, [.FinishCalleeSaveFrameSetup, .MonitorEnter 5]) ∧
    artLockObjectFromCode true true false none =
      (.returned (-1), [.FinishCalleeSaveFrameSetup, .GetCurrentLocationForThrow,
        .ThrowNullPointerException .monitor_enter]) ∧
    (((artUnlockObjectFromCode true (some 5)).1 = .returned 0) ↔
      ((some 5 : Option Nat) ≠ none ∧ true = true)) :=
  ⟨((lock_entrypoints_report_failure true true false true (some 5)
      (fun _ => ⟨rfl, rfl⟩)).2.2.1 5 rfl).1,
    (lock_entrypoints_report_failure true true false true none
      (fun _ => ⟨rfl, rfl⟩)).2.1 rfl,
    (lock_entrypoints_report_failure true true false true (some 5)
      (fun _ => ⟨rfl, rfl⟩)).2.2.2.1⟩

/-! ## Theorems: ValgrindMallocSpace -/

/-- A machine word that is in range is its own wrap. -/
theorem wrapWord_of_lt (bits x : Nat) (h : x < 2 ^ bits) : wrapWord bits (x : Int) = x := by
  unfold wrapWord
  have h2 : ((x : Int) % 2 ^ bits) = x := by
    have : ((2 : Int) ^ bits) = ((2 ^ bits : Nat) : Int) := by push_cast; rfl
    rw [this]
    exact Int.emod_eq_of_lt (by omega) (by exact_mod_cast h)
  rw [h2]
  rfl

/-- Stepping a pointer back over the red zone does not wrap when the pointer is at least
eight. -/
theorem wrapWord_sub_red_zone (bits p : Nat) (h8 : 8 ≤ p) (h : p < 2 ^ bits) :
    wrapWord bits ((p : Int) - kValgrindRedZoneBytes) = p - 8 := by
  have h1 : ((p : Int) - kValgrindRedZoneBytes) = ((p - 8 : Nat) : Int) := by
    simp only [kValgrindRedZoneBytes]
    omega
  rw [h1]
  exact wrapWord_of_lt bits (p - 8) (by omega)

/-- C23 fails as stated, in a build with 32-bit `size_t` and in one with 64-bit `size_t`:
for `num_bytes = 2^32 - 8` (resp. `2^64 - 8`) the sum with the two red zones wraps and
`Alloc` asks the base space for 8 bytes, not for `num_bytes + 16`; with the base block at
address 4096 the pointer returned is 4104 and the second red zone is marked at 4096, on top
of the first one. -/
theorem ValgrindMallocSpace_Alloc_request_wraps :
    (ValgrindMallocSpace.Alloc 32 (fun _ => 4096) 4294967288 =
      (4104, [.BaseAlloc 8, .VALGRIND_MAKE_MEM_NOACCESS 4096 8,
        .VALGRIND_MAKE_MEM_NOACCESS 4096 8]) ∧
      4294967288 < 2 ^ 32 ∧ (8 : Nat) ≠ 4294967288 + 16) ∧
    (ValgrindMallocSpace.Alloc 64 (fun _ => 4096) 18446744073709551608 =
      (4104, [.BaseAlloc 8, .VALGRIND_MAKE_MEM_NOACCESS 4096 8,
        .VALGRIND_MAKE_MEM_NOACCESS 4096 8]) ∧
      18446744073709551608 < 2 ^ 64 ∧ (8 : Nat) ≠ 18446744073709551608 + 16) := by
  decide

/-- C23, amended: in a build with `size_t` and pointers of any width `bits`, for every
`num_bytes` `n` for which `n + 16` does not overflow `size_t`, `Alloc` and
`AllocWithGrowth` request `n + 16` bytes from the base space and, the block the base
returns lying inside the address space, return `NULL` iff the base does; for a base pointer
`b` they return `b + 8` and mark the red zones `[b, b + 8)` and `[b + 8 + n, b + 16 + n)`,
which together with the user region `[b + 8, b + 8 + n)` tile the block `[b, b + n + 16)`
without overlap. `Free(p)` and `AllocationSize(p)` address the base space at `p - 8` in
pointer arithmetic, which is the number `p - 8` for every pointer from 8 on, so `Free` of
the pointer returned for `b` frees `b`. -/
theorem ValgrindMallocSpace_red_zones (bits : Nat) (base_Alloc : Nat → Nat)
    (base_AllocationSize base_Free : Nat → Nat) (n : Nat) (hn : n + 16 < 2 ^ bits)
    (hblock : base_Alloc (n + 16) ≠ NULL → base_Alloc (n + 16) + (n + 16) ≤ 2 ^ bits) :
    ((ValgrindMallocSpace.Alloc bits base_Alloc n).2.head? = some (.BaseAlloc (n + 16)) ∧
      (ValgrindMallocSpace.AllocWithGrowth bits base_Alloc n).2.head? =
        some (.BaseAllocWithGrowth (n + 16))) ∧
    (((ValgrindMallocSpace.Alloc bits base_Alloc n).1 = NULL ↔ base_Alloc (n + 16) = NULL) ∧
      ((ValgrindMallocSpace.AllocWithGrowth bits base_Alloc n).1 = NULL ↔
        base_Alloc (n + 16) = NULL)) ∧
    (∀ b, base_Alloc (n + 16) = b → b ≠ NULL →
      ValgrindMallocSpace.Alloc bits base_Alloc n =
        (b + 8, [.BaseAlloc (n + 16), .VALGRIND_MAKE_MEM_NOACCESS b 8,
          .VALGRIND_MAKE_MEM_NOACCESS (b + 8 + n) 8]) ∧
      ValgrindMallocSpace.AllocWithGrowth bits base_Alloc n =
        (b + 8, [.BaseAllocWithGrowth (n + 16), .VALGRIND_MAKE_MEM_NOACCESS b 8,
          .VALGRIND_MAKE_MEM_NOACCESS (b + 8 + n) 8]) ∧
      (∀ a : Nat, (b ≤ a ∧ a < b + (n + 16)) ↔
        ((b ≤ a ∧ a < b + 8) ∨ (b + 8 ≤ a ∧ a < b + 8 + n) ∨
          (b + 8 + n ≤ a ∧ a < b + 8 + n + 8))) ∧
      (∀ a : Nat, ¬ ((b ≤ a ∧ a < b + 8) ∧ (b + 8 ≤ a ∧ a < b + 8 + n)) ∧
        ¬ ((b ≤ a ∧ a < b + 8) ∧ (b + 8 + n ≤ a ∧ a < b + 8 + n + 8)) ∧
        ¬ ((b + 8 ≤ a ∧ a < b + 8 + n) ∧ (b + 8 + n ≤ a ∧ a < b + 8 + n + 8))) ∧
      b + 8 + n + 8 ≤ 2 ^ bits ∧
      (ValgrindMallocSpace.Free bits base_AllocationSize base_Free
          (ValgrindMallocSpace.Alloc bits base_Alloc n).1).2 =
        [.BaseAllocationSize b, .VALGRIND_MAKE_MEM_UNDEFINED b (base_AllocationSize b),
          .BaseFree b]) ∧
    (∀ p : Nat,
      (ValgrindMallocSpace.Free bits base_AllocationSize base_Free p).2 =
        [.BaseAllocationSize (wrapWord bits ((p : Int) - 8)),
          .VALGRIND_MAKE_MEM_UNDEFINED (wrapWord bits ((p : Int) - 8))
            (base_AllocationSize (wrapWord bits ((p : Int) - 8))),
          .BaseFree (wrapWord bits ((p : Int) - 8))] ∧
      (ValgrindMallocSpace.AllocationSize bits base_AllocationSize p).2 =
        [.BaseAllocationSize (wrapWord bits ((p : Int) - 8))] ∧
      (8 ≤ p → p < 2 ^ bits → wrapWord bits ((p : Int) - 8) = p - 8)) := by
  have hreq : wrapWord bits ((n + 2 * kValgrindRedZoneBytes : Nat) : Int) = n + 16 :=
    wrapWord_of_lt bits _ (by simp only [kValgrindRedZoneBytes]; omega)
  have hres : ∀ b, base_Alloc (n + 16) = b → b ≠ NULL →
      wrapWord bits ((b + kValgrindRedZoneBytes : Nat) : Int) = b + 8 ∧
      wrapWord bits ((b + 8 + n : Nat) : Int) = b + 8 + n ∧ b + 8 + n + 8 ≤ 2 ^ bits := by
    intro b hb hnull
    have hfit := hblock (hb ▸ hnull)
    rw [hb] at hfit
    exact ⟨wrapWord_of_lt bits _ (by simp only [kValgrindRedZoneBytes]; omega),
      wrapWord_of_lt bits _ (by omega), by omega⟩
  have halloc : ∀ b, base_Alloc (n + 16) = b → b ≠ NULL →
      ValgrindMallocSpace.Alloc bits base_Alloc n =
        (b + 8, [.BaseAlloc (n + 16), .VALGRIND_MAKE_MEM_NOACCESS b 8,
          .VALGRIND_MAKE_MEM_NOACCESS (b + 8 + n) 8]) := by
    intro b hb hnull
    obtain ⟨h1, h2, _⟩ := hres b hb hnull
    simp only [ValgrindMallocSpace.Alloc, hreq, hb, if_neg hnull, h1, h2]
    rfl
  have hgrow : ∀ b, base_Alloc (n + 16) = b → b ≠ NULL →
      ValgrindMallocSpace.AllocWithGrowth bits base_Alloc n =
        (b + 8, [.BaseAllocWithGrowth (n + 16), .VALGRIND_MAKE_MEM_NOACCESS b 8,
          .VALGRIND_MAKE_MEM_NOACCESS (b + 8 + n) 8]) := by
    intro b hb hnull
    obtain ⟨h1, h2, _⟩ := hres b hb hnull
    simp only [ValgrindMallocSpace.AllocWithGrowth, hreq, hb, if_neg hnull, h1, h2]
    rfl
  refine ⟨⟨?_, ?_⟩, ⟨?_, ?_⟩,
    fun b hb hnull => ⟨halloc b hb hnull, hgrow b hb hnull, fun a => ?_, fun a => ?_,
      (hres b hb hnull).2.2, ?_⟩,
    fun p => ⟨?_, ?_, fun h8 hp => ?_⟩⟩
  · simp only [ValgrindMallocSpace.Alloc, hreq]
    split <;> rfl
  · simp only [ValgrindMallocSpace.AllocWithGrowth, hreq]
    split <;> rfl
  · by_cases hnull : base_Alloc (n + 16) = NULL
    · simp only [ValgrindMallocSpace.Alloc, hreq, if_pos hnull]
      exact ⟨fun _ => hnull, fun _ => trivial⟩
    · rw [halloc _ rfl hnull]
      refine ⟨fun h => ?_, fun h => absurd h hnull⟩
      simp [NULL] at h
  · by_cases hnull : base_Alloc (n + 16) = NULL
    · simp only [ValgrindMallocSpace.AllocWithGrowth, hreq, if_pos hnull]
      exact ⟨fun _ => hnull, fun _ => trivial⟩
    · rw [hgrow _ rfl hnull]
      refine ⟨fun h => ?_, fun h => absurd h hnull⟩
      simp [NULL] at h
  · omega
  · omega
  · rw [halloc b hb hnull]
    have hb8 : wrapWord bits (((b + 8 : Nat) : Int) - kValgrindRedZoneBytes) = b := by
      have := wrapWord_sub_red_zone bits (b + 8) (by omega)
        (by have := (hres b hb hnull).2.2; omega)
      simpa using this
    simp only [ValgrindMallocSpace.Free, hb8]
  · simp [ValgrindMallocSpace.Free, kValgrindRedZoneBytes]
  · simp [ValgrindMallocSpace.AllocationSize, kValgrindRedZoneBytes]
  · have := wrapWord_sub_red_zone bits p h8 hp
    simpa [kValgrindRedZoneBytes] using this

/-- C23, amended, at a request of 24 bytes that the base space answers with the block at
address 4096, in a 32-bit and in a 64-bit build: the base is asked for 40 bytes, the
pointer returned is 4104, and freeing it frees 4096 and reports 24 bytes. -/
theorem ValgrindMallocSpace_red_zones_witness :
    (ValgrindMallocSpace.Alloc 32 (fun _ => 4096) 24 =
      (4096 + 8, [.BaseAlloc (24 + 16), .VALGRIND_MAKE_MEM_NOACCESS 4096 8,
        .VALGRIND_MAKE_MEM_NOACCESS (4096 + 8 + 24) 8]) ∧
      ValgrindMallocSpace.Alloc 64 (fun _ => 4096) 24 =
      (4096 + 8, [.BaseAlloc (24 + 16), .VALGRIND_MAKE_MEM_NOACCESS 4096 8,
        .VALGRIND_MAKE_MEM_NOACCESS (4096 + 8 + 24) 8])) ∧
    (ValgrindMallocSpace.Free 32 (fun _ => 40) (fun _ => 40)
        (ValgrindMallocSpace.Alloc 32 (fun _ => 4096) 24).1).2 =
      [.BaseAllocationSize 4096, .VALGRIND_MAKE_MEM_UNDEFINED 4096 ((fun _ => 40) 4096),
        .BaseFree 4096] ∧
    (ValgrindMallocSpace.Free 32 (fun _ => 40) (fun _ => 40) 4104).1 = 24 :=
  ⟨⟨((ValgrindMallocSpace_red_zones 32 (fun _ => 4096) (fun _ => 40) (fun _ => 40) 24
        (by decide) (fun _ => by decide)).2.2.1 4096 rfl (by decide)).1,
      ((ValgrindMallocSpace_red_zones 64 (fun _ => 4096) (fun _ => 40) (fun _ => 40) 24
        (by decide) (fun _ => by decide)).2.2.1 4096 rfl (by decide)).1⟩,
    ((ValgrindMallocSpace_red_zones 32 (fun _ => 4096) (fun _ => 40) (fun _ => 40) 24
      (by decide) (fun _ => by decide)).2.2.1 4096 rfl (by decide)).2.2.2.2.2,
    by decide⟩

end art
